import Mathlib

/-!
# The AIOS core: telemetry pipeline, minimal core, C API, orchestration, surface

A shallow embedding of `src/core/src/aios_plugin_telemetry.cpp` (the
publication bus, the JSON file sink and the sampler), of
`aios_core_minimal.cpp`, of the C API in `aios_core_api.cpp` with the engine of
`minimal_consciousness_engine.cpp`, of the task queue of
`orchestrator/src/AIOrchestrationController.cpp` and of
`tachyonic_surface.cpp`, followed by the properties proved about them.

C++ `double` values are kept abstract: every definition of the telemetry
pipeline is parametric in a type `F` of doubles and a record `DoubleOps F` of
the operations the code applies to them, so a statement proved for every
`DoubleOps F` holds for IEEE binary64 as well as for exact arithmetic.
`exactOps` is the instance over the rationals with exact arithmetic,
`binary64Ops` the instance in which every operation rounds its exact result to
binary64, and `ieeeOps` the instance with the infinities, NaN and the negative
zero; they are used wherever concrete numbers are evaluated.
-/

namespace aios

/-! ## Doubles -/

/-- The operations on `double` that the telemetry code uses: `*`, `+`, the
test `x < 0`, the literals `-1`, `1.0`, `0.9`, `0.1`, and the rendering done
by `operator<<` on an output stream.  The one law is that `-1 < 0`.  What
the stream prints is given by `renderFinite` and, with NaN and the infinities,
by `IeeeDouble.render`; the instances below render with them. -/
structure DoubleOps (F : Type) where
  mul : F → F → F
  add : F → F → F
  ltZero : F → Bool
  negOne : F
  one : F
  c09 : F
  c01 : F
  render : F → String
  negOne_ltZero : ltZero negOne = true

/-! ## Rendering of doubles -/

/-- Auxiliary for `decimalExponent`: the largest `k` from `k` on with
`d * 10^k ≤ n`, searched with fuel. -/
def exponentUp (n d : Nat) : Nat → Nat → Nat
  | 0, k => k
  | fuel + 1, k => if d * 10 ^ (k + 1) ≤ n then exponentUp n d fuel (k + 1) else k

/-- Auxiliary for `decimalExponent`: the smallest `k` from `k` on with
`d ≤ n * 10^k`, searched with fuel. -/
def exponentDown (n d : Nat) : Nat → Nat → Nat
  | 0, k => k
  | fuel + 1, k => if d ≤ n * 10 ^ k then k else exponentDown n d fuel (k + 1)

/-- The decimal exponent of the positive rational `n / d`: the `e` with
`10^e ≤ n / d < 10^(e+1)`. -/
def decimalExponent (n d : Nat) : Int :=
  if d ≤ n then (exponentUp n d n 0 : Int) else -(exponentDown n d d 1 : Int)

/-- The six significant decimal digits of the positive rational `n / d`, as a
number `m` with `100000 ≤ m < 1000000`, and the decimal exponent `X` of the
rounded value `m * 10^(X-5)`; a tie goes to the even `m`. -/
def sixDigits (n d : Nat) : Nat × Int :=
  let e : Int := decimalExponent n d
  let num : Nat := n * 10 ^ (5 - e).toNat
  let den : Nat := d * 10 ^ (e - 5).toNat
  let q : Nat := num / den
  let r : Nat := num % den
  let m : Nat := if 2 * r < den then q else if den < 2 * r then q + 1
    else if q % 2 = 0 then q else q + 1
  if m = 1000000 then (100000, e + 1) else (m, e)

/-- The `width` low decimal digits of `n`, the most significant first. -/
def digitList : Nat → Nat → List Nat
  | 0, _ => []
  | width + 1, n => (n / 10 ^ width % 10) :: digitList width n

/-- The digits without the zeros at the end. -/
def stripTrailingZeros (ds : List Nat) : List Nat :=
  (ds.reverse.dropWhile (fun x => x == 0)).reverse

/-- The characters of a list of decimal digits. -/
def digitChars (ds : List Nat) : List Char := ds.map Nat.digitChar

/-- The fraction part that `%g` prints for the digits `ds` after the point:
nothing when they are all zero, else the point and the digits without the
zeros at the end. -/
def fractionChars (ds : List Nat) : List Char :=
  if stripTrailingZeros ds = [] then [] else '.' :: digitChars (stripTrailingZeros ds)

/-- The exponent part that `%e` prints: `e`, the sign, at least two digits. -/
def exponentChars (X : Int) : List Char :=
  'e' :: (if X < 0 then '-' else '+')
    :: ((if X.natAbs < 10 then ['0'] else []) ++ (Nat.toDigits 10 X.natAbs))

/-- The text `printf("%g")` prints for the positive rational `n / d`: six
significant digits, in fixed notation when the decimal exponent `X` of the
rounded value has `-4 ≤ X < 6` and in exponent notation otherwise, without
zeros at the end of the fraction. -/
def magnitudeChars (n d : Nat) : List Char :=
  let m : Nat := (sixDigits n d).1
  let X : Int := (sixDigits n d).2
  if -4 ≤ X ∧ X < 6 then
    if 0 ≤ X then
      digitChars ((digitList 6 m).take (X.toNat + 1))
        ++ fractionChars ((digitList 6 m).drop (X.toNat + 1))
    else
      '0' :: fractionChars (List.replicate ((-X).toNat - 1) 0 ++ digitList 6 m)
  else
    digitChars (digitList 1 (m / 100000)) ++ fractionChars (digitList 5 m) ++ exponentChars X

/-- The text `operator<<` prints for a finite `double` of the value `q` on a
stream in its default state (`%g` with precision 6). -/
def renderFinite (q : ℚ) : String :=
  if q.num = 0 then "0"
  else String.mk ((if q.num < 0 then ['-'] else []) ++ magnitudeChars q.num.natAbs q.den)

/-- Exact rational arithmetic as an instance of the `double` operations. -/
def exactOps : DoubleOps ℚ where
  mul := fun a b => a * b
  add := fun a b => a + b
  ltZero := fun a => decide (a < 0)
  negOne := -1
  one := 1
  c09 := 9 / 10
  c01 := 1 / 10
  render := renderFinite
  negOne_ltZero := by decide

/-- Width of `uint64_t` and (on the 64-bit targets of the code) `size_t`. -/
def U64 : Nat := 2 ^ 64

/-! ## Sampler state -/

/-- Fields of `TelemetrySampler::Impl` (lines 46-53).  `th` records whether
the `std::thread` member holds a joinable worker; `spawned` is a ghost
counter of the workers this instance has created; the mutex carries no data. -/
structure Impl (F : Type) where
  running : Bool
  th : Bool
  interval : F
  seq : Nat
  last_frame_ms : F
  avg_frame_ms : F
  spawned : Nat
  deriving DecidableEq

/-- A freshly constructed `Impl`: the member initialisers of lines 47-53. -/
def Impl.fresh {F : Type} (A : DoubleOps F) : Impl F :=
  { running := false
    th := false
    interval := A.one
    seq := 0
    last_frame_ms := A.negOne
    avg_frame_ms := A.negOne
    spawned := 0 }

/-- The body of `TelemetrySampler::record_frame` (line 114). -/
def record_frame {F : Type} (A : DoubleOps F) (impl : Impl F) (frame_time_ms : F) : Impl F :=
  let impl1 := { impl with last_frame_ms := frame_time_ms }
  if A.ltZero impl1.avg_frame_ms then
    { impl1 with avg_frame_ms := frame_time_ms }
  else
    { impl1 with avg_frame_ms := A.add (A.mul impl1.avg_frame_ms A.c09) (A.mul frame_time_ms A.c01) }

/-- Successive `record_frame` calls with the frame times `ds`, in order. -/
def record_frames {F : Type} (A : DoubleOps F) (impl : Impl F) (ds : List F) : Impl F :=
  ds.foldl (record_frame A) impl

/-! ## Samples, file system, JSON file sink -/

/-- Modelled from the spec: the struct `CoreMetricSample`, declared in the
header `aios_plugin_telemetry.hpp` that is not among the sources.  The fields
are those the loop fills (lines 79-90) and `flush` prints (lines 38-40); the
five measurements are doubles and `sequence` is the "unsigned integer" of the
data model, as wide as the `uint64_t` counter it is assigned from. -/
structure CoreMetricSample (F : Type) where
  timestamp_sec : F
  sequence : Nat
  process_cpu_pct : F
  process_mem_mb : F
  frame_time_ms : F
  avg_frame_time_ms : F
  deriving DecidableEq

/-- Errors that can leave a function as a C++ exception:
`std::filesystem::filesystem_error` from `fs::create_directories`, and
the dereference of a handle that names no sink object. -/
inductive Exn where
  | filesystem_error (dir : String)
  | null_sink (handle : Nat)
  deriving DecidableEq

/-- The part of the file system the sink touches.  `canCreateDir` and
`canOpen` say whether `fs::create_directories` and opening a path for append
succeed; `content` is what each file holds, as the list of the lines appended
to it; `opens` is a ghost counter of the `std::ofstream` opens attempted. -/
structure FileSystem where
  canCreateDir : String → Bool
  canOpen : String → Bool
  content : String → List String
  opens : Nat

/-- The same file system with every open for append succeeding, or failing. -/
def FileSystem.setOpen (fs : FileSystem) (b : Bool) : FileSystem :=
  { fs with canOpen := fun _ => b }

/-- Members of `JsonFileTelemetrySink`: `dir_`, `flush_every_` (a `size_t`),
`buffer_` (a vector, oldest sample first) and `pending_` (a `size_t`). -/
structure JsonFileTelemetrySink (F : Type) where
  dir_ : String
  flush_every_ : Nat
  buffer_ : List (CoreMetricSample F)
  pending_ : Nat
  deriving DecidableEq

/-- Modelled from the spec: the initial value of `pending_`, whose member
initialiser is in the header that is not among the sources; zero, as "accepts
N-1 samples without any file write occurring, then on the N-th sample
performs exactly one flush" requires. -/
def pendingInitial : Nat := 0

/-- The constructor (lines 22-24): stores the directory and the threshold and
calls the throwing overload of `fs::create_directories`; `buffer_` starts as
the empty vector and `pending_` at `pendingInitial`. -/
def JsonFileTelemetrySink.new {F : Type} (fs : FileSystem) (root_dir : String)
    (flush_every : Nat) : Except Exn (JsonFileTelemetrySink F) :=
  if fs.canCreateDir root_dir then
    .ok { dir_ := root_dir, flush_every_ := flush_every, buffer_ := [],
          pending_ := pendingInitial }
  else
    .error (.filesystem_error root_dir)

/-- The file a sink appends to: `dir_ + "/core_metrics.json"` (line 34). -/
def JsonFileTelemetrySink.path {F : Type} (s : JsonFileTelemetrySink F) : String :=
  s.dir_ ++ "/core_metrics.json"

/-- The text one loop iteration of `flush` sends to the stream (lines 38-41). -/
def jsonLine {F : Type} (A : DoubleOps F) (s : CoreMetricSample F) : String :=
  "\x7b\"ts\":" ++ A.render s.timestamp_sec ++ ",\"seq\":" ++ toString s.sequence
    ++ ",\"cpu\":" ++ A.render s.process_cpu_pct ++ ",\"mem_mb\":" ++ A.render s.process_mem_mb
    ++ ",\"frame_ms\":" ++ A.render s.frame_time_ms
    ++ ",\"avg_frame_ms\":" ++ A.render s.avg_frame_time_ms
    ++ "\x7d\n"

/-- The body of `JsonFileTelemetrySink::flush` (lines 32-44).  The result is
the state after the call and the exception it raises, if any: the body has no
raising statement, an `std::ofstream` that fails to open only tests false. -/
def JsonFileTelemetrySink.flush {F : Type} (A : DoubleOps F) (s : JsonFileTelemetrySink F)
    (fs : FileSystem) : (JsonFileTelemetrySink F × FileSystem) × Option Exn :=
  if s.buffer_.isEmpty then ((s, fs), none)
  else
    let s1 := { s with pending_ := 0 }
    let fs1 := { fs with opens := fs.opens + 1 }
    if !fs1.canOpen s1.path then ((s1, fs1), none)
    else
      let fs2 := { fs1 with
        content := fun p =>
          if p = s1.path then fs1.content p ++ s1.buffer_.map (jsonLine A) else fs1.content p }
      (({ s1 with buffer_ := [] }, fs2), none)

/-- The first statement line of `on_sample` (line 26): `push_back` and
`pending_++` on a `size_t`. -/
def JsonFileTelemetrySink.push {F : Type} (s : JsonFileTelemetrySink F)
    (sample : CoreMetricSample F) : JsonFileTelemetrySink F :=
  { s with buffer_ := s.buffer_ ++ [sample], pending_ := (s.pending_ + 1) % U64 }

/-- The body of `JsonFileTelemetrySink::on_sample` (lines 25-28). -/
def JsonFileTelemetrySink.on_sample {F : Type} (A : DoubleOps F) (s : JsonFileTelemetrySink F)
    (fs : FileSystem) (sample : CoreMetricSample F) :
    (JsonFileTelemetrySink F × FileSystem) × Option Exn :=
  let s1 := s.push sample
  if s1.pending_ ≥ s1.flush_every_ then s1.flush A fs else ((s1, fs), none)

/-- A call made on a sink by its holder, with the outcome of the file open
that the call may attempt. -/
inductive SinkOp (F : Type) where
  | on_sample (sample : CoreMetricSample F) (canOpen : Bool)
  | flush (canOpen : Bool)
  deriving DecidableEq

/-- One call on a sink, on the file system as it stands at the call. -/
def sinkStep {F : Type} (A : DoubleOps F) (st : JsonFileTelemetrySink F × FileSystem)
    (op : SinkOp F) : JsonFileTelemetrySink F × FileSystem :=
  match op with
  | .on_sample sample b => (st.1.on_sample A (st.2.setOpen b) sample).1
  | .flush b => (st.1.flush A (st.2.setOpen b)).1

/-- A sequence of calls on a sink. -/
def sinkRun {F : Type} (A : DoubleOps F) (st : JsonFileTelemetrySink F × FileSystem)
    (ops : List (SinkOp F)) : JsonFileTelemetrySink F × FileSystem :=
  ops.foldl (sinkStep A) st

/-- Successive `on_sample` calls with the samples `xs`, in order, the file
system being left alone in between. -/
def acceptAll {F : Type} (A : DoubleOps F) (st : JsonFileTelemetrySink F × FileSystem)
    (xs : List (CoreMetricSample F)) : JsonFileTelemetrySink F × FileSystem :=
  xs.foldl (fun st x => (st.1.on_sample A st.2 x).1) st

/-- Whether every call of a history found its file open succeeding. -/
def SinkOp.opensOk {F : Type} : SinkOp F → Bool
  | .on_sample _ b => b
  | .flush b => b

/-! ## Publication bus -/

/-- Modelled from the spec: the virtual `on_sample` of a sink class other
than the JSON file sink.  The interface `ITelemetrySink` is declared in the
header that is not among the sources; by its contract, "accept one sample,
side-effecting, returning nothing, never throwing", such a sink is a
function on its own state `U`. -/
abbrev OnSample (F U : Type) : Type := U → CoreMetricSample F → U

/-- An object behind the `ITelemetrySink` interface: the JSON file sink of
this file, or a sink of some other class with state `U`. -/
inductive SinkObj (F U : Type) where
  | json (s : JsonFileTelemetrySink F)
  | custom (u : U)
  deriving DecidableEq

/-- The process-wide state the telemetry code works on: the sink objects
alive (`heap`, a `shared_ptr` being an index into it), the handle list
`TelemetryBus::sinks_` of the singleton bus, the function-local static
`sink_registered` of `start`, and the file system.  `calls` is a ghost log of
the `on_sample` calls dispatched, as (handle, sample). -/
structure Globals (F U : Type) where
  heap : List (SinkObj F U)
  sinks_ : List Nat
  sink_registered : Bool
  fs : FileSystem
  calls : List (Nat × CoreMetricSample F)

/-- The state of a process before any telemetry call: no sink object, an
empty bus, the static flag still false. -/
def Globals.init {F U : Type} (fs : FileSystem) : Globals F U :=
  { heap := [], sinks_ := [], sink_registered := false, fs := fs, calls := [] }

/-- The body of `TelemetryBus::register_sink` (line 17). -/
def register_sink {F U : Type} (g : Globals F U) (sink : Nat) : Globals F U :=
  { g with sinks_ := g.sinks_ ++ [sink] }

/-- The virtual call `s->on_sample(sample)` on the handle `r`: the body of
`JsonFileTelemetrySink::on_sample` for a JSON file sink, the function `V` for
a sink of another class; `calls` logs the call.  A handle that names no
object cannot be dereferenced. -/
def dispatch {F U : Type} (A : DoubleOps F) (V : OnSample F U)
    (g : Globals F U) (r : Nat) (sample : CoreMetricSample F) : Globals F U × Option Exn :=
  match g.heap[r]? with
  | none => (g, some (.null_sink r))
  | some (.json s) =>
      let res := s.on_sample A g.fs sample
      ({ g with heap := g.heap.set r (.json res.1.1), fs := res.1.2,
                calls := g.calls ++ [(r, sample)] }, res.2)
  | some (.custom u) =>
      ({ g with heap := g.heap.set r (.custom (V u sample)),
                calls := g.calls ++ [(r, sample)] }, none)

/-- The range-for loop of `publish` over the handles still to visit; an
exception raised by a sink leaves the loop. -/
def publishTo {F U : Type} (A : DoubleOps F) (V : OnSample F U)
    (sample : CoreMetricSample F) : List Nat → Globals F U → Globals F U × Option Exn
  | [], g => (g, none)
  | r :: rs, g =>
      match dispatch A V g r sample with
      | (g1, none) => publishTo A V sample rs g1
      | (g1, some e) => (g1, some e)

/-- The body of `TelemetryBus::publish` (line 18). -/
def publish {F U : Type} (A : DoubleOps F) (V : OnSample F U)
    (g : Globals F U) (sample : CoreMetricSample F) : Globals F U × Option Exn :=
  publishTo A V sample g.sinks_ g

/-! ## Sampler operations -/

/-- The directory of the default sink (line 105). -/
def defaultDir : String := "runtime_intelligence/logs/core"

/-- The default sink as `start` constructs it (line 105). -/
def defaultSink {F : Type} : JsonFileTelemetrySink F :=
  { dir_ := defaultDir, flush_every_ := 1, buffer_ := [], pending_ := pendingInitial }

/-- The block of `start` that registers the default sink (lines 103-108):
under the static flag, `make_shared` of the sink, which may raise, then
`register_sink`, then the flag is set. -/
def ensureDefaultSink {F U : Type} (g : Globals F U) : Except Exn (Globals F U) :=
  if !g.sink_registered then
    match (JsonFileTelemetrySink.new g.fs defaultDir 1 : Except Exn (JsonFileTelemetrySink F)) with
    | .error e => .error e
    | .ok sink =>
        let g1 := { g with heap := g.heap ++ [.json sink] }
        .ok { register_sink g1 g.heap.length with sink_registered := true }
  else .ok g

/-- The body of `TelemetrySampler::start` (lines 100-110): the state after
the call and the exception it raises, if any.  No assignment precedes the
construction of the sink, so a raising start leaves the state as it was. -/
def start {F U : Type} (g : Globals F U) (impl : Impl F) (interval_sec : F) :
    (Globals F U × Impl F) × Option Exn :=
  if impl.running then ((g, impl), none)
  else
    match ensureDefaultSink g with
    | .error e => ((g, impl), some e)
    | .ok g1 =>
        ((g1, { impl with interval := interval_sec, running := true, th := true,
                          spawned := impl.spawned + 1 }), none)

/-- The body of `TelemetrySampler::stop` (lines 111-113): after the join the
thread member holds no worker. -/
def stop {F : Type} (impl : Impl F) : Impl F :=
  if !impl.running then impl
  else { impl with running := false, th := false }

/-- The sample one iteration of `Impl::loop` builds (lines 79-91).  `now` is
the reading of the steady clock; `cpu` and `mem` are what the platform code
leaves in the two process fields. -/
def buildSample {F : Type} (impl : Impl F) (now cpu mem : F) : CoreMetricSample F :=
  { timestamp_sec := now
    sequence := impl.seq
    process_cpu_pct := cpu
    process_mem_mb := mem
    frame_time_ms := impl.last_frame_ms
    avg_frame_time_ms := impl.avg_frame_ms }

/-- One iteration of the worker loop `Impl::loop` (lines 78-93), taken when
the instance has a worker and `running` tests true: the sample is built with
`seq++` on the `uint64_t` counter and published.  The result also gives the
sample built, if any. -/
def loopIteration {F U : Type} (A : DoubleOps F) (V : OnSample F U)
    (g : Globals F U) (impl : Impl F) (now cpu mem : F) :
    (Globals F U × Impl F × Option (CoreMetricSample F)) × Option Exn :=
  if impl.th && impl.running then
    let sample := buildSample impl now cpu mem
    let impl1 := { impl with seq := (impl.seq + 1) % U64 }
    let res := publish A V g sample
    ((res.1, impl1, some sample), res.2)
  else ((g, impl, none), none)

/-! ## A process using the sampler -/

/-- A process: the process-wide state, the `TelemetrySampler` instances
constructed so far, and the ghost log `built` of the samples built, as
(instance, sample) in the order they were built. -/
structure Process (F U : Type) where
  globals : Globals F U
  samplers : List (Impl F)
  built : List (Nat × CoreMetricSample F)

/-- A process that has made no telemetry call yet. -/
def Process.init {F U : Type} (fs : FileSystem) : Process F U :=
  { globals := Globals.init fs, samplers := [], built := [] }

/-- What can happen in a process: calls of the sampler interface on the
instance numbered `i`, an iteration of that instance's worker, a caller
registering a sink on the bus (a new object, or a handle it already holds),
and the environment changing which directories and files can be written. -/
inductive Event (F U : Type) where
  | construct
  | start (i : Nat) (interval_sec : F)
  | stop (i : Nat)
  | record_frame (i : Nat) (frame_time_ms : F)
  | tick (i : Nat) (now cpu mem : F)
  | register_new (o : SinkObj F U)
  | register_again (r : Nat)
  | set_fs (canCreateDir canOpen : String → Bool)

/-- The effect of one event.  An event addressed to an instance that does not
exist, or a handle that names no object, changes nothing. -/
def step {F U : Type} (A : DoubleOps F) (V : OnSample F U)
    (p : Process F U) : Event F U → Process F U
  | .construct => { p with samplers := p.samplers ++ [Impl.fresh A] }
  | .start i interval_sec =>
      match p.samplers[i]? with
      | none => p
      | some impl =>
          let res := (start p.globals impl interval_sec).1
          { p with globals := res.1, samplers := p.samplers.set i res.2 }
  | .stop i =>
      match p.samplers[i]? with
      | none => p
      | some impl => { p with samplers := p.samplers.set i (stop impl) }
  | .record_frame i frame_time_ms =>
      match p.samplers[i]? with
      | none => p
      | some impl => { p with samplers := p.samplers.set i (record_frame A impl frame_time_ms) }
  | .tick i now cpu mem =>
      match p.samplers[i]? with
      | none => p
      | some impl =>
          let res := (loopIteration A V p.globals impl now cpu mem).1
          { globals := res.1
            samplers := p.samplers.set i res.2.1
            built := p.built ++ (res.2.2.map (fun s => (i, s))).toList }
  | .register_new o =>
      let g1 := { p.globals with heap := p.globals.heap ++ [o] }
      { p with globals := register_sink g1 p.globals.heap.length }
  | .register_again r =>
      if r < p.globals.heap.length then { p with globals := register_sink p.globals r }
      else p
  | .set_fs canCreateDir canOpen =>
      { p with globals := { p.globals with
          fs := { p.globals.fs with canCreateDir := canCreateDir, canOpen := canOpen } } }

/-- The process after a sequence of events. -/
def run {F U : Type} (A : DoubleOps F) (V : OnSample F U)
    (p : Process F U) (es : List (Event F U)) : Process F U :=
  es.foldl (step A V) p

/-- The sequence numbers of the samples that instance `i` built, in order. -/
def seqsOf {F : Type} (i : Nat) (built : List (Nat × CoreMetricSample F)) : List Nat :=
  (built.filter (fun b => b.1 == i)).map (fun b => b.2.sequence)

/-- Whether `start` on instance `i` takes effect in `p`: the instance exists,
is not running, and the call returns without raising. -/
def startTakesEffect {F U : Type} (p : Process F U) (i : Nat) (interval_sec : F) : Bool :=
  match p.samplers[i]? with
  | none => false
  | some impl => !impl.running && (start p.globals impl interval_sec).2.isNone

/-- Whether the event is a `start` that takes effect in `p`. -/
def startEffective {F U : Type} (p : Process F U) : Event F U → Bool
  | .start i iv => startTakesEffect p i iv
  | _ => false

/-- The number of `start` events of a trace that take effect. -/
def effectiveStarts {F U : Type} (A : DoubleOps F) (V : OnSample F U) :
    Process F U → List (Event F U) → Nat
  | _, [] => 0
  | p, e :: es =>
      (if startEffective p e then 1 else 0) + effectiveStarts A V (step A V p e) es

/-- Whether the event is a caller registering a sink on the bus of `p`. -/
def callerRegisters {F U : Type} (p : Process F U) : Event F U → Bool
  | .register_new _ => true
  | .register_again r => decide (r < p.globals.heap.length)
  | _ => false

/-- The number of sinks that callers register on the bus during a trace. -/
def callerRegistrations {F U : Type} (A : DoubleOps F) (V : OnSample F U) :
    Process F U → List (Event F U) → Nat
  | _, [] => 0
  | p, e :: es =>
      (if callerRegisters p e then 1 else 0) + callerRegistrations A V (step A V p e) es

/-- The samples built while the events `es` happen in the process `p`. -/
def builtDuring {F U : Type} (A : DoubleOps F) (V : OnSample F U)
    (p : Process F U) (es : List (Event F U)) : List (Nat × CoreMetricSample F) :=
  (run A V p es).built.drop p.built.length

/-- The sequence-number invariant of a process: for every instance number,
the samples built so far are numbered 0, 1, 2, ... modulo 2^64, the counter
of the instance is the number of samples it has built modulo 2^64, and an
instance not constructed yet has built nothing. -/
def SeqInv {F U : Type} (p : Process F U) : Prop :=
  ∀ i, seqsOf i p.built = (List.range (seqsOf i p.built).length).map (fun k => k % U64) ∧
    (∀ impl, p.samplers[i]? = some impl → impl.seq = (seqsOf i p.built).length % U64) ∧
    (p.samplers.length ≤ i → seqsOf i p.built = [])

/-- The invariant of a sink: the threshold fits a `size_t`, `pending_` never
exceeds the number of buffered samples, and between calls `pending_` is below
the threshold or zero. -/
def SinkInv {F : Type} (s : JsonFileTelemetrySink F) : Prop :=
  s.flush_every_ < U64 ∧ s.pending_ ≤ s.buffer_.length ∧
    (s.pending_ < s.flush_every_ ∨ s.pending_ = 0)

/-- Whether the event is a `record_frame` call on instance `i`. -/
def Event.isRecordFrameOf {F U : Type} (i : Nat) : Event F U → Bool
  | .record_frame j _ => j == i
  | _ => false

/-- Whether the event is a `start` call on instance `i`. -/
def Event.isStartOf {F U : Type} (i : Nat) : Event F U → Bool
  | .start j _ => j == i
  | _ => false

/-- The frame-time state of instance `i`, if it exists: the last frame time
and the stored average. -/
def frameOf {F U : Type} (p : Process F U) (i : Nat) : Option (F × F) :=
  p.samplers[i]?.map (fun impl => (impl.last_frame_ms, impl.avg_frame_ms))

/-- The running flag and the worker of instance `i`, if it exists. -/
def workerOf {F U : Type} (p : Process F U) (i : Nat) : Option (Bool × Bool) :=
  p.samplers[i]?.map (fun impl => (impl.running, impl.th))

/-- The samples of a log that instance `i` built. -/
def builtBy {F : Type} (i : Nat) (built : List (Nat × CoreMetricSample F)) :
    List (Nat × CoreMetricSample F) :=
  built.filter (fun b => b.1 == i)

/-! ## Destruction of the file sink -/

/-- A block `try { body } catch(...) {}`: the state is the one the body
left, and whatever the body raised is dropped. -/
def swallow {σ : Type} (r : σ × Option Exn) : σ × Option Exn :=
  (r.1, none)

/-- The destructor `~JsonFileTelemetrySink` (lines 29-31): a flush inside a
catch-all block.  The sink is gone afterwards, so the result is the file
system and the exception that leaves the destructor, if any. -/
def JsonFileTelemetrySink.destructor {F : Type} (A : DoubleOps F)
    (s : JsonFileTelemetrySink F) (fs : FileSystem) : FileSystem × Option Exn :=
  let r := swallow (s.flush A fs)
  (r.1.2, r.2)

/-! ## The persisted log format, as the spec words it -/

/-- One member of a JSON object, `"key":value`, the value being given as its
text. -/
def jsonMember (kv : String × String) : String :=
  "\"" ++ kv.1 ++ "\":" ++ kv.2

/-- A JSON object with the given members in the given order, on one line and
without blanks: the members separated by commas between braces. -/
def jsonObject (members : List (String × String)) : String :=
  "\x7b" ++ ",".intercalate (members.map jsonMember) ++ "\x7d"

/-- The six members of the record of one sample in the format of the spec
(section 6): `ts`, `seq`, `cpu`, `mem_mb`, `frame_ms`, `avg_frame_ms`, the
sequence number in decimal and the five measurements as the stream renders
them. -/
def sampleMembers {F : Type} (A : DoubleOps F) (s : CoreMetricSample F) :
    List (String × String) :=
  [("ts", A.render s.timestamp_sec), ("seq", toString s.sequence),
   ("cpu", A.render s.process_cpu_pct), ("mem_mb", A.render s.process_mem_mb),
   ("frame_ms", A.render s.frame_time_ms),
   ("avg_frame_ms", A.render s.avg_frame_time_ms)]

/-! ## JSON texts (RFC 8259) -/

/-- A JSON value: numbers are kept as their token and strings as the
characters between the quotes, escapes undecoded. -/
inductive Json where
  | null
  | bool (b : Bool)
  | number (token : String)
  | string (content : String)
  | array (items : List Json)
  | object (members : List (String × Json))

/-- The whitespace of JSON: space, tab, line feed, carriage return. -/
def isJsonWhitespace (c : Char) : Bool :=
  c == ' ' || c == '\t' || c == '\n' || c == '\r'

/-- The input without the whitespace at its start. -/
def skipWhitespace (cs : List Char) : List Char := cs.dropWhile isJsonWhitespace

/-- The characters a JSON number is made of. -/
def isNumberChar (c : Char) : Bool :=
  c.isDigit || c == '-' || c == '+' || c == '.' || c == 'e' || c == 'E'

/-- One or more digits: the input after them. -/
def scanDigits : List Char → Option (List Char)
  | [] => none
  | c :: cs => if c.isDigit then some (cs.dropWhile Char.isDigit) else none

/-- The optional minus sign of a number: the input after it. -/
def scanSign : List Char → List Char
  | [] => []
  | c :: cs => if c = '-' then cs else c :: cs

/-- The integer part of a number, `0` or a digit other than 0 followed by
digits: the input after it. -/
def scanInt : List Char → Option (List Char)
  | [] => none
  | c :: cs =>
      if c = '0' then some cs
      else if c.isDigit then some (cs.dropWhile Char.isDigit) else none

/-- The optional fraction part of a number, a point followed by one or more
digits: the input after it. -/
def scanFrac : List Char → Option (List Char)
  | [] => some []
  | c :: cs => if c = '.' then scanDigits cs else some (c :: cs)

/-- The optional exponent part of a number, `e` or `E`, an optional sign and
one or more digits: the input after it. -/
def scanExp : List Char → Option (List Char)
  | [] => some []
  | c :: cs =>
      if c = 'e' ∨ c = 'E' then
        match cs with
        | [] => none
        | s :: cs1 => if s = '+' ∨ s = '-' then scanDigits cs1 else scanDigits (s :: cs1)
      else some (c :: cs)

/-- A JSON number at the start of the input: the input after it. -/
def scanNumber (cs : List Char) : Option (List Char) :=
  match scanInt (scanSign cs) with
  | none => none
  | some r1 =>
      match scanFrac r1 with
      | none => none
      | some r2 => scanExp r2

/-- Whether the text is a JSON number. -/
def isJsonNumber (s : String) : Bool :=
  match scanNumber s.data with
  | some [] => true
  | _ => false

/-- A hexadecimal digit. -/
def isHexDigit (c : Char) : Bool :=
  c.isDigit || (decide ('a' ≤ c) && decide (c ≤ 'f')) || (decide ('A' ≤ c) && decide (c ≤ 'F'))

/-- The characters that may follow a backslash in a JSON string, `u` apart. -/
def isEscapeChar (c : Char) : Bool :=
  c == '"' || c == '\\' || c == '/' || c == 'b' || c == 'f' || c == 'n' || c == 'r' || c == 't'

/-- A JSON string after its opening quote, with fuel: the characters up to the
closing quote and the input after it. -/
def scanString : Nat → List Char → Option (List Char × List Char)
  | 0, _ => none
  | _ + 1, [] => none
  | fuel + 1, c :: cs =>
      if c = '"' then some ([], cs)
      else if c = '\\' then
        match cs with
        | [] => none
        | e :: cs1 =>
            if e = 'u' then
              match cs1 with
              | h1 :: h2 :: h3 :: h4 :: cs2 =>
                  if isHexDigit h1 && isHexDigit h2 && isHexDigit h3 && isHexDigit h4 then
                    match scanString fuel cs2 with
                    | none => none
                    | some (content, rest) => some (c :: e :: h1 :: h2 :: h3 :: h4 :: content, rest)
                  else none
              | _ => none
            else if isEscapeChar e then
              match scanString fuel cs1 with
              | none => none
              | some (content, rest) => some (c :: e :: content, rest)
            else none
      else if c.val < 32 then none
      else
        match scanString fuel cs with
        | none => none
        | some (content, rest) => some (c :: content, rest)

/-- The members of a non-empty JSON object after its opening brace, up to and
including the closing brace; `value` parses one value. -/
def parseMembers (value : List Char → Option (Json × List Char)) :
    Nat → List Char → Option (List (String × Json) × List Char)
  | 0, _ => none
  | fuel + 1, cs =>
      match skipWhitespace cs with
      | [] => none
      | q :: cs1 =>
          if q = '"' then
            match scanString cs1.length cs1 with
            | none => none
            | some (key, cs2) =>
                match skipWhitespace cs2 with
                | [] => none
                | colon :: cs3 =>
                    if colon = ':' then
                      match value cs3 with
                      | none => none
                      | some (v, cs4) =>
                          match skipWhitespace cs4 with
                          | [] => none
                          | sep :: cs5 =>
                              if sep = ',' then
                                match parseMembers value fuel cs5 with
                                | none => none
                                | some (members, rest) =>
                                    some ((String.mk key, v) :: members, rest)
                              else if sep = '\x7d' then some ([(String.mk key, v)], cs5)
                              else none
                    else none
          else none

/-- The items of a non-empty JSON array after its opening bracket, up to and
including the closing bracket; `value` parses one value. -/
def parseItems (value : List Char → Option (Json × List Char)) :
    Nat → List Char → Option (List Json × List Char)
  | 0, _ => none
  | fuel + 1, cs =>
      match value cs with
      | none => none
      | some (v, cs1) =>
          match skipWhitespace cs1 with
          | [] => none
          | sep :: cs2 =>
              if sep = ',' then
                match parseItems value fuel cs2 with
                | none => none
                | some (items, rest) => some (v :: items, rest)
              else if sep = ']' then some ([v], cs2)
              else none

/-- A JSON value at the start of the input, after whitespace, with fuel for
the nesting: the value and the input after it. -/
def parseValue : Nat → List Char → Option (Json × List Char)
  | 0, _ => none
  | fuel + 1, cs =>
      match skipWhitespace cs with
      | [] => none
      | c :: cs1 =>
          if c = '-' ∨ c.isDigit = true then
            match scanNumber (c :: cs1) with
            | none => none
            | some rest =>
                some (Json.number (String.mk ((c :: cs1).take ((c :: cs1).length - rest.length))),
                  rest)
          else if c = '"' then
            match scanString cs1.length cs1 with
            | none => none
            | some (content, rest) => some (Json.string (String.mk content), rest)
          else if c = '\x7b' then
            match skipWhitespace cs1 with
            | [] => none
            | c2 :: cs2 =>
                if c2 = '\x7d' then some (Json.object [], cs2)
                else
                  match parseMembers (parseValue fuel) (cs1.length) (c2 :: cs2) with
                  | none => none
                  | some (members, rest) => some (Json.object members, rest)
          else if c = '[' then
            match skipWhitespace cs1 with
            | [] => none
            | c2 :: cs2 =>
                if c2 = ']' then some (Json.array [], cs2)
                else
                  match parseItems (parseValue fuel) (cs1.length) (c2 :: cs2) with
                  | none => none
                  | some (items, rest) => some (Json.array items, rest)
          else
            match c :: cs1 with
            | 't' :: 'r' :: 'u' :: 'e' :: rest => some (Json.bool true, rest)
            | 'f' :: 'a' :: 'l' :: 's' :: 'e' :: rest => some (Json.bool false, rest)
            | 'n' :: 'u' :: 'l' :: 'l' :: rest => some (Json.null, rest)
            | _ => none

/-- The JSON value that the text is, if it is a JSON text: one value with
whitespace around it and nothing else. -/
def parseJson (s : String) : Option Json :=
  match parseValue (s.length + 1) s.data with
  | none => none
  | some (v, rest) => if skipWhitespace rest = [] then some v else none

/-- Whether the text is a JSON text. -/
def isJsonText (s : String) : Bool := (parseJson s).isSome

/-- A character that may stand unescaped inside a JSON string. -/
def isPlainChar (c : Char) : Bool := c != '"' && c != '\\' && !decide (c.val < 32)

/-- The text of the members of a JSON object with its closing brace: every
member as `"key":value`, commas between them. -/
def membersChars : List (String × String) → List Char
  | [] => []
  | kv :: kvs =>
      '"' :: kv.1.data ++ '"' :: ':' :: kv.2.data
        ++ (if kvs = [] then ['\x7d'] else ',' :: membersChars kvs)

/-- The input starts with no digit and no point: it is empty or starts with
`e`. -/
def startsExponent (r : List Char) : Prop := r = [] ∨ ∃ r1, r = 'e' :: r1

/-! ## CPU percentage (Windows build) -/

/-- The further operations on `double` that `calc_cpu_pct` uses: `/`, the
conversion of an unsigned integer, the test `x > 100` and the literals `0`,
`100` and `10000.0`. -/
structure CpuOps (F : Type) extends DoubleOps F where
  div : F → F → F
  ofU64 : Nat → F
  gtHundred : F → Bool
  zero : F
  c100 : F
  c10000 : F

/-- Exact rational arithmetic as an instance of these operations. -/
def exactCpuOps : CpuOps ℚ :=
  { exactOps with
    div := fun a b => a / b
    ofU64 := fun n => (n : ℚ)
    gtHundred := fun a => decide (100 < a)
    zero := 0
    c100 := 100
    c10000 := 10000 }

/-- The members of `Impl` that exist in the Windows build (lines 55-58): the
kernel and user times and the tick count of the previous measurement, as
`ULONGLONG`, and the flag `cpu_inited`. -/
structure CpuState where
  last_cpu_kernel : Nat
  last_cpu_user : Nat
  last_time : Nat
  cpu_inited : Bool
  deriving DecidableEq

/-- The member initialisers of lines 55-58. -/
def CpuState.fresh : CpuState :=
  { last_cpu_kernel := 0, last_cpu_user := 0, last_time := 0, cpu_inited := false }

/-- Subtraction of two `ULONGLONG` values, which wraps modulo 2^64. -/
def subU64 (a b : Nat) : Nat :=
  (a % U64 + U64 - b % U64) % U64

/-- The body of `Impl::calc_cpu_pct` (lines 59-75).  `times` is what
`GetProcessTimes` yields, the kernel and user times in 100 ns units, or
`none` when the call fails; `now` is `GetTickCount64()`; `nprocs` is
`dwNumberOfProcessors`. -/
def calc_cpu_pct {F : Type} (C : CpuOps F) (st : CpuState) (times : Option (Nat × Nat))
    (now nprocs : Nat) : CpuState × F :=
  match times with
  | none => (st, C.negOne)
  | some (kernel, user) =>
      if !st.cpu_inited then
        ({ last_cpu_kernel := kernel, last_cpu_user := user, last_time := now,
           cpu_inited := true }, C.negOne)
      else
        let delta_time_ms := subU64 now st.last_time
        if delta_time_ms = 0 then (st, C.negOne)
        else
          let delta_kernel := subU64 kernel st.last_cpu_kernel
          let delta_user := subU64 user st.last_cpu_user
          let st1 := { st with last_cpu_kernel := kernel, last_cpu_user := user,
                               last_time := now }
          let cpu_ms := C.div (C.ofU64 ((delta_kernel + delta_user) % U64)) C.c10000
          let pct := C.div (C.mul (C.div cpu_ms (C.ofU64 delta_time_ms)) C.c100)
            (C.ofU64 nprocs)
          let pct1 := if C.ltZero pct then C.zero else pct
          let pct2 := if C.gtHundred pct1 then C.c100 else pct1
          (st1, pct2)

/-- The percentage before clamping, as line 71 and line 73 compute it from
the three deltas and the processor count. -/
def cpuPctRaw {F : Type} (C : CpuOps F) (delta_kernel delta_user delta_time_ms nprocs : Nat) :
    F :=
  C.div
    (C.mul
      (C.div (C.div (C.ofU64 ((delta_kernel + delta_user) % U64)) C.c10000)
        (C.ofU64 delta_time_ms))
      C.c100)
    (C.ofU64 nprocs)

/-- The two tests of line 74, in their order. -/
def clampPct {F : Type} (C : CpuOps F) (pct : F) : F :=
  if C.gtHundred (if C.ltZero pct then C.zero else pct) then C.c100
  else (if C.ltZero pct then C.zero else pct)

/-! ## The minimal core (`aios_core_minimal.cpp`) -/

/-- The struct `SystemConfig` of `aios_core_minimal.hpp`. -/
structure SystemConfig where
  name : String
  version : String
  description : String
  maxThreads : Int
  memoryLimit : Nat
  logLevel : String
  enableProfiling : Bool
  deriving DecidableEq

/-- Members of `Core::Impl` (lines 41-49).  `telemetry` is the instance
number of the sampler the `unique_ptr` owns, if any; `consciousness` says
whether the state object has been allocated; `consciousness_thread` says
whether the `unique_ptr` holds a thread that is joinable. -/
structure CoreImpl where
  config : SystemConfig
  running : Bool
  initialized : Bool
  telemetry : Option Nat
  consciousness : Bool
  consciousness_thread : Bool
  consciousness_active : Bool
  deriving DecidableEq

/-- The `Impl` that the constructor of `Core` creates with
`std::make_unique<Impl>()`: value-initialised members and the member
initialisers of lines 42-49. -/
def CoreImpl.fresh : CoreImpl :=
  { config := { name := "", version := "", description := "", maxThreads := 0,
                memoryLimit := 0, logLevel := "", enableProfiling := false }
    running := false
    initialized := false
    telemetry := none
    consciousness := false
    consciousness_thread := false
    consciousness_active := false }

/-- The configuration that `initialize` stores (lines 58-64). -/
def initializedConfig : SystemConfig :=
  { name := "AIOS"
    version := "0.6.1.grok"
    description := "Artificial Intelligence Operating System with Chaotic Fractal Holography"
    maxThreads := 8
    memoryLimit := 8 * 1024 * 1024 * 1024
    logLevel := "INFO"
    enableProfiling := true }

/-- A process with one `Core` object. -/
structure World (F U : Type) where
  proc : Process F U
  core : CoreImpl

/-- A process that has just constructed its `Core`. -/
def World.init {F U : Type} (fs : FileSystem) : World F U :=
  { proc := Process.init fs, core := CoreImpl.fresh }

/-- The body of `Core::Impl::initialize` (lines 53-84), named
`initializeImpl` here: the configuration is
stored, the consciousness state allocated, a new sampler constructed (the
one the pointer held before, if any, is destroyed, and its destructor stops
it) and started with interval 1.0; an exception of the start is caught and
makes the result false, otherwise `initialized` is set and the result is
true. -/
def Core.initializeImpl {F U : Type} (A : DoubleOps F) (V : OnSample F U) (w : World F U) :
    World F U × Bool :=
  let c1 := { w.core with config := initializedConfig, consciousness := true }
  let i := w.proc.samplers.length
  let p1 := step A V w.proc .construct
  let p2 := match w.core.telemetry with
    | some old => step A V p1 (.stop old)
    | none => p1
  let c2 := { c1 with telemetry := some i }
  let res := start p2.globals (Impl.fresh A) A.one
  let p3 := { p2 with globals := res.1.1, samplers := p2.samplers.set i res.1.2 }
  match res.2 with
  | some _ => ({ proc := p3, core := c2 }, false)
  | none => ({ proc := p3, core := { c2 with initialized := true } }, true)

/-- How a call ends: it returns a value, or the process is ended by
`std::terminate`. -/
inductive CallResult where
  | returned (b : Bool)
  | terminated
  deriving DecidableEq

/-- The body of `Core::Impl::start` (lines 86-105) with
`start_consciousness_processing` (lines 114-119).  The assignment to
`consciousness_thread` destroys the thread object the pointer held; the
destructor of a joinable `std::thread` calls `std::terminate`.  Creating the
thread is taken to succeed, so the `catch` branch is not entered. -/
def Core.start (c : CoreImpl) : CoreImpl × CallResult :=
  if !c.initialized then (c, .returned false)
  else
    let c1 := { c with running := true, consciousness_active := true }
    if c1.consciousness_thread then (c1, .terminated)
    else ({ c1 with consciousness_thread := true }, .returned true)

/-- The body of `Core::Impl::stop` (lines 107-112) with
`stop_consciousness_processing` (lines 121-128): the processing thread, if
joinable, is joined, and the sampler, if any, is stopped. -/
def Core.stop {F U : Type} (A : DoubleOps F) (V : OnSample F U) (w : World F U) : World F U :=
  let c1 := { w.core with running := false }
  let c2 := if c1.consciousness_active then
      { c1 with consciousness_active := false, consciousness_thread := false }
    else c1
  let p1 := match c2.telemetry with
    | some i => step A V w.proc (.stop i)
    | none => w.proc
  { proc := p1, core := c2 }

/-- The body of `Core::isRunning` (lines 243-245). -/
def Core.isRunning (c : CoreImpl) : Bool := c.running

/-- The body of `Core::getConfig` (lines 247-249). -/
def Core.getConfig (c : CoreImpl) : SystemConfig := c.config

/-- A call of the lifecycle interface of `Core`. -/
inductive CoreCall where
  | callInitialize
  | callStart
  | callStop
  deriving DecidableEq

/-- The world after one call, or `none` when the call ends the process. -/
def coreStep {F U : Type} (A : DoubleOps F) (V : OnSample F U) (w : World F U) :
    CoreCall → Option (World F U)
  | .callInitialize => some (Core.initializeImpl A V w).1
  | .callStart =>
      match Core.start w.core with
      | (c, .returned _) => some { w with core := c }
      | (_, .terminated) => none
  | .callStop => some (Core.stop A V w)

/-- The world after a sequence of calls, or `none` when one of them ends the
process. -/
def coreRun {F U : Type} (A : DoubleOps F) (V : OnSample F U) :
    World F U → List CoreCall → Option (World F U)
  | w, [] => some w
  | w, c :: cs =>
      match coreStep A V w c with
      | some w1 => coreRun A V w1 cs
      | none => none

/-! ## Further notions for the sink, the bus and the average -/

/-- The samples that a history of calls hands to `on_sample`, in order. -/
def acceptedBy {F : Type} (ops : List (SinkOp F)) : List (CoreMetricSample F) :=
  ops.filterMap (fun op =>
    match op with
    | .on_sample sample _ => some sample
    | .flush _ => none)

/-- The smallest of the values `d` and `ds`. -/
def smallest (d : ℚ) (ds : List ℚ) : ℚ := ds.foldl min d

/-- The largest of the values `d` and `ds`. -/
def largest (d : ℚ) (ds : List ℚ) : ℚ := ds.foldl max d

/-! ## Binary64 arithmetic -/

/-- Auxiliary for `floorLog2`, with fuel. -/
def floorLog2Aux : Nat → Nat → Nat
  | 0, _ => 0
  | fuel + 1, n => if n < 2 then 0 else floorLog2Aux fuel (n / 2) + 1

/-- The position of the highest set bit of `n` (0 for `n < 2`). -/
def floorLog2 (n : Nat) : Nat := floorLog2Aux n n

/-- The binade of the positive rational `n / d`: the `e` with
`2^e ≤ n / d < 2^(e+1)`. -/
def binadeOf (n d : Nat) : Int :=
  let l : Int := (floorLog2 n : Int) - (floorLog2 d : Int)
  if d * 2 ^ floorLog2 n ≤ n * 2 ^ floorLog2 d then l else l - 1

/-- The multiple of `2^(-s)` nearest to the positive rational `n / d`, ties
going to the even multiple. -/
def roundToGrid (n d : Nat) (s : Int) : ℚ :=
  let num1 : Nat := n * 2 ^ s.toNat
  let den1 : Nat := d * 2 ^ (-s).toNat
  let m : Nat := num1 / den1
  let r : Nat := num1 % den1
  let m1 : Nat := if 2 * r < den1 then m else if den1 < 2 * r then m + 1
    else if m % 2 = 0 then m else m + 1
  mkRat ((m1 * 2 ^ (-s).toNat : Nat) : Int) (2 ^ s.toNat)

/-- Rounding of a rational to the nearest IEEE 754 binary64 value, ties to
even: the rounding a `double` operation applies to its exact result on the
targets of the code.  With `2^e ≤ |q| < 2^(e+1)` the result is a multiple of
`2^(e-52)`, and of `2^(-1074)` in the subnormal range.  Overflow to infinity
and NaN are outside the model. -/
def roundBinary64 (q : ℚ) : ℚ :=
  if q.num = 0 then 0
  else
    (q.num.sign : ℚ)
      * roundToGrid q.num.natAbs q.den (52 - max (binadeOf q.num.natAbs q.den) (-1022))

/-- Binary64 arithmetic as an instance of the `double` operations: each
operation rounds its exact result, and the literals `0.9` and `0.1` are the
binary64 values nearest to 9/10 and 1/10. -/
def binary64Ops : DoubleOps ℚ where
  mul := fun a b => roundBinary64 (a * b)
  add := fun a b => roundBinary64 (a + b)
  ltZero := fun a => decide (a < 0)
  negOne := -1
  one := 1
  c09 := roundBinary64 (9 / 10)
  c01 := roundBinary64 (1 / 10)
  render := renderFinite
  negOne_ltZero := by decide

/-! ## Doubles with infinities and NaN -/

/-- A value of the type `double`: a finite value (`finite 0` is +0.0), the
negative zero, an infinity or a NaN, the last two with their sign bit. -/
inductive IeeeDouble where
  | finite (q : ℚ)
  | negZero
  | infinity (negative : Bool)
  | nan (negative : Bool)
  deriving DecidableEq

/-- The sign bit of a value. -/
def IeeeDouble.signBit : IeeeDouble → Bool
  | .finite q => decide (q < 0)
  | .negZero => true
  | .infinity negative => negative
  | .nan negative => negative

/-- Whether the value is +0.0 or -0.0. -/
def IeeeDouble.isZero : IeeeDouble → Bool
  | .finite q => decide (q = 0)
  | .negZero => true
  | _ => false

/-- The `double` that an operation with the exact non-zero result `q`
delivers: `q` rounded to binary64, an infinity when the rounded value is
2^1024 or more, a zero with the sign of `q` when it is rounded to zero. -/
def IeeeDouble.ofExact (q : ℚ) : IeeeDouble :=
  if (2 : ℚ) ^ 1024 ≤ |roundBinary64 q| then .infinity (decide (q < 0))
  else if roundBinary64 q = 0 then (if q < 0 then .negZero else .finite 0)
  else .finite (roundBinary64 q)

/-- The product of two doubles; `defaultNan` is the NaN the hardware
delivers for an invalid operation. -/
def IeeeDouble.mul (defaultNan : IeeeDouble) (x y : IeeeDouble) : IeeeDouble :=
  match x, y with
  | .nan s, _ => .nan s
  | _, .nan s => .nan s
  | .infinity s, y => if y.isZero then defaultNan else .infinity (xor s y.signBit)
  | x, .infinity s => if x.isZero then defaultNan else .infinity (xor x.signBit s)
  | .finite a, .finite b =>
      if a = 0 ∨ b = 0 then (if xor (decide (a < 0)) (decide (b < 0)) then .negZero else .finite 0)
      else IeeeDouble.ofExact (a * b)
  | .negZero, y => if y.signBit then .finite 0 else .negZero
  | x, .negZero => if x.signBit then .finite 0 else .negZero

/-- The sum of two doubles; `defaultNan` is the NaN the hardware delivers for
an invalid operation. -/
def IeeeDouble.add (defaultNan : IeeeDouble) (x y : IeeeDouble) : IeeeDouble :=
  match x, y with
  | .nan s, _ => .nan s
  | _, .nan s => .nan s
  | .infinity s, .infinity t => if s = t then .infinity s else defaultNan
  | .infinity s, _ => .infinity s
  | _, .infinity t => .infinity t
  | .negZero, .negZero => .negZero
  | .negZero, .finite b => .finite b
  | .finite a, .negZero => .finite a
  | .finite a, .finite b => if a + b = 0 then .finite 0 else IeeeDouble.ofExact (a + b)

/-- The test `x < 0`. -/
def IeeeDouble.ltZero : IeeeDouble → Bool
  | .finite q => decide (q < 0)
  | .negZero => false
  | .infinity negative => negative
  | .nan _ => false

/-- The text `operator<<` prints for a `double` on a stream in its default
state: `%g` with precision 6 for a finite value, `inf` and `nan` with their
sign for the others (as the GNU C library prints them). -/
def IeeeDouble.render : IeeeDouble → String
  | .finite q => renderFinite q
  | .negZero => "-0"
  | .infinity negative => if negative then "-inf" else "inf"
  | .nan negative => if negative then "-nan" else "nan"

/-- Whether the value is finite. -/
def IeeeDouble.isFinite : IeeeDouble → Bool
  | .finite _ => true
  | .negZero => true
  | _ => false

/-- The arithmetic of `double` with infinities and NaN as an instance of the
`double` operations; `defaultNan` is the NaN of an invalid operation (on x86
its sign bit is set). -/
def ieeeOps (defaultNan : IeeeDouble) : DoubleOps IeeeDouble where
  mul := IeeeDouble.mul defaultNan
  add := IeeeDouble.add defaultNan
  ltZero := IeeeDouble.ltZero
  negOne := .finite (-1)
  one := .finite 1
  c09 := .finite (roundBinary64 (9 / 10))
  c01 := .finite (roundBinary64 (1 / 10))
  render := IeeeDouble.render
  negOne_ltZero := by decide

/-! ## Orchestration controller: tasks and reports -/

/-- The fields of `struct AITask` (AIOrchestrationController.hpp, lines 22-29)
that task handling reads; `parameters`, `created_time` and `priority` play no
part in the queue or in the naming of reports. -/
structure AITask where
  task_id : String
  task_type : String
  target_path : String
  deriving DecidableEq

/-- The identifying fields of `struct AIReport` (lines 31-39); `content`,
`recommendations`, `confidence_score` and `generated_time`, which the
`process...Task` helpers fill, play no part in where a report is stored. -/
structure AIReport where
  report_id : String
  task_id : String
  report_type : String
  deriving DecidableEq

/-- The members of `AIOrchestrationController` that `submitTask` and
`processNextTask` use: the activity flag, the `size_t` task counter, the
`std::queue` of tasks (front first) and the `std::unordered_map` of completed
reports, kept as a list of entries with pairwise distinct keys. -/
structure AIOrchestrationController where
  orchestration_active_ : Bool
  task_counter_ : Nat
  task_queue_ : List AITask
  completed_reports_ : List (String × AIReport)
  deriving DecidableEq

/-- The controller after its constructor (lines 14-24) and `initialize`
(lines 31-53): active, counter 0, nothing queued, nothing completed. -/
def AIOrchestrationController.active : AIOrchestrationController :=
  { orchestration_active_ := true
    task_counter_ := 0
    task_queue_ := []
    completed_reports_ := [] }

/-- The assignment `m[key] = value` on an `std::unordered_map`: the entry of an
existing key is overwritten, a new key gets a new entry. -/
def mapAssign (m : List (String × AIReport)) (key : String) (value : AIReport) :
    List (String × AIReport) :=
  if m.any (fun e => e.1 == key) then
    m.map (fun e => if e.1 == key then (key, value) else e)
  else
    m ++ [(key, value)]

/-- The body of `AIOrchestrationController::submitTask` (lines 110-129): the
controller afterwards and the task id returned (empty when inactive). -/
def submitTask (c : AIOrchestrationController) (task : AITask) :
    AIOrchestrationController × String :=
  if !c.orchestration_active_ then (c, "")
  else
    let counter := (c.task_counter_ + 1) % U64
    let task_id := "task_" ++ toString counter
    let queued_task := { task with task_id := task_id }
    ({ c with task_counter_ := counter, task_queue_ := c.task_queue_ ++ [queued_task] }, task_id)

/-- The body of `AIOrchestrationController::processNextTask` (lines 131-171):
the controller afterwards and the value returned.  The report is named after
the current value of `task_counter_` (line 146). -/
def processNextTask (c : AIOrchestrationController) : AIOrchestrationController × Bool :=
  if !c.orchestration_active_ then (c, false)
  else
    match c.task_queue_ with
    | [] => (c, false)
    | current_task :: rest =>
        let report : AIReport :=
          { report_id := "report_" ++ toString c.task_counter_
            task_id := current_task.task_id
            report_type := current_task.task_type }
        ({ c with task_queue_ := rest
                  completed_reports_ := mapAssign c.completed_reports_ report.report_id report },
          true)

/-- The body of `AIOrchestrationController::getCompletedReportIds` (lines
293-302): the keys of the map of completed reports. -/
def getCompletedReportIds (c : AIOrchestrationController) : List String :=
  c.completed_reports_.map (fun e => e.1)

/-- A call of the controller made by a client. -/
inductive OrchCall where
  | submit (task : AITask)
  | process
  deriving DecidableEq

/-- One client call on the controller. -/
def orchStep (c : AIOrchestrationController) (call : OrchCall) : AIOrchestrationController :=
  match call with
  | .submit task => (submitTask c task).1
  | .process => (processNextTask c).1

/-- A sequence of client calls, in order. -/
def orchRun (c : AIOrchestrationController) (calls : List OrchCall) : AIOrchestrationController :=
  calls.foldl orchStep c

/-- The ids of the tasks whose reports the controller holds. -/
def reportedTaskIds (c : AIOrchestrationController) : List String :=
  c.completed_reports_.map (fun e => e.2.task_id)

/-! ## C API of the consciousness engine -/

/-- The operations on `double` that the consciousness engine and its C API
use: `+`, the value of a decimal literal, and the test `0.0 <= x && x <= 1.0`
of the documented range of an awareness level.  The one law is that the
literal `3.56` is outside that range. -/
structure LevelOps (F : Type) where
  add : F → F → F
  lit : ℚ → F
  inUnit : F → Bool
  lit356_outside : inUnit (lit (89 / 25)) = false

/-- Exact rational arithmetic as an instance of the level operations. -/
def exactLevelOps : LevelOps ℚ where
  add := fun a b => a + b
  lit := fun q => q
  inUnit := fun a => decide (0 ≤ a) && decide (a ≤ 1)
  lit356_outside := by norm_num

/-- Binary64 arithmetic as an instance of the level operations. -/
def binary64LevelOps : LevelOps ℚ where
  add := fun a b => roundBinary64 (a + b)
  lit := fun q => roundBinary64 q
  inUnit := fun a => decide (0 ≤ a) && decide (a ≤ 1)
  lit356_outside := by decide!

/-- The data members of `AIOSConsciousnessEngine`
(MinimalConsciousnessEngine.hpp, lines 50-52) that its methods read; `core`
holds an empty stub. -/
structure AIOSConsciousnessEngine (F : Type) where
  system_consciousness_level : F
  initialized_flag : Bool
  deriving DecidableEq

/-- The constructor of `AIOSConsciousnessEngine`
(minimal_consciousness_engine.cpp, lines 54-58). -/
def AIOSConsciousnessEngine.new {F : Type} (L : LevelOps F) : AIOSConsciousnessEngine F :=
  { system_consciousness_level := L.lit (89 / 25), initialized_flag := false }

/-- The body of `AIOSConsciousnessEngine::initialize` (lines 64-70), called with
a null core. -/
def AIOSConsciousnessEngine.initializeEngine {F : Type} (L : LevelOps F)
    (e : AIOSConsciousnessEngine F) : AIOSConsciousnessEngine F :=
  { e with initialized_flag := true, system_consciousness_level := L.lit (89 / 25) }

/-- The common shape of `update`, `stimulateDendriticGrowth`,
`adaptToSystemBehavior`, `enhanceIntelligence`, `transformError` and
`evolveLogicFromError` (lines 72-78 and 101-141): nothing unless
initialised, else the level grows by the literal `step`. -/
def AIOSConsciousnessEngine.grow {F : Type} (L : LevelOps F) (e : AIOSConsciousnessEngine F)
    (step : ℚ) : AIOSConsciousnessEngine F :=
  if !e.initialized_flag then e
  else { e with system_consciousness_level := L.add e.system_consciousness_level (L.lit step) }

/-- The struct `ConsciousnessMetrics` and its C twin `AIOSConsciousnessMetrics`
(aios_core_api.h, lines 20-29). -/
structure AIOSConsciousnessMetrics (F : Type) where
  awareness_level : F
  adaptation_speed : F
  predictive_accuracy : F
  dendritic_complexity : F
  evolutionary_momentum : F
  quantum_coherence : F
  learning_velocity : F
  consciousness_emergent : Bool
  deriving DecidableEq

/-- The body of `AIOSConsciousnessEngine::getCurrentMetrics` (lines 88-99). -/
def AIOSConsciousnessEngine.getCurrentMetrics {F : Type} (L : LevelOps F)
    (e : AIOSConsciousnessEngine F) : AIOSConsciousnessMetrics F :=
  { awareness_level := e.system_consciousness_level
    adaptation_speed := L.lit (85 / 100)
    predictive_accuracy := L.lit (78 / 100)
    dendritic_complexity := L.lit (92 / 100)
    evolutionary_momentum := L.lit (88 / 100)
    quantum_coherence := L.lit (91 / 100)
    learning_velocity := L.lit (86 / 100)
    consciousness_emergent := false }

/-- The file-level state of aios_core_api.cpp (lines 21-24); the mutex
`g_engine_mutex` is followed through the `owned` argument of `lockMutex`. -/
structure ApiState (F : Type) where
  g_engine : Option (AIOSConsciousnessEngine F)
  g_last_error : String
  g_initialized : Bool
  deriving DecidableEq

/-- The state of the library when it is loaded. -/
def ApiState.init {F : Type} : ApiState F :=
  { g_engine := none, g_last_error := "", g_initialized := false }

/-- What locking a `std::mutex` does when the calling thread owns it already:
the standard leaves it undefined; an implementation blocks for ever or, when
it detects the case, throws `std::system_error`, whose message is `what`. -/
inductive Relock where
  | blocks
  | raises (what : String)
  deriving DecidableEq

/-- The ways a piece of code that takes the mutex can end. -/
inductive Outcome (α : Type) where
  | done (a : α)
  | blocked
  | thrown (what : String)
  deriving DecidableEq

/-- The result of a C API call: the value returned, or no return at all. -/
inductive ApiResult (α : Type) where
  | returned (value : α)
  | neverReturns
  deriving DecidableEq

/-- The constructor of `std::lock_guard` on `g_engine_mutex`; `owned` tells
whether the calling thread holds the mutex already. -/
def lockMutex (relock : Relock) (owned : Bool) : Outcome Unit :=
  if owned then
    match relock with
    | .blocks => .blocked
    | .raises what => .thrown what
  else .done ()

/-- The body of `SetLastError` (lines 30-33), entered with the mutex held by
the caller or not. -/
def SetLastError {F : Type} (relock : Relock) (owned : Bool) (s : ApiState F) (error : String) :
    Outcome (ApiState F) :=
  match lockMutex relock owned with
  | .done _ => .done { s with g_last_error := error }
  | .blocked => .blocked
  | .thrown what => .thrown what

/-- The body of `AIOS_InitializeCore` (lines 46-73).  The `lock_guard` of line
48 holds the mutex while line 51 calls `SetLastError`; a handler runs after
unwinding has released it. -/
def AIOS_InitializeCore {F : Type} (L : LevelOps F) (relock : Relock) (s : ApiState F) :
    ApiState F × ApiResult Int :=
  match lockMutex relock false with
  | .blocked => (s, .neverReturns)
  | .thrown _ => (s, .neverReturns)
  | .done _ =>
      if s.g_initialized then
        match SetLastError relock true s "Core already initialized" with
        | .done s1 => (s1, .returned 0)
        | .blocked => (s, .neverReturns)
        | .thrown what =>
            match SetLastError relock false s ("Initialization failed: " ++ what) with
            | .done s2 => (s2, .returned (-1))
            | .blocked => (s, .neverReturns)
            | .thrown _ => (s, .neverReturns)
      else
        ({ s with g_engine := some ((AIOSConsciousnessEngine.new L).initializeEngine L)
                  g_initialized := true
                  g_last_error := "" }, .returned 0)

/-- The body of `AIOS_ShutdownCore` (lines 88-105). -/
def AIOS_ShutdownCore {F : Type} (s : ApiState F) : ApiState F :=
  { s with g_engine := none, g_initialized := false, g_last_error := "" }

/-- The common body of `AIOS_UpdateConsciousness`,
`AIOS_StimulateDendriticGrowth`, `AIOS_AdaptToSystemBehavior`,
`AIOS_EnhanceIntelligence`, `AIOS_TransformError` and
`AIOS_EvolveLogicFromError` (lines 75-86 and 271-358), past their null
checks: the engine, when there is one, grows its level by `step`. -/
def growEngine {F : Type} (L : LevelOps F) (s : ApiState F) (step : ℚ) : ApiState F :=
  match s.g_engine with
  | none => s
  | some e => { s with g_engine := some (e.grow L step) }

/-- The body of `AIOS_GetConsciousnessLevel` (lines 116-133): the state
afterwards and the value returned. -/
def AIOS_GetConsciousnessLevel {F : Type} (L : LevelOps F) (s : ApiState F) : ApiState F × F :=
  match s.g_engine with
  | none => ({ s with g_last_error := "Engine not initialized" }, L.lit 0)
  | some e => (s, e.system_consciousness_level)

/-- The body of `AIOS_GetAwarenessLevel` (lines 135-146). -/
def AIOS_GetAwarenessLevel {F : Type} (L : LevelOps F) (s : ApiState F) : F :=
  match s.g_engine with
  | none => L.lit 0
  | some e => (e.getCurrentMetrics L).awareness_level

/-- The body of `AIOS_GetAllMetrics` (lines 239-265) for a non-null `metrics`:
the struct as the call leaves it. -/
def AIOS_GetAllMetrics {F : Type} (L : LevelOps F) (s : ApiState F) :
    AIOSConsciousnessMetrics F :=
  match s.g_engine with
  | none =>
      { awareness_level := L.lit 0, adaptation_speed := L.lit 0, predictive_accuracy := L.lit 0
        dendritic_complexity := L.lit 0, evolutionary_momentum := L.lit 0
        quantum_coherence := L.lit 0, learning_velocity := L.lit 0
        consciousness_emergent := false }
  | some e => e.getCurrentMetrics L

/-- A call of the C API made by a client; a string argument that is a null
pointer is `none`. -/
inductive ApiCall where
  | initializeCore
  | updateConsciousness
  | shutdownCore
  | getConsciousnessLevel
  | stimulateDendriticGrowth (source : Option String)
  | adaptToSystemBehavior (behavior_pattern : Option String)
  | enhanceIntelligence (enhancement_area : Option String)
  | transformError (error_message context : Option String)
  | evolveLogicFromError (error_pattern : Option String)
  deriving DecidableEq

/-- One client call on the library; `none` when the call never returns. -/
def apiStep {F : Type} (L : LevelOps F) (relock : Relock) (s : ApiState F) (call : ApiCall) :
    Option (ApiState F) :=
  match call with
  | .initializeCore =>
      match AIOS_InitializeCore L relock s with
      | (s1, .returned _) => some s1
      | (_, .neverReturns) => none
  | .updateConsciousness => some (growEngine L s (1 / 10000))
  | .shutdownCore => some (AIOS_ShutdownCore s)
  | .getConsciousnessLevel => some (AIOS_GetConsciousnessLevel L s).1
  | .stimulateDendriticGrowth source =>
      if source.isNone then some s else some (growEngine L s (1 / 1000))
  | .adaptToSystemBehavior behavior_pattern =>
      if behavior_pattern.isNone then some s else some (growEngine L s (2 / 1000))
  | .enhanceIntelligence enhancement_area =>
      if enhancement_area.isNone then some s else some (growEngine L s (3 / 1000))
  | .transformError error_message context =>
      if error_message.isNone || context.isNone then some s else some (growEngine L s (5 / 10000))
  | .evolveLogicFromError error_pattern =>
      if error_pattern.isNone then some s else some (growEngine L s (1 / 1000))

/-- A sequence of client calls, in order; `none` when one of them never
returns. -/
def apiRun {F : Type} (L : LevelOps F) (relock : Relock) (s : ApiState F) :
    List ApiCall → Option (ApiState F)
  | [] => some s
  | call :: calls =>
      match apiStep L relock s call with
      | none => none
      | some s1 => apiRun L relock s1 calls

/-! ## Tachyonic surface: height map and orthographic rendering -/

/-- Width of `uint32_t`. -/
def U32 : Nat := 2 ^ 32

/-- The operations on `float` that tachyonic_surface.cpp uses: conversion from
`uint32_t`, `*`, `/`, `std::clamp`, the literals `0.0f`, `1.0f`, `-1.0f`, and
the conversion `static_cast<int>`.  The standard leaves the conversion of a
value outside the range of `int` undefined and the hardware delivers some
`int`, so `toInt` is any function. -/
structure FloatOps (F : Type) where
  ofU32 : Nat → F
  mul : F → F → F
  div : F → F → F
  clamp : F → F → F → F
  zero : F
  one : F
  negOne : F
  toInt : F → Int

/-- Exact rational arithmetic as an instance of the `float` operations; the
conversion to `int` truncates towards zero. -/
def exactFloatOps : FloatOps ℚ where
  ofU32 := fun n => (n : ℚ)
  mul := fun a b => a * b
  div := fun a b => a / b
  clamp := fun v lo hi => if v < lo then lo else if hi < v then hi else v
  zero := 0
  one := 1
  negOne := -1
  toInt := fun a => if 0 ≤ a then Int.floor a else Int.ceil a

/-- Modelled from the spec: the struct `Point3D`, declared in the header
tachyonic_surface.hpp that is not among the sources; the three floats are
those of the initialiser on line 27. -/
structure Point3D (F : Type) where
  x : F
  y : F
  z : F
  deriving DecidableEq

/-- Modelled from the spec: the struct `HeightMap`, declared in the header
tachyonic_surface.hpp that is not among the sources; the fields are those
`build_height_map` assigns (lines 13-15 and 28). -/
structure HeightMap (F : Type) where
  width : Nat
  height : Nat
  points : List (Point3D F)
  deriving DecidableEq

/-- The sample index of column `cx` (line 22):
`static_cast<size_t>((static_cast<double>(cx) / (columns - 1)) * (total - 1))`,
each `double` operation and the conversion of `total - 1` rounding to
binary64.  With `columns - 1 = 0` the quotient is 0/0 or x/0, not a number or
infinite, and the conversion to `size_t` has no defined result, as it has none
for a value of 2^64 or more: `none`. -/
def columnIndex (cx columns total : Nat) : Option Nat :=
  if columns - 1 = 0 then none
  else
    let ratio : ℚ := roundBinary64 ((cx : ℚ) / ((columns - 1 : Nat) : ℚ))
    let scaled : ℚ := roundBinary64 (ratio * roundBinary64 ((total - 1 : Nat) : ℚ))
    if ⌊scaled⌋₊ < U64 then some ⌊scaled⌋₊ else none

/-- The points of column `cx` (lines 22-29): `none` when the index is
undefined or `magnitudes[idx]` is read outside the vector. -/
def columnPoints {F : Type} (P : FloatOps F) (magnitudes : List F) (core_distance_fn : Nat → F)
    (columns rows cx : Nat) : Option (List (Point3D F)) :=
  match columnIndex cx columns magnitudes.length with
  | none => none
  | some idx =>
      match magnitudes[idx]? with
      | none => none
      | some m =>
          let mag := P.clamp m P.negOne P.one
          let distNorm := P.clamp (core_distance_fn idx) P.zero P.one
          some (List.replicate rows
            { x := P.div (P.ofU32 cx) (P.ofU32 (columns - 1)), y := distNorm, z := mag })

/-- The loop over the columns `cx, cx+1, ...` (lines 21-30), `n` of them. -/
def columnLoop {F : Type} (P : FloatOps F) (magnitudes : List F) (core_distance_fn : Nat → F)
    (columns rows : Nat) : Nat → Nat → Option (List (Point3D F))
  | 0, _ => some []
  | n + 1, cx =>
      match columnPoints P magnitudes core_distance_fn columns rows cx with
      | none => none
      | some ps =>
          match columnLoop P magnitudes core_distance_fn columns rows n (cx + 1) with
          | none => none
          | some rest => some (ps ++ rest)

/-- The body of `aios::tachyonic::build_height_map` (lines 8-32); `none` when
the behaviour is undefined. -/
def build_height_map {F : Type} (P : FloatOps F) (magnitudes : List F)
    (core_distance_fn : Nat → F) (columns rows : Nat) : Option (HeightMap F) :=
  if magnitudes.length = 0 ∨ columns = 0 ∨ rows = 0 then
    some { width := columns, height := rows, points := [] }
  else
    match columnLoop P magnitudes core_distance_fn columns rows columns 0 with
    | none => none
    | some points => some { width := columns, height := rows, points := points }

/-- The conversion `(int)w` of a `uint32_t`. -/
def toSignedInt (w : Nat) : Int :=
  if w < 2 ^ 31 then (w : Int) else (w : Int) - 2 ^ 32

/-- The pixel that point `i` is written to (lines 49-56), if the test of line 54
lets it through: the `uint32_t` at byte offset `py * width * 4`, computed in
`uint32_t`, plus `px` pixels.  The point is read at `i*3` and `i*3+1`, computed
in `uint32_t`. -/
def writeTarget {F : Type} (P : FloatOps F) (pointsXYZ : Nat → F) (width height i : Nat) :
    Option Nat :=
  let x := pointsXYZ ((i * 3 + 0) % U32)
  let y := pointsXYZ ((i * 3 + 1) % U32)
  let px : Int := P.toInt (P.mul x (P.ofU32 (width - 1)))
  let py : Int := P.toInt (P.mul y (P.ofU32 (height - 1)))
  if 0 ≤ px ∧ px < toSignedInt width ∧ 0 ≤ py ∧ py < toSignedInt height then
    some (py.toNat * width * 4 % U32 / 4 + px.toNat)
  else none

/-- The loop of `aios_render_heightmap_ortho` (lines 48-58) over the points
`is`: the pixel buffer, as `uint32_t` pixels, and the list of the pixels
written so far; `none` when a write falls outside the buffer. -/
def renderLoop {F : Type} (P : FloatOps F) (pointsXYZ : Nat → F) (width height baseColor : Nat) :
    List Nat → List Nat × List Nat → Option (List Nat × List Nat)
  | [], st => some st
  | i :: rest, st =>
      match writeTarget P pointsXYZ width height i with
      | none => renderLoop P pointsXYZ width height baseColor rest st
      | some k =>
          if k < st.1.length then
            renderLoop P pointsXYZ width height baseColor rest
              (st.1.set k baseColor, st.2 ++ [k])
          else none

/-- The body of `aios_render_heightmap_ortho` (lines 37-59).  A null pointer is
`none`; the result is the pixel buffer afterwards and the list of the pixels
written, or `none` when a write falls outside the buffer. -/
def aios_render_heightmap_ortho {F : Type} (P : FloatOps F) (pointsXYZ : Option (Nat → F))
    (pointCount : Nat) (pixelBuffer : Option (List Nat)) (width height : Nat) (_zScale : F)
    (baseColor : Nat) : Option (Option (List Nat) × List Nat) :=
  match pointsXYZ, pixelBuffer with
  | some pts, some buf =>
      if width = 0 ∨ height = 0 then some (pixelBuffer, [])
      else
        match renderLoop P pts width height baseColor (List.range pointCount) (buf, []) with
        | none => none
        | some st => some (some st.1, st.2)
  | _, _ => some (pixelBuffer, [])

/-! ## Concrete environments used in examples -/

/-- A file system on which every directory can be created and every file
opened, all files being empty. -/
def fsAll : FileSystem :=
  { canCreateDir := fun _ => true, canOpen := fun _ => true, content := fun _ => [], opens := 0 }

/-- A file system on which no directory can be created. -/
def fsNoDir : FileSystem :=
  { canCreateDir := fun _ => false, canOpen := fun _ => true, content := fun _ => [], opens := 0 }

/-- A process without sinks of other classes: the state of such a sink is
`Unit`. -/
def noCustom : OnSample ℚ Unit := fun _ _ => ()

/-- Two runs of one instance: two samples in the first run, one in the
second. -/
def twoRuns : List (Event ℚ Unit) :=
  [.construct, .start 0 1, .tick 0 0 0 0, .tick 0 1 0 0, .stop 0,
   .start 0 1, .tick 0 2 0 0, .stop 0]

/-- A sample with sequence number `k` and all other fields zero. -/
def sampleAt (k : Nat) : CoreMetricSample ℚ :=
  { timestamp_sec := 0, sequence := k, process_cpu_pct := 0, process_mem_mb := 0,
    frame_time_ms := 0, avg_frame_time_ms := 0 }

/-- The sink that the constructor builds for directory `logs` and
threshold 2. -/
def freshLogs2 : JsonFileTelemetrySink ℚ :=
  { dir_ := "logs", flush_every_ := 2, buffer_ := [], pending_ := pendingInitial }

/-- The sink `freshLogs2` after two `on_sample` calls whose file open failed:
the flush of the second call reset `pending_` and kept the buffer. -/
def afterFailedFlush : JsonFileTelemetrySink ℚ × FileSystem :=
  sinkRun exactOps (freshLogs2, fsAll)
    [.on_sample (sampleAt 0) false, .on_sample (sampleAt 1) false]

/-- The file sink held by `busTwice` at handle 1. -/
def logsSink : JsonFileTelemetrySink ℚ :=
  { dir_ := "logs", flush_every_ := 1, buffer_ := [], pending_ := 0 }

/-- A process with one instance, started once with interval 1. -/
def startedOnce : Process ℚ Unit :=
  run exactOps noCustom (Process.init fsAll) [.construct, .start 0 1]

/-- The instance of `startedOnce`: running, with one worker created. -/
def runningImpl : Impl ℚ :=
  { running := true, th := true, interval := 1, seq := 0, last_frame_ms := -1,
    avg_frame_ms := -1, spawned := 1 }

/-- The sample that the instance of `startedOnce` builds at time 0 when no
frame has been recorded. -/
def sampleUnrecorded : CoreMetricSample ℚ :=
  { timestamp_sec := 0, sequence := 0, process_cpu_pct := 0, process_mem_mb := 0,
    frame_time_ms := -1, avg_frame_time_ms := -1 }

/-- The sample that the instance of `startedOnce` builds at time 0 after
`record_frame(10)`. -/
def sampleRecorded10 : CoreMetricSample ℚ :=
  { timestamp_sec := 0, sequence := 0, process_cpu_pct := 0, process_mem_mb := 0,
    frame_time_ms := 10, avg_frame_time_ms := 10 }

/-- The CPU state after a first measurement at tick 1000 with no CPU time
used yet. -/
def cpuBaseline : CpuState :=
  { last_cpu_kernel := 0, last_cpu_user := 0, last_time := 1000, cpu_inited := true }

/-- A caller registers a sink of its own on the bus, then a sampler is
constructed. -/
def callerRegisteredFirst : Process ℚ Unit :=
  run exactOps noCustom (Process.init fsAll) [.register_new (.custom ()), .construct]

/-- An analysis task for the path `p`, as a client fills it in. -/
def analyzeTask (p : String) : AITask :=
  { task_id := "", task_type := "analyze", target_path := p }

/-- A flat array of points whose every point is (1, 0, 0): the right end of
the top row. -/
def topRightPoints : Nat → ℚ := fun i => if i % 3 = 0 then 1 else 0

/-- The sample that a fresh sampler builds at time 1.5, with no CPU and
memory reading, after `record_frame(NAN)`. -/
def sampleAfterNan : CoreMetricSample IeeeDouble :=
  buildSample
    (record_frame (ieeeOps (.nan true)) (Impl.fresh (ieeeOps (.nan true))) (.nan false))
    (.finite (3 / 2)) (.finite (-1)) (.finite (-1))

/-- The sample that the sampler builds with sequence number 7 at time 1.5,
with the CPU at 12.5 percent, 2047.8 MB of memory, the last frame time 16.6
and the average 1234567. -/
def sampleFinite : CoreMetricSample ℚ :=
  { timestamp_sec := 3 / 2, sequence := 7, process_cpu_pct := 25 / 2,
    process_mem_mb := 20478 / 10, frame_time_ms := 166 / 10, avg_frame_time_ms := 1234567 }

/-! # Theorems -/

/-! ## Frame-time average -/

theorem record_frames_snoc {F : Type} (A : DoubleOps F) (impl : Impl F) (ds : List F) (d : F) :
    record_frames A impl (ds ++ [d]) = record_frame A (record_frames A impl ds) d := by
  simp [record_frames, List.foldl_append]

theorem record_frame_avg_of_neg {F : Type} (A : DoubleOps F) (impl : Impl F) (d : F)
    (h : A.ltZero impl.avg_frame_ms = true) : (record_frame A impl d).avg_frame_ms = d := by
  simp [record_frame, h]

theorem record_frame_avg_of_nonneg {F : Type} (A : DoubleOps F) (impl : Impl F) (d : F)
    (h : A.ltZero impl.avg_frame_ms = false) :
    (record_frame A impl d).avg_frame_ms
      = A.add (A.mul impl.avg_frame_ms A.c09) (A.mul d A.c01) := by
  simp [record_frame, h]

/-- C1, as stated, fails: on a fresh sampler in exact arithmetic, recording
-10 and then 20 leaves the average 20, whereas the formula of the claim
gives -10*0.9 + 20*0.1 = -7. -/
theorem record_frame_reseeds_after_negative_average :
    (record_frames exactOps (Impl.fresh exactOps) [-10, 20]).avg_frame_ms = 20 ∧
    (record_frames exactOps (Impl.fresh exactOps) [-10, 20]).avg_frame_ms ≠
      exactOps.add
        (exactOps.mul (record_frames exactOps (Impl.fresh exactOps) [-10]).avg_frame_ms
          exactOps.c09)
        (exactOps.mul 20 exactOps.c01) := by
  constructor <;> norm_num [record_frames, record_frame, Impl.fresh, exactOps]

/-- C1, amended: on a fresh sampler the stored average is `d1` after the first
`record_frame`; after each later call with frame time `d` it is
`prev*0.9 + d*0.1` when the average `prev` stored before the call is not
negative, and `d` when `prev` is negative.  In exact arithmetic recording 10
then 20 gives the averages 10 then 11. -/
theorem record_frame_average_sequence {F : Type} (A : DoubleOps F) (d1 : F) (ds : List F)
    (d : F) :
    (record_frames A (Impl.fresh A) [d1]).avg_frame_ms = d1 ∧
    (record_frames A (Impl.fresh A) ((d1 :: ds) ++ [d])).avg_frame_ms
      = (if A.ltZero (record_frames A (Impl.fresh A) (d1 :: ds)).avg_frame_ms = true then d
         else A.add (A.mul (record_frames A (Impl.fresh A) (d1 :: ds)).avg_frame_ms A.c09)
            (A.mul d A.c01)) ∧
    (record_frames exactOps (Impl.fresh exactOps) [10]).avg_frame_ms = 10 ∧
    (record_frames exactOps (Impl.fresh exactOps) [10, 20]).avg_frame_ms = 11 := by
  refine ⟨?_, ?_, ?_, ?_⟩
  · simp [record_frames, record_frame, Impl.fresh, A.negOne_ltZero]
  · rw [record_frames_snoc]
    by_cases h : A.ltZero (record_frames A (Impl.fresh A) (d1 :: ds)).avg_frame_ms = true
    · rw [if_pos h]
      exact record_frame_avg_of_neg A _ d h
    · rw [if_neg h]
      exact record_frame_avg_of_nonneg A _ d (by simpa using h)
  · norm_num [record_frames, record_frame, Impl.fresh, exactOps]
  · norm_num [record_frames, record_frame, Impl.fresh, exactOps]

/-! ## Sequence numbers -/

theorem start_seq {F U : Type} (g : Globals F U) (impl : Impl F) (iv : F) :
    (start g impl iv).1.2.seq = impl.seq := by
  unfold start
  split
  · rfl
  · split <;> rfl

theorem stop_seq {F : Type} (impl : Impl F) : (stop impl).seq = impl.seq := by
  unfold stop
  split <;> rfl

theorem record_frame_seq {F : Type} (A : DoubleOps F) (impl : Impl F) (d : F) :
    (record_frame A impl d).seq = impl.seq := by
  by_cases h : A.ltZero impl.avg_frame_ms = true <;> simp [record_frame, h]

theorem seqsOf_append {F : Type} (i : Nat) (xs ys : List (Nat × CoreMetricSample F)) :
    seqsOf i (xs ++ ys) = seqsOf i xs ++ seqsOf i ys := by
  simp [seqsOf]

theorem seqInv_init {F U : Type} (fs : FileSystem) : SeqInv (Process.init fs : Process F U) := by
  intro i
  simp [Process.init, seqsOf]

theorem seqInv_set {F U : Type} (p : Process F U) (i : Nat) (impl impl1 : Impl F)
    (g1 : Globals F U) (h : p.samplers[i]? = some impl) (hs : impl1.seq = impl.seq)
    (H : SeqInv p) :
    SeqInv { globals := g1, samplers := p.samplers.set i impl1, built := p.built } := by
  intro j
  obtain ⟨h1, h2, h3⟩ := H j
  refine ⟨h1, ?_, ?_⟩
  · intro im hj
    by_cases hji : i = j
    · subst hji
      have hlt : i < p.samplers.length := by
        by_contra hc
        rw [List.getElem?_eq_none (by omega)] at h
        cases h
      simp [List.getElem?_set, hlt] at hj
      subst hj
      rw [hs]
      exact h2 impl h
    · rw [List.getElem?_set_ne hji] at hj
      exact h2 im hj
  · intro hlen
    apply h3
    simpa using hlen

theorem seqInv_step {F U : Type} (A : DoubleOps F) (V : OnSample F U)
    (p : Process F U) (e : Event F U) (H : SeqInv p) : SeqInv (step A V p e) := by
  cases e with
  | construct =>
      intro j
      obtain ⟨h1, h2, h3⟩ := H j
      refine ⟨h1, ?_, ?_⟩
      · intro im hj
        simp only [step] at hj
        by_cases hlt : j < p.samplers.length
        · rw [List.getElem?_append_left hlt] at hj
          exact h2 im hj
        · have hle : p.samplers.length ≤ j := by omega
          rw [List.getElem?_append_right hle] at hj
          have hj0 : j - p.samplers.length = 0 := by
            by_contra hc
            rw [List.getElem?_eq_none (by simp; omega)] at hj
            cases hj
          rw [hj0] at hj
          simp at hj
          subst hj
          show 0 = (seqsOf j p.built).length % U64
          rw [h3 hle]
          rfl
      · intro hlen
        apply h3
        simp [step] at hlen
        omega
  | start i iv =>
      simp only [step]
      cases hi : p.samplers[i]? with
      | none => exact H
      | some impl => exact seqInv_set p i impl _ _ hi (start_seq _ _ _) H
  | stop i =>
      simp only [step]
      cases hi : p.samplers[i]? with
      | none => exact H
      | some impl => exact seqInv_set p i impl _ _ hi (stop_seq _) H
  | record_frame i d =>
      simp only [step]
      cases hi : p.samplers[i]? with
      | none => exact H
      | some impl => exact seqInv_set p i impl _ _ hi (record_frame_seq A _ _) H
  | tick i now cpu mem =>
      simp only [step]
      cases hi : p.samplers[i]? with
      | none => exact H
      | some impl =>
          simp only [loopIteration]
          by_cases hrun : (impl.th && impl.running) = true
          · simp only [hrun, if_true, Option.map_some', Option.toList_some]
            intro j
            obtain ⟨h1, h2, h3⟩ := H j
            have hlt : i < p.samplers.length := by
              by_contra hc
              rw [List.getElem?_eq_none (by omega)] at hi
              cases hi
            by_cases hji : i = j
            · subst hji
              have hseq := h2 impl hi
              have hnew : seqsOf i (p.built ++ [(i, buildSample impl now cpu mem)])
                  = seqsOf i p.built ++ [impl.seq] := by
                simp [seqsOf, buildSample]
              refine ⟨?_, ?_, ?_⟩
              · rw [hnew, List.length_append, List.length_singleton, List.range_succ,
                  List.map_append, ← h1, hseq]
                rfl
              · intro im hj
                simp [List.getElem?_set, hlt] at hj
                subst hj
                rw [hnew, List.length_append, List.length_singleton]
                simp only [hseq]
                exact Nat.mod_add_mod _ _ _
              · intro hlen
                simp at hlen
                omega
            · have hnew : seqsOf j (p.built ++ [(i, buildSample impl now cpu mem)])
                  = seqsOf j p.built := by
                simp [seqsOf, hji]
              refine ⟨?_, ?_, ?_⟩
              · rw [hnew]; exact h1
              · intro im hj
                rw [List.getElem?_set_ne hji] at hj
                rw [hnew]
                exact h2 im hj
              · intro hlen
                rw [hnew]
                apply h3
                simpa using hlen
          · simp only [hrun, Bool.false_eq_true, if_false, Option.map_none', Option.toList_none,
              List.append_nil]
            exact seqInv_set p i impl impl _ hi rfl H
  | register_new o => exact H
  | register_again r =>
      simp only [step]
      split
      · exact H
      · exact H
  | set_fs c o => exact H

theorem seqInv_run {F U : Type} (A : DoubleOps F) (V : OnSample F U)
    (es : List (Event F U)) (p : Process F U) (H : SeqInv p) : SeqInv (run A V p es) := by
  induction es generalizing p with
  | nil => exact H
  | cons e es ih => exact ih (step A V p e) (seqInv_step A V p e H)

theorem step_built {F U : Type} (A : DoubleOps F) (V : OnSample F U)
    (p : Process F U) (e : Event F U) : ∃ new, (step A V p e).built = p.built ++ new := by
  cases e with
  | tick i now cpu mem =>
      simp only [step]
      cases p.samplers[i]? with
      | none => exact ⟨[], by simp⟩
      | some impl => exact ⟨_, rfl⟩
  | start i iv =>
      simp only [step]
      cases p.samplers[i]? <;> exact ⟨[], by simp⟩
  | stop i =>
      simp only [step]
      cases p.samplers[i]? <;> exact ⟨[], by simp⟩
  | record_frame i d =>
      simp only [step]
      cases p.samplers[i]? <;> exact ⟨[], by simp⟩
  | register_again r =>
      simp only [step]
      split <;> exact ⟨[], by simp⟩
  | construct => exact ⟨[], by simp [step]⟩
  | register_new o => exact ⟨[], by simp [step]⟩
  | set_fs c o => exact ⟨[], by simp [step]⟩

theorem run_built {F U : Type} (A : DoubleOps F) (V : OnSample F U)
    (es : List (Event F U)) (p : Process F U) :
    (run A V p es).built = p.built ++ builtDuring A V p es := by
  have key : ∃ new, (run A V p es).built = p.built ++ new := by
    induction es generalizing p with
    | nil => exact ⟨[], by simp [run]⟩
    | cons e es ih =>
        obtain ⟨n1, h1⟩ := step_built A V p e
        obtain ⟨n2, h2⟩ := ih (step A V p e)
        refine ⟨n1 ++ n2, ?_⟩
        show (run A V (step A V p e) es).built = _
        rw [h2, h1, List.append_assoc]
  obtain ⟨new, h⟩ := key
  unfold builtDuring
  rw [h, List.drop_left]

theorem run_append {F U : Type} (A : DoubleOps F) (V : OnSample F U)
    (p : Process F U) (es fs : List (Event F U)) :
    run A V p (es ++ fs) = run A V (run A V p es) fs := by
  simp [run, List.foldl_append]

theorem seqsOf_during {F U : Type} (A : DoubleOps F) (V : OnSample F U)
    (p : Process F U) (H : SeqInv p) (es : List (Event F U)) (i : Nat) :
    seqsOf i (builtDuring A V p es)
      = (List.range (seqsOf i (builtDuring A V p es)).length).map
          (fun j => ((seqsOf i p.built).length + j) % U64) := by
  have h1 := (seqInv_run A V es p H i).1
  have h0 := (H i).1
  rw [run_built, seqsOf_append, List.length_append, List.range_add, List.map_append,
    List.map_map] at h1
  have h2 := List.append_inj_right h1 (by simp)
  rw [h2]
  simp [Function.comp_def]

/-- C2, as stated, fails: in the trace `twoRuns` the second start of instance
0 takes effect after a first run that built two samples, and the sample
built during the second run carries the sequence number 2, not 0. -/
theorem second_run_does_not_restart_at_zero :
    startTakesEffect (run exactOps noCustom (Process.init fsAll) (twoRuns.take 5)) 0 1 = true ∧
    seqsOf 0 (builtDuring exactOps noCustom
        (run exactOps noCustom (Process.init fsAll) (twoRuns.take 5)) (twoRuns.drop 5)) = [2] ∧
    seqsOf 0 (builtDuring exactOps noCustom (Process.init fsAll) (twoRuns.take 5)) = [0, 1] := by
  decide

/-- C2, amended: the samples an instance builds during a run (the events from
a start on) carry consecutive sequence numbers n, n+1, n+2, ... modulo 2^64
in the order they are built, where n is the number of samples the instance
built before that start; they are 0, 1, 2, ... when the instance has built no
sample before, as in its first run. -/
theorem run_sequence_numbers_continue {F U : Type} (A : DoubleOps F)
    (V : OnSample F U) (fs : FileSystem) (pre body : List (Event F U))
    (i : Nat) (iv : F) :
    (run A V (run A V (Process.init fs) pre) (Event.start i iv :: body)).built
      = (run A V (Process.init fs) pre).built
          ++ builtDuring A V (run A V (Process.init fs) pre) (Event.start i iv :: body) ∧
    seqsOf i (builtDuring A V (run A V (Process.init fs) pre) (Event.start i iv :: body))
      = (List.range
          (seqsOf i (builtDuring A V (run A V (Process.init fs) pre)
            (Event.start i iv :: body))).length).map
          (fun j => ((seqsOf i (run A V (Process.init fs) pre).built).length + j) % U64) ∧
    ((seqsOf i (run A V (Process.init fs) pre).built).length = 0 →
      seqsOf i (builtDuring A V (run A V (Process.init fs) pre) (Event.start i iv :: body))
        = (List.range
            (seqsOf i (builtDuring A V (run A V (Process.init fs) pre)
              (Event.start i iv :: body))).length).map (fun j => j % U64)) := by
  have H : SeqInv (run A V (Process.init fs) pre) := seqInv_run A V pre _ (seqInv_init fs)
  refine ⟨run_built A V _ _, seqsOf_during A V _ H _ i, ?_⟩
  intro h0
  have h := seqsOf_during A V _ H (Event.start i iv :: body) i
  rw [h0] at h
  simpa using h

/-- Witness for C2: the first run of instance 0 after its construction. -/
theorem run_sequence_numbers_continue_witness :
    (seqsOf 0 (run exactOps noCustom (Process.init fsAll) [Event.construct]).built).length = 0 ∧
    seqsOf 0 (builtDuring exactOps noCustom
        (run exactOps noCustom (Process.init fsAll) [Event.construct])
        (Event.start 0 1 :: [Event.tick 0 0 0 0, Event.tick 0 1 0 0]))
      = (List.range
          (seqsOf 0 (builtDuring exactOps noCustom
            (run exactOps noCustom (Process.init fsAll) [Event.construct])
            (Event.start 0 1 :: [Event.tick 0 0 0 0, Event.tick 0 1 0 0]))).length).map
          (fun j => j % U64) :=
  ⟨by decide,
    (run_sequence_numbers_continue exactOps noCustom fsAll [Event.construct]
      [Event.tick 0 0 0 0, Event.tick 0 1 0 0] 0 1).2.2 (by decide)⟩

/-- C3: over any sequence of events of a process (constructions, starts,
stops, frame recordings and worker iterations of any instances, in any
order), the samples that instance `i` builds carry, in the order they are
built, the sequence numbers 0, 1, 2, ... taken modulo 2^64: the k-th sample
(counting from zero) has sequence number k mod 2^64. -/
theorem sampler_sequence_numbers {F U : Type} (A : DoubleOps F)
    (V : OnSample F U) (fs : FileSystem) (es : List (Event F U)) (i : Nat) :
    seqsOf i (run A V (Process.init fs) es).built
      = (List.range (seqsOf i (run A V (Process.init fs) es).built).length).map
          (fun k => k % U64) :=
  (seqInv_run A V es _ (seqInv_init fs) i).1

/-! ## JSON file sink -/

theorem on_sample_below {F : Type} (A : DoubleOps F) (s : JsonFileTelemetrySink F)
    (fs : FileSystem) (x : CoreMetricSample F) (h : s.pending_ + 1 < s.flush_every_)
    (hN : s.flush_every_ < U64) :
    s.on_sample A fs x
      = (({ s with buffer_ := s.buffer_ ++ [x], pending_ := s.pending_ + 1 }, fs), none) := by
  have hmod : (s.pending_ + 1) % U64 = s.pending_ + 1 := Nat.mod_eq_of_lt (by omega)
  simp only [JsonFileTelemetrySink.on_sample, JsonFileTelemetrySink.push, hmod]
  rw [if_neg (by simp only [ge_iff_le]; omega)]

theorem on_sample_reached {F : Type} (A : DoubleOps F) (s : JsonFileTelemetrySink F)
    (fs : FileSystem) (x : CoreMetricSample F) (h : s.flush_every_ ≤ s.pending_ + 1)
    (hP : s.pending_ + 1 < U64) :
    s.on_sample A fs x = (s.push x).flush A fs := by
  have hmod : (s.pending_ + 1) % U64 = s.pending_ + 1 := Nat.mod_eq_of_lt hP
  simp only [JsonFileTelemetrySink.on_sample]
  rw [if_pos]
  simp only [JsonFileTelemetrySink.push, hmod, ge_iff_le]
  exact h

theorem flush_opened {F : Type} (A : DoubleOps F) (s : JsonFileTelemetrySink F)
    (fs : FileSystem) (hb : s.buffer_ ≠ []) (ho : fs.canOpen s.path = true) :
    s.flush A fs
      = (({ s with pending_ := 0, buffer_ := [] },
          { fs with
            opens := fs.opens + 1
            content := fun p =>
              if p = s.path then fs.content p ++ s.buffer_.map (jsonLine A)
              else fs.content p }), none) := by
  have hb1 : s.buffer_.isEmpty = false := by
    cases hs : s.buffer_ with
    | nil => exact absurd hs hb
    | cons a l => rfl
  have ho1 : fs.canOpen ({ s with pending_ := 0 } : JsonFileTelemetrySink F).path = true := ho
  simp only [JsonFileTelemetrySink.flush, hb1, ho1]
  rfl

theorem flush_opens {F : Type} (A : DoubleOps F) (s : JsonFileTelemetrySink F)
    (fs : FileSystem) (hb : s.buffer_ ≠ []) : (s.flush A fs).1.2.opens = fs.opens + 1 := by
  have hb1 : s.buffer_.isEmpty = false := by
    cases hs : s.buffer_ with
    | nil => exact absurd hs hb
    | cons a l => rfl
  simp only [JsonFileTelemetrySink.flush, hb1]
  by_cases ho : fs.canOpen ({ s with pending_ := 0 } : JsonFileTelemetrySink F).path = true
  · simp [ho]
  · simp [ho]

theorem acceptAll_append {F : Type} (A : DoubleOps F) (st : JsonFileTelemetrySink F × FileSystem)
    (xs ys : List (CoreMetricSample F)) :
    acceptAll A st (xs ++ ys) = acceptAll A (acceptAll A st xs) ys := by
  simp [acceptAll, List.foldl_append]

theorem acceptAll_below {F : Type} (A : DoubleOps F) (fs : FileSystem)
    (ys : List (CoreMetricSample F)) (s : JsonFileTelemetrySink F)
    (h : s.pending_ + ys.length < s.flush_every_) (hN : s.flush_every_ < U64) :
    acceptAll A (s, fs) ys
      = ({ s with buffer_ := s.buffer_ ++ ys, pending_ := s.pending_ + ys.length }, fs) := by
  induction ys generalizing s with
  | nil => simp [acceptAll]
  | cons y ys ih =>
      simp only [List.length_cons] at h
      have h1 := on_sample_below A s fs y (by omega) hN
      show acceptAll A ((s.on_sample A fs y).1) ys = _
      rw [h1]
      rw [ih _ (by simp only; omega) (by simpa using hN)]
      simp [Nat.add_assoc, Nat.add_comm 1]

/-- C4: a sink freshly constructed with flush threshold N >= 1 whose file can
be opened leaves the file system untouched (no line written, no open
attempted) during its first N-1 `on_sample` calls and holds the samples
accepted so far in its buffer; the N-th call attempts exactly one open,
appends to the file the N lines of the N samples in acceptance order and
nothing to any other file, and leaves the buffer empty. -/
theorem flush_batching {F : Type} (A : DoubleOps F) (fs : FileSystem) (dir : String) (N : Nat)
    (xs : List (CoreMetricSample F)) (hN1 : 1 ≤ N) (hN : N < U64)
    (hdir : fs.canCreateDir dir = true)
    (hopen : fs.canOpen (dir ++ "/core_metrics.json") = true) (hlen : xs.length = N) :
    ∃ s0 : JsonFileTelemetrySink F,
      JsonFileTelemetrySink.new fs dir N = .ok s0 ∧
      (∀ k, k < N →
        acceptAll A (s0, fs) (xs.take k) = ({ s0 with buffer_ := xs.take k, pending_ := k }, fs)) ∧
      (acceptAll A (s0, fs) xs).1.buffer_ = [] ∧
      (acceptAll A (s0, fs) xs).2.content (dir ++ "/core_metrics.json")
        = fs.content (dir ++ "/core_metrics.json") ++ xs.map (jsonLine A) ∧
      (∀ q, q ≠ dir ++ "/core_metrics.json" →
        (acceptAll A (s0, fs) xs).2.content q = fs.content q) ∧
      (acceptAll A (s0, fs) xs).2.opens = fs.opens + 1 := by
  refine ⟨{ dir_ := dir, flush_every_ := N, buffer_ := [], pending_ := 0 }, ?_, ?_, ?_⟩
  · simp [JsonFileTelemetrySink.new, hdir, pendingInitial]
  · intro k hk
    have hl : (xs.take k).length = k := by
      rw [List.length_take]; omega
    rw [acceptAll_below A fs (xs.take k) _ (by simp only [hl]; omega) hN]
    simp [hl]
  · rcases List.eq_nil_or_concat xs with hnil | ⟨ini, y, hxs⟩
    · subst hnil
      simp at hlen
      omega
    · rw [List.concat_eq_append] at hxs
      subst hxs
      have hini : ini.length + 1 = N := by simpa using hlen
      rw [acceptAll_append,
        acceptAll_below A fs ini _ (by simp only; omega) hN]
      have hstep : ∀ s1 : JsonFileTelemetrySink F,
          acceptAll A (s1, fs) [y] = (s1.on_sample A fs y).1 := fun _ => rfl
      rw [hstep, on_sample_reached A _ fs y (by simp only; omega) (by simp only; omega),
        flush_opened A _ fs]
      · refine ⟨rfl, ?_, ?_, rfl⟩
        · simp [JsonFileTelemetrySink.push, JsonFileTelemetrySink.path]
        · intro q hq
          simp [JsonFileTelemetrySink.push, JsonFileTelemetrySink.path, hq]
      · simp [JsonFileTelemetrySink.push]
      · exact hopen

/-- Witness for C4: threshold 2 and two samples on a writable file system. -/
theorem flush_batching_witness :
    (1 ≤ 2 ∧ 2 < U64 ∧ fsAll.canCreateDir "logs" = true ∧
      fsAll.canOpen ("logs" ++ "/core_metrics.json") = true ∧
      [sampleAt 0, sampleAt 1].length = 2) ∧
    ∃ s0 : JsonFileTelemetrySink ℚ,
      JsonFileTelemetrySink.new fsAll "logs" 2 = .ok s0 ∧
      (∀ k, k < 2 →
        acceptAll exactOps (s0, fsAll) ([sampleAt 0, sampleAt 1].take k)
          = ({ s0 with buffer_ := [sampleAt 0, sampleAt 1].take k, pending_ := k }, fsAll)) ∧
      (acceptAll exactOps (s0, fsAll) [sampleAt 0, sampleAt 1]).1.buffer_ = [] ∧
      (acceptAll exactOps (s0, fsAll) [sampleAt 0, sampleAt 1]).2.content
          ("logs" ++ "/core_metrics.json")
        = fsAll.content ("logs" ++ "/core_metrics.json")
            ++ [sampleAt 0, sampleAt 1].map (jsonLine exactOps) ∧
      (∀ q, q ≠ "logs" ++ "/core_metrics.json" →
        (acceptAll exactOps (s0, fsAll) [sampleAt 0, sampleAt 1]).2.content q
          = fsAll.content q) ∧
      (acceptAll exactOps (s0, fsAll) [sampleAt 0, sampleAt 1]).2.opens = fsAll.opens + 1 :=
  ⟨⟨by decide, by decide, rfl, rfl, rfl⟩,
    flush_batching exactOps fsAll "logs" 2 [sampleAt 0, sampleAt 1] (by decide) (by decide)
      rfl rfl rfl⟩

theorem one_lt_U64 : 1 < U64 := by decide

theorem flush_empty {F : Type} (A : DoubleOps F) (s : JsonFileTelemetrySink F)
    (fs : FileSystem) (hb : s.buffer_ = []) : s.flush A fs = ((s, fs), none) := by
  simp [JsonFileTelemetrySink.flush, hb]

theorem flush_failed {F : Type} (A : DoubleOps F) (s : JsonFileTelemetrySink F)
    (fs : FileSystem) (hb : s.buffer_ ≠ []) (ho : fs.canOpen s.path = false) :
    s.flush A fs = (({ s with pending_ := 0 }, { fs with opens := fs.opens + 1 }), none) := by
  have hb1 : s.buffer_.isEmpty = false := by
    cases hs : s.buffer_ with
    | nil => exact absurd hs hb
    | cons a l => rfl
  have ho1 : fs.canOpen ({ s with pending_ := 0 } : JsonFileTelemetrySink F).path = false := ho
  simp only [JsonFileTelemetrySink.flush, hb1, ho1]
  rfl

theorem sinkInv_flush_nonempty {F : Type} (A : DoubleOps F) (s : JsonFileTelemetrySink F)
    (fs : FileSystem) (hb : s.buffer_ ≠ []) (hN : s.flush_every_ < U64) :
    SinkInv (s.flush A fs).1.1 := by
  by_cases ho : fs.canOpen s.path = true
  · rw [flush_opened A s fs hb ho]
    exact ⟨hN, Nat.le_refl _, Or.inr rfl⟩
  · rw [flush_failed A s fs hb (by simpa using ho)]
    exact ⟨hN, Nat.zero_le _, Or.inr rfl⟩

theorem sinkInv_flush {F : Type} (A : DoubleOps F) (s : JsonFileTelemetrySink F)
    (fs : FileSystem) (H : SinkInv s) : SinkInv (s.flush A fs).1.1 := by
  by_cases hb : s.buffer_ = []
  · rw [flush_empty A s fs hb]; exact H
  · exact sinkInv_flush_nonempty A s fs hb H.1

theorem sinkInv_pending_lt {F : Type} (s : JsonFileTelemetrySink F) (H : SinkInv s) :
    s.pending_ + 1 < U64 := by
  obtain ⟨hN, _, h | h⟩ := H
  · omega
  · rw [h]; exact one_lt_U64

theorem sinkInv_on_sample {F : Type} (A : DoubleOps F) (s : JsonFileTelemetrySink F)
    (fs : FileSystem) (x : CoreMetricSample F) (H : SinkInv s) :
    SinkInv (s.on_sample A fs x).1.1 := by
  by_cases h : s.pending_ + 1 < s.flush_every_
  · rw [on_sample_below A s fs x h H.1]
    refine ⟨H.1, ?_, Or.inl h⟩
    have := H.2.1
    simp only [List.length_append, List.length_singleton]
    omega
  · rw [on_sample_reached A s fs x (by omega) (sinkInv_pending_lt s H)]
    exact sinkInv_flush_nonempty A _ fs (by simp [JsonFileTelemetrySink.push]) H.1

theorem sinkInv_run {F : Type} (A : DoubleOps F) (ops : List (SinkOp F))
    (st : JsonFileTelemetrySink F × FileSystem) (H : SinkInv st.1) :
    SinkInv (sinkRun A st ops).1 := by
  induction ops generalizing st with
  | nil => exact H
  | cons op ops ih =>
      apply ih
      cases op with
      | on_sample x b => exact sinkInv_on_sample A _ _ x H
      | flush b => exact sinkInv_flush A _ _ H

theorem pending_eq_flush_ok {F : Type} (A : DoubleOps F) (s : JsonFileTelemetrySink F)
    (fs : FileSystem) (h : s.pending_ = s.buffer_.length) :
    ((s.flush A (fs.setOpen true)).1.1).pending_
      = ((s.flush A (fs.setOpen true)).1.1).buffer_.length := by
  by_cases hb : s.buffer_ = []
  · rw [flush_empty A s _ hb]; exact h
  · rw [flush_opened A s _ hb rfl]; rfl

theorem pending_eq_on_sample_ok {F : Type} (A : DoubleOps F) (s : JsonFileTelemetrySink F)
    (fs : FileSystem) (x : CoreMetricSample F) (H : SinkInv s)
    (h : s.pending_ = s.buffer_.length) :
    ((s.on_sample A (fs.setOpen true) x).1.1).pending_
      = ((s.on_sample A (fs.setOpen true) x).1.1).buffer_.length := by
  by_cases hlt : s.pending_ + 1 < s.flush_every_
  · rw [on_sample_below A s _ x hlt H.1]
    simp [h]
  · rw [on_sample_reached A s _ x (by omega) (sinkInv_pending_lt s H),
      flush_opened A _ _ (by simp [JsonFileTelemetrySink.push]) rfl]
    rfl

theorem pending_eq_run {F : Type} (A : DoubleOps F) (ops : List (SinkOp F))
    (st : JsonFileTelemetrySink F × FileSystem) (H : SinkInv st.1)
    (h : st.1.pending_ = st.1.buffer_.length) (hok : ∀ op ∈ ops, op.opensOk = true) :
    (sinkRun A st ops).1.pending_ = (sinkRun A st ops).1.buffer_.length := by
  induction ops generalizing st with
  | nil => exact h
  | cons op ops ih =>
      have hop := hok op (List.mem_cons_self _ _)
      have hrest : ∀ o ∈ ops, o.opensOk = true := fun o ho => hok o (List.mem_cons_of_mem _ ho)
      cases op with
      | on_sample x b =>
          simp only [SinkOp.opensOk] at hop
          subst hop
          exact ih _ (sinkInv_on_sample A _ _ x H) (pending_eq_on_sample_ok A _ _ x H h) hrest
      | flush b =>
          simp only [SinkOp.opensOk] at hop
          subst hop
          exact ih _ (sinkInv_flush A _ _ H) (pending_eq_flush_ok A _ _ h) hrest

theorem flush_threshold {F : Type} (A : DoubleOps F) (s : JsonFileTelemetrySink F)
    (fs : FileSystem) : (s.flush A fs).1.1.flush_every_ = s.flush_every_ := by
  by_cases hb : s.buffer_ = []
  · rw [flush_empty A s fs hb]
  · by_cases ho : fs.canOpen s.path = true
    · rw [flush_opened A s fs hb ho]
    · rw [flush_failed A s fs hb (by simpa using ho)]

theorem on_sample_threshold {F : Type} (A : DoubleOps F) (s : JsonFileTelemetrySink F)
    (fs : FileSystem) (x : CoreMetricSample F) :
    (s.on_sample A fs x).1.1.flush_every_ = s.flush_every_ := by
  simp only [JsonFileTelemetrySink.on_sample]
  split
  · rw [flush_threshold]; rfl
  · rfl

theorem sinkRun_threshold {F : Type} (A : DoubleOps F) (ops : List (SinkOp F))
    (st : JsonFileTelemetrySink F × FileSystem) :
    (sinkRun A st ops).1.flush_every_ = st.1.flush_every_ := by
  induction ops generalizing st with
  | nil => rfl
  | cons op ops ih =>
      show (sinkRun A (sinkStep A st op) ops).1.flush_every_ = _
      rw [ih]
      cases op with
      | on_sample x b => exact on_sample_threshold A _ _ x
      | flush b => exact flush_threshold A _ _

theorem new_eq {F : Type} (fs : FileSystem) (dir : String) (N : Nat)
    (s0 : JsonFileTelemetrySink F) (h : JsonFileTelemetrySink.new fs dir N = .ok s0) :
    s0 = { dir_ := dir, flush_every_ := N, buffer_ := [], pending_ := 0 } := by
  unfold JsonFileTelemetrySink.new at h
  split at h
  · injection h with h; exact h.symm
  · cases h

/-- C5, as stated, fails: the sink `afterFailedFlush` (threshold 2) is reached
by two `on_sample` calls whose file open failed and holds two samples; the
next `on_sample`, with the file now openable, brings the buffer to three
samples, which is above the threshold, and performs no flush: no open is
attempted, nothing is written and the three samples stay buffered. -/
theorem on_sample_skips_flush_after_failed_open :
    JsonFileTelemetrySink.new fsAll "logs" 2 = Except.ok freshLogs2 ∧
    afterFailedFlush.1.flush_every_ = 2 ∧
    afterFailedFlush.1.buffer_.length = 2 ∧
    ((afterFailedFlush.1.on_sample exactOps (afterFailedFlush.2.setOpen true)
        (sampleAt 2)).1.1).buffer_.length = 3 ∧
    ((afterFailedFlush.1.on_sample exactOps (afterFailedFlush.2.setOpen true)
        (sampleAt 2)).1.2).opens = afterFailedFlush.2.opens ∧
    ((afterFailedFlush.1.on_sample exactOps (afterFailedFlush.2.setOpen true)
        (sampleAt 2)).1.2).content "logs/core_metrics.json" = [] :=
  ⟨rfl, by decide⟩

/-- C5, amended: in every state `st` that a freshly constructed sink reaches
by `on_sample` and `flush` calls, `on_sample` appends the sample at the end of
the buffer and then performs a flush (which attempts one file open) if and
only if `pending_`, the number of samples accepted since the last flush
attempt, has reached the flush threshold with this sample; `pending_` never
exceeds the number of buffered samples, and equals it when no file open has
failed so far. -/
theorem on_sample_flush_decision {F : Type} (A : DoubleOps F) (fs fs1 : FileSystem)
    (dir : String) (N : Nat) (ops : List (SinkOp F)) (x : CoreMetricSample F)
    (s0 : JsonFileTelemetrySink F) (st : JsonFileTelemetrySink F × FileSystem)
    (hN : N < U64) (hnew : JsonFileTelemetrySink.new fs dir N = .ok s0)
    (hst : sinkRun A (s0, fs) ops = st) :
    (st.1.push x).buffer_ = st.1.buffer_ ++ [x] ∧
    st.1.flush_every_ = N ∧
    st.1.on_sample A fs1 x
      = (if N ≤ st.1.pending_ + 1 then (st.1.push x).flush A fs1
         else ((st.1.push x, fs1), none)) ∧
    (st.1.on_sample A fs1 x).1.2.opens
      = fs1.opens + (if N ≤ st.1.pending_ + 1 then 1 else 0) ∧
    st.1.pending_ ≤ st.1.buffer_.length ∧
    ((∀ op ∈ ops, op.opensOk = true) → st.1.pending_ = st.1.buffer_.length) := by
  have h0 := new_eq fs dir N s0 hnew
  have hinv0 : SinkInv (s0, fs).1 := by
    rw [h0]; exact ⟨hN, Nat.le_refl _, Or.inr rfl⟩
  have hinv : SinkInv st.1 := by
    rw [← hst]; exact sinkInv_run A ops _ hinv0
  have hthr : st.1.flush_every_ = N := by
    rw [← hst, sinkRun_threshold, h0]
  have hreach : N ≤ st.1.pending_ + 1 →
      st.1.on_sample A fs1 x = (st.1.push x).flush A fs1 := fun h =>
    on_sample_reached A st.1 fs1 x (by omega) (sinkInv_pending_lt _ hinv)
  have hbelow : ¬ N ≤ st.1.pending_ + 1 →
      st.1.on_sample A fs1 x = ((st.1.push x, fs1), none) := by
    intro hlt
    rw [on_sample_below A st.1 fs1 x (by omega) hinv.1]
    have hmod : (st.1.pending_ + 1) % U64 = st.1.pending_ + 1 :=
      Nat.mod_eq_of_lt (sinkInv_pending_lt _ hinv)
    simp [JsonFileTelemetrySink.push, hmod]
  refine ⟨rfl, hthr, ?_, ?_, hinv.2.1, ?_⟩
  · by_cases h : N ≤ st.1.pending_ + 1
    · rw [if_pos h]; exact hreach h
    · rw [if_neg h]; exact hbelow h
  · by_cases h : N ≤ st.1.pending_ + 1
    · rw [if_pos h, hreach h]
      exact flush_opens A _ fs1 (by simp [JsonFileTelemetrySink.push])
    · rw [if_neg h, hbelow h]
      rfl
  · intro hok
    rw [← hst]
    exact pending_eq_run A ops _ hinv0 (by rw [h0]; rfl) hok

/-- Witness for C5: the sink `freshLogs2` after one accepted sample. -/
theorem on_sample_flush_decision_witness :
    (2 < U64 ∧ JsonFileTelemetrySink.new fsAll "logs" 2 = Except.ok freshLogs2 ∧
      (∀ op ∈ [SinkOp.on_sample (sampleAt 0) true], op.opensOk = true)) ∧
    (sinkRun exactOps (freshLogs2, fsAll) [SinkOp.on_sample (sampleAt 0) true]).1.pending_
      = (sinkRun exactOps (freshLogs2, fsAll)
          [SinkOp.on_sample (sampleAt 0) true]).1.buffer_.length :=
  have hok : ∀ op ∈ [SinkOp.on_sample (sampleAt 0) true], op.opensOk = true := by
    intro op hop
    rw [List.mem_singleton] at hop
    rw [hop]; rfl
  ⟨⟨by decide, rfl, hok⟩,
    (on_sample_flush_decision exactOps fsAll fsAll "logs" 2
      [SinkOp.on_sample (sampleAt 0) true] (sampleAt 1) freshLogs2 _ (by decide) rfl
      rfl).2.2.2.2.2 hok⟩

/-! ## Publication bus -/

theorem flush_raises_nothing {F : Type} (A : DoubleOps F) (s : JsonFileTelemetrySink F)
    (fs : FileSystem) : (s.flush A fs).2 = none := by
  by_cases hb : s.buffer_ = []
  · rw [flush_empty A s fs hb]
  · by_cases ho : fs.canOpen s.path = true
    · rw [flush_opened A s fs hb ho]
    · rw [flush_failed A s fs hb (by simpa using ho)]

theorem dispatch_frame {F U : Type} (A : DoubleOps F) (V : OnSample F U)
    (g : Globals F U) (r : Nat) (x : CoreMetricSample F) :
    (dispatch A V g r x).1.sinks_ = g.sinks_ ∧
    (dispatch A V g r x).1.sink_registered = g.sink_registered ∧
    (dispatch A V g r x).1.heap.length = g.heap.length ∧
    (dispatch A V g r x).1.fs.canOpen = g.fs.canOpen := by
  unfold dispatch
  split
  · exact ⟨rfl, rfl, rfl, rfl⟩
  · rename_i s hs
    refine ⟨rfl, rfl, by simp, ?_⟩
    show (s.on_sample A g.fs x).1.2.canOpen = g.fs.canOpen
    simp only [JsonFileTelemetrySink.on_sample, JsonFileTelemetrySink.flush]
    split
    · split
      · rfl
      · split <;> rfl
    · rfl
  · exact ⟨rfl, rfl, by simp, rfl⟩

theorem set_same {α : Type} (l : List α) (i : Nat) (a : α) (h : l[i]? = some a) :
    l.set i a = l := by
  apply List.ext_getElem?
  intro n
  by_cases hn : i = n
  · subst hn
    have hlt : i < l.length := by
      by_contra hc
      rw [List.getElem?_eq_none (by omega)] at h
      cases h
    simp [List.getElem?_set, hlt, h]
  · rw [List.getElem?_set_ne hn]

/-- C7, as stated, fails: on a file system where the log directory cannot be
created, `start` on a fresh sampler of a fresh process raises the
`filesystem_error` of the sink constructor to its caller. -/
theorem start_raises_when_directory_cannot_be_created :
    (start (Globals.init fsNoDir : Globals ℚ Unit) (Impl.fresh exactOps) 1).2
      = some (Exn.filesystem_error defaultDir) := by
  decide

/-- C7, amended: `start` raises the `filesystem_error` of the sink
constructor to its caller exactly when the sampler is not running, the
default sink is not registered yet and the log directory cannot be created,
and returns normally otherwise; a `start` that raises leaves the sampler and
the process-wide state as they were. -/
theorem start_raises_iff_directory_fails {F U : Type} (g : Globals F U) (impl : Impl F)
    (iv : F) :
    (start g impl iv).2
      = (if impl.running = false ∧ g.sink_registered = false
            ∧ g.fs.canCreateDir defaultDir = false
         then some (Exn.filesystem_error defaultDir) else none) ∧
    ((start g impl iv).2 ≠ none → (start g impl iv).1 = (g, impl)) := by
  unfold start ensureDefaultSink JsonFileTelemetrySink.new
  cases hrun : impl.running <;> cases hreg : g.sink_registered <;>
    cases hdir : g.fs.canCreateDir defaultDir <;> simp

/-- Witness for C7: the raising start of the counterexample changes
nothing. -/
theorem start_raises_iff_directory_fails_witness :
    (start (Globals.init fsNoDir : Globals ℚ Unit) (Impl.fresh exactOps) 1).2 ≠ none ∧
    (start (Globals.init fsNoDir : Globals ℚ Unit) (Impl.fresh exactOps) 1).1
      = (Globals.init fsNoDir, Impl.fresh exactOps) :=
  ⟨by decide,
    (start_raises_iff_directory_fails (Globals.init fsNoDir : Globals ℚ Unit)
      (Impl.fresh exactOps) 1).2 (by decide)⟩

/-- C10: `start` on a running sampler returns normally and changes nothing:
the process-wide state (sink objects, the bus list, the registration flag,
the file system) and every field of the instance (interval, sequence
counter, frame-time state, worker and the count of workers created) are as
before, and so is the whole process. -/
theorem start_on_running_is_noop {F U : Type} (A : DoubleOps F)
    (V : OnSample F U) (p : Process F U) (i : Nat) (impl : Impl F) (iv : F)
    (hi : p.samplers[i]? = some impl) (hrun : impl.running = true) :
    start p.globals impl iv = ((p.globals, impl), none) ∧
    step A V p (Event.start i iv) = p := by
  have h1 : start p.globals impl iv = ((p.globals, impl), none) := by
    simp [start, hrun]
  refine ⟨h1, ?_⟩
  simp only [step, hi, h1]
  rw [set_same p.samplers i impl hi]

/-- Witness for C10: a second start, with another interval, on the running
instance of `startedOnce`. -/
theorem start_on_running_is_noop_witness :
    (startedOnce.samplers[0]? = some runningImpl ∧ runningImpl.running = true) ∧
    step exactOps noCustom startedOnce (Event.start 0 5) = startedOnce :=
  have h : startedOnce.samplers[0]? = some runningImpl := by decide
  ⟨⟨h, rfl⟩, (start_on_running_is_noop exactOps noCustom startedOnce 0 runningImpl 5 h rfl).2⟩

/-! ## The default sink -/

theorem publishTo_frame {F U : Type} (A : DoubleOps F) (V : OnSample F U)
    (x : CoreMetricSample F) (rs : List Nat) (g : Globals F U) :
    (publishTo A V x rs g).1.sinks_ = g.sinks_ ∧
    (publishTo A V x rs g).1.sink_registered = g.sink_registered := by
  induction rs generalizing g with
  | nil => exact ⟨rfl, rfl⟩
  | cons r rs ih =>
      obtain ⟨f1, f2, _, _⟩ := dispatch_frame A V g r x
      show (match dispatch A V g r x with
          | (g1, none) => publishTo A V x rs g1
          | (g1, some e) => (g1, some e)).1.sinks_ = _ ∧
        (match dispatch A V g r x with
          | (g1, none) => publishTo A V x rs g1
          | (g1, some e) => (g1, some e)).1.sink_registered = _
      rcases hd : dispatch A V g r x with ⟨g1, e⟩
      rw [hd] at f1 f2
      cases e with
      | none =>
          obtain ⟨i1, i2⟩ := ih g1
          exact ⟨i1.trans f1, i2.trans f2⟩
      | some e => exact ⟨f1, f2⟩

theorem start_globals {F U : Type} (g : Globals F U) (impl : Impl F) (iv : F) :
    (start g impl iv).1.1.sinks_
      = g.sinks_ ++ (if (!impl.running && (start g impl iv).2.isNone) = true
            ∧ g.sink_registered = false then [g.heap.length] else []) ∧
    (start g impl iv).1.1.heap
      = g.heap ++ (if (!impl.running && (start g impl iv).2.isNone) = true
            ∧ g.sink_registered = false then [SinkObj.json defaultSink] else []) ∧
    (start g impl iv).1.1.sink_registered
      = (g.sink_registered || (!impl.running && (start g impl iv).2.isNone)) := by
  cases hrun : impl.running <;> cases hreg : g.sink_registered <;>
    cases hdir : g.fs.canCreateDir defaultDir <;>
    simp [start, ensureDefaultSink, JsonFileTelemetrySink.new, register_sink, defaultSink,
      hrun, hreg, hdir]

theorem step_registration {F U : Type} (A : DoubleOps F) (V : OnSample F U)
    (p : Process F U) (e : Event F U) :
    (step A V p e).globals.sink_registered
      = (p.globals.sink_registered || startEffective p e) ∧
    (step A V p e).globals.sinks_.length
      = p.globals.sinks_.length + (if callerRegisters p e = true then 1 else 0)
          + (if startEffective p e = true ∧ p.globals.sink_registered = false then 1 else 0) := by
  cases e with
  | construct => simp [step, startEffective, callerRegisters]
  | start i iv =>
      cases hi : p.samplers[i]? with
      | none => simp [step, startEffective, callerRegisters, startTakesEffect, hi]
      | some impl =>
          obtain ⟨h1, _, h3⟩ := start_globals p.globals impl iv
          simp only [step, startEffective, callerRegisters, startTakesEffect, hi]
          refine ⟨h3, ?_⟩
          rw [h1]
          simp only [List.length_append]
          split <;> simp
  | stop i =>
      simp only [step, startEffective, callerRegisters]
      cases p.samplers[i]? <;> simp
  | record_frame i d =>
      simp only [step, startEffective, callerRegisters]
      cases p.samplers[i]? <;> simp
  | tick i now cpu mem =>
      simp only [step, startEffective, callerRegisters]
      cases p.samplers[i]? with
      | none => simp
      | some impl =>
          simp only [loopIteration]
          split
          · obtain ⟨f1, f2⟩ := publishTo_frame A V (buildSample impl now cpu mem)
              p.globals.sinks_ p.globals
            simp [publish, f1, f2]
          · simp
  | register_new o => simp [step, startEffective, callerRegisters, register_sink]
  | register_again r =>
      simp only [step, startEffective, callerRegisters]
      by_cases hr : r < p.globals.heap.length
      · simp [hr, register_sink]
      · simp [hr]
  | set_fs c o => simp [step, startEffective, callerRegisters]

theorem registration_flag (a b : Bool) (n : Nat) :
    (a || b || decide (0 < n)) = (a || decide (0 < (if b = true then 1 else 0) + n)) := by
  cases a <;> cases b <;> simp

theorem registration_count (a b c : Bool) (len crs n : Nat) :
    (len + (if c = true then 1 else 0) + (if b = true ∧ a = false then 1 else 0)) + crs
        + (if 0 < n ∧ (a || b) = false then 1 else 0)
      = len + ((if c = true then 1 else 0) + crs)
        + (if 0 < (if b = true then 1 else 0) + n ∧ a = false then 1 else 0) := by
  cases a <;> cases b <;> cases c <;> by_cases hn : 0 < n <;> simp [hn] <;> omega

theorem run_registration {F U : Type} (A : DoubleOps F) (V : OnSample F U)
    (es : List (Event F U)) (p : Process F U) :
    (run A V p es).globals.sink_registered
      = (p.globals.sink_registered || decide (0 < effectiveStarts A V p es)) ∧
    (run A V p es).globals.sinks_.length
      = p.globals.sinks_.length + callerRegistrations A V p es
          + (if 0 < effectiveStarts A V p es ∧ p.globals.sink_registered = false
              then 1 else 0) := by
  induction es generalizing p with
  | nil => simp [run, effectiveStarts, callerRegistrations]
  | cons e es ih =>
      obtain ⟨s1, s2⟩ := step_registration A V p e
      obtain ⟨i1, i2⟩ := ih (step A V p e)
      have hrun : run A V p (e :: es) = run A V (step A V p e) es := rfl
      rw [hrun, i1, i2, s1, s2]
      simp only [effectiveStarts, callerRegistrations]
      exact ⟨registration_flag _ _ _, registration_count _ _ _ _ _ _⟩

theorem start_step_globals {F U : Type} (A : DoubleOps F) (V : OnSample F U)
    (p : Process F U) (i : Nat) (iv : F) :
    (step A V p (Event.start i iv)).globals.sinks_
      = p.globals.sinks_ ++ (if startTakesEffect p i iv = true ∧ p.globals.sink_registered = false
          then [p.globals.heap.length] else []) ∧
    (step A V p (Event.start i iv)).globals.heap
      = p.globals.heap ++ (if startTakesEffect p i iv = true ∧ p.globals.sink_registered = false
          then [SinkObj.json defaultSink] else []) := by
  cases hi : p.samplers[i]? with
  | none => simp [step, startTakesEffect, hi]
  | some impl =>
      obtain ⟨h1, h2, _⟩ := start_globals p.globals impl iv
      simp only [step, startTakesEffect, hi]
      exact ⟨h1, h2⟩

/-- C9: in a process that starts with an empty bus, a `start` call adds an
entry to the bus list exactly when it takes effect and no earlier start of
any instance took effect; the entry it adds is a handle to a new JSON file
sink with directory `runtime_intelligence/logs/core`, flush threshold 1 and
an empty buffer; a `start` after the first effective one adds nothing.  Over
a whole trace the bus list holds the sinks registered by callers plus one
entry if some start took effect, so the default sink is registered exactly
once however many starts, stops and instances there are (in the trace
`twoRuns`, with two effective starts, the list is the single handle 0). -/
theorem default_sink_registered_once {F U : Type} (A : DoubleOps F)
    (V : OnSample F U) (fs : FileSystem) (pre : List (Event F U)) (i : Nat)
    (iv : F) :
    (step A V (run A V (Process.init fs) pre) (Event.start i iv)).globals.sinks_
      = (run A V (Process.init fs) pre).globals.sinks_
        ++ (if startTakesEffect (run A V (Process.init fs) pre) i iv = true
              ∧ effectiveStarts A V (Process.init fs) pre = 0
            then [(run A V (Process.init fs) pre).globals.heap.length] else []) ∧
    (step A V (run A V (Process.init fs) pre) (Event.start i iv)).globals.heap
      = (run A V (Process.init fs) pre).globals.heap
        ++ (if startTakesEffect (run A V (Process.init fs) pre) i iv = true
              ∧ effectiveStarts A V (Process.init fs) pre = 0
            then [SinkObj.json defaultSink] else []) ∧
    (run A V (Process.init fs) pre).globals.sinks_.length
      = callerRegistrations A V (Process.init fs) pre
        + (if 0 < effectiveStarts A V (Process.init fs) pre then 1 else 0) ∧
    (defaultSink : JsonFileTelemetrySink F).dir_ = "runtime_intelligence/logs/core" ∧
    (defaultSink : JsonFileTelemetrySink F).flush_every_ = 1 ∧
    effectiveStarts exactOps noCustom (Process.init fsAll) twoRuns = 2 ∧
    (run exactOps noCustom (Process.init fsAll) twoRuns).globals.sinks_ = [0] := by
  obtain ⟨r1, r2⟩ := run_registration A V pre (Process.init fs)
  obtain ⟨s1, s2⟩ := start_step_globals A V (run A V (Process.init fs) pre) i iv
  have hreg : (run A V (Process.init fs) pre).globals.sink_registered = false
      ↔ effectiveStarts A V (Process.init fs) pre = 0 := by
    rw [r1]
    simp [Process.init, Globals.init]
  refine ⟨?_, ?_, ?_, rfl, rfl, by decide, by decide⟩
  · rw [s1]; simp only [hreg]
  · rw [s2]; simp only [hreg]
  · rw [r2]
    simp [Process.init, Globals.init]

/-! ## Stopping a sampler and recording frames -/

theorem set_set_same {α : Type} (l : List α) (i : Nat) (a b : α) :
    (l.set i a).set i b = l.set i b := by
  induction l generalizing i with
  | nil => rfl
  | cons x xs ih =>
      cases i with
      | zero => rfl
      | succ n => simp [List.set, ih]

theorem getElem?_set_same {α : Type} (l : List α) (i : Nat) (a b : α) (h : l[i]? = some a) :
    (l.set i b)[i]? = some b := by
  have hlt : i < l.length := by
    by_contra hc
    rw [List.getElem?_eq_none (by omega)] at h
    cases h
  simp [List.getElem?_set, hlt]

theorem stop_stop {F : Type} (impl : Impl F) : stop (stop impl) = stop impl := by
  cases hrun : impl.running <;> simp [stop, hrun]

theorem stop_running {F : Type} (impl : Impl F) : (stop impl).running = false := by
  cases hrun : impl.running <;> simp [stop, hrun]

/-- C11: `stop()` on a sampler that is not running changes nothing, neither
in the instance nor in the process; `stop()` on any sampler leaves it not
running; and two `stop()` calls in a row leave the instance and the process
in the state a single `stop()` leaves them in. -/
theorem stop_is_idempotent {F U : Type} (A : DoubleOps F) (V : OnSample F U)
    (p q : Process F U) (i j : Nat) (impl impl2 : Impl F)
    (hi : p.samplers[i]? = some impl) (hrun : impl.running = false) :
    stop impl = impl ∧
    step A V p (Event.stop i) = p ∧
    (stop impl2).running = false ∧
    stop (stop impl2) = stop impl2 ∧
    (step A V q (Event.stop j)).samplers[j]?.map (fun im => im.running)
      = q.samplers[j]?.map (fun _ => false) ∧
    run A V q [Event.stop j, Event.stop j] = run A V q [Event.stop j] := by
  have h1 : stop impl = impl := by simp [stop, hrun]
  refine ⟨h1, ?_, stop_running impl2, stop_stop impl2, ?_, ?_⟩
  · simp only [step, hi, h1]
    rw [set_same p.samplers i impl hi]
  · cases hj : q.samplers[j]? with
    | none => simp [step, hj]
    | some im =>
        simp only [step, hj]
        rw [getElem?_set_same q.samplers j im _ hj]
        simp [stop_running]
  · show step A V (step A V q (Event.stop j)) (Event.stop j) = step A V q (Event.stop j)
    cases hj : q.samplers[j]? with
    | none => simp [step, hj]
    | some im =>
        have h2 : (step A V q (Event.stop j)).samplers[j]? = some (stop im) := by
          simp only [step, hj]
          exact getElem?_set_same q.samplers j im _ hj
        have h3 : step A V q (Event.stop j)
            = { q with samplers := q.samplers.set j (stop im) } := by
          simp only [step, hj]
        rw [h3] at h2 ⊢
        simp only [step, h2, stop_stop, set_set_same]

/-- Witness for C11: the instance of a process that has only constructed it. -/
theorem stop_is_idempotent_witness :
    ((run exactOps noCustom (Process.init fsAll) [Event.construct]).samplers[0]?
        = some (Impl.fresh exactOps) ∧ (Impl.fresh exactOps).running = false) ∧
    step exactOps noCustom (run exactOps noCustom (Process.init fsAll) [Event.construct])
        (Event.stop 0)
      = run exactOps noCustom (Process.init fsAll) [Event.construct] :=
  ⟨⟨rfl, rfl⟩,
    (stop_is_idempotent exactOps noCustom
      (run exactOps noCustom (Process.init fsAll) [Event.construct]) startedOnce 0 0
      (Impl.fresh exactOps) runningImpl rfl rfl).2.1⟩

/-- C12: in every sampler state `record_frame(d)` sets the last frame time
to `d`, sets the average to `d` when the previous average tests negative and
to `previous*0.9 + d*0.1` otherwise, and leaves the sequence counter, the
running flag, the interval and the worker unchanged; in the process it
changes nothing but that instance. -/
theorem record_frame_effect {F U : Type} (A : DoubleOps F) (V : OnSample F U)
    (p : Process F U) (i : Nat) (impl : Impl F) (d : F) :
    (record_frame A impl d).last_frame_ms = d ∧
    (record_frame A impl d).avg_frame_ms
      = (if A.ltZero impl.avg_frame_ms = true then d
         else A.add (A.mul impl.avg_frame_ms A.c09) (A.mul d A.c01)) ∧
    (record_frame A impl d).seq = impl.seq ∧
    (record_frame A impl d).running = impl.running ∧
    (record_frame A impl d).interval = impl.interval ∧
    (record_frame A impl d).th = impl.th ∧
    (record_frame A impl d).spawned = impl.spawned ∧
    (step A V p (Event.record_frame i d)).globals = p.globals ∧
    (step A V p (Event.record_frame i d)).built = p.built ∧
    (step A V p (Event.record_frame i d)).samplers
      = (match p.samplers[i]? with
         | some im => p.samplers.set i (record_frame A im d)
         | none => p.samplers) := by
  have hp : (step A V p (Event.record_frame i d)).globals = p.globals ∧
      (step A V p (Event.record_frame i d)).built = p.built ∧
      (step A V p (Event.record_frame i d)).samplers
        = (match p.samplers[i]? with
           | some im => p.samplers.set i (record_frame A im d)
           | none => p.samplers) := by
    cases hi : p.samplers[i]? <;> simp [step, hi]
  by_cases h : A.ltZero impl.avg_frame_ms = true
  · simp [record_frame, h, hp]
  · simp [record_frame, h, hp]

/-! ## What the events leave alone -/

theorem map_set_eq {α β : Type} (l : List α) (i j : Nat) (f : α → β) (a a1 : α)
    (h : l[j]? = some a) (hf : f a1 = f a) : (l.set j a1)[i]?.map f = l[i]?.map f := by
  by_cases hji : j = i
  · subst hji
    rw [getElem?_set_same l j a a1 h, h]
    simp [hf]
  · rw [List.getElem?_set_ne hji]

theorem map_set_ne {α β : Type} (l : List α) (i j : Nat) (f : α → β) (a1 : α) (hji : j ≠ i) :
    (l.set j a1)[i]?.map f = l[i]?.map f := by
  rw [List.getElem?_set_ne hji]

theorem start_frame {F U : Type} (g : Globals F U) (impl : Impl F) (iv : F) :
    ((start g impl iv).1.2.last_frame_ms, (start g impl iv).1.2.avg_frame_ms)
      = (impl.last_frame_ms, impl.avg_frame_ms) := by
  unfold start
  split
  · rfl
  · split <;> rfl

theorem stop_frame {F : Type} (impl : Impl F) :
    ((stop impl).last_frame_ms, (stop impl).avg_frame_ms)
      = (impl.last_frame_ms, impl.avg_frame_ms) := by
  unfold stop
  split <;> rfl

theorem loopIteration_impl {F U : Type} (A : DoubleOps F) (V : OnSample F U)
    (g : Globals F U) (impl : Impl F) (now cpu mem : F) :
    (loopIteration A V g impl now cpu mem).1.2.1.last_frame_ms = impl.last_frame_ms ∧
    (loopIteration A V g impl now cpu mem).1.2.1.avg_frame_ms = impl.avg_frame_ms ∧
    (loopIteration A V g impl now cpu mem).1.2.1.running = impl.running ∧
    (loopIteration A V g impl now cpu mem).1.2.1.th = impl.th := by
  unfold loopIteration
  split <;> exact ⟨rfl, rfl, rfl, rfl⟩

theorem loopIteration_built {F U : Type} (A : DoubleOps F) (V : OnSample F U)
    (g : Globals F U) (impl : Impl F) (now cpu mem : F) :
    (loopIteration A V g impl now cpu mem).1.2.2
      = (if (impl.th && impl.running) = true then some (buildSample impl now cpu mem)
         else none) := by
  unfold loopIteration
  split <;> rfl

theorem step_frameOf {F U : Type} (A : DoubleOps F) (V : OnSample F U) (p : Process F U)
    (i : Nat) (e : Event F U) (he : e.isRecordFrameOf i = false) :
    frameOf (step A V p e) i = frameOf p i ∨
    (frameOf p i = none ∧ frameOf (step A V p e) i = some (A.negOne, A.negOne)) := by
  unfold frameOf
  cases e with
  | construct =>
      simp only [step]
      by_cases hlt : i < p.samplers.length
      · left; rw [List.getElem?_append_left hlt]
      · have hle : p.samplers.length ≤ i := by omega
        rw [List.getElem?_append_right hle, List.getElem?_eq_none hle]
        by_cases h0 : i - p.samplers.length = 0
        · right; rw [h0]; exact ⟨rfl, rfl⟩
        · left
          rw [List.getElem?_eq_none (by simp; omega)]
  | start j iv =>
      left
      cases hj : p.samplers[j]? with
      | none => simp [step, hj]
      | some impl =>
          simp only [step, hj]
          exact map_set_eq p.samplers i j _ impl _ hj (start_frame _ _ _)
  | stop j =>
      left
      cases hj : p.samplers[j]? with
      | none => simp [step, hj]
      | some impl =>
          simp only [step, hj]
          exact map_set_eq p.samplers i j _ impl _ hj (stop_frame _)
  | record_frame j d =>
      left
      have hji : j ≠ i := by
        intro hc
        simp [Event.isRecordFrameOf, hc] at he
      cases hj : p.samplers[j]? with
      | none => simp [step, hj]
      | some impl =>
          simp only [step, hj]
          exact map_set_ne p.samplers i j _ _ hji
  | tick j now cpu mem =>
      left
      cases hj : p.samplers[j]? with
      | none => simp [step, hj]
      | some impl =>
          simp only [step, hj]
          obtain ⟨h1, h2, _, _⟩ := loopIteration_impl A V p.globals impl now cpu mem
          exact map_set_eq p.samplers i j _ impl _ hj (by rw [h1, h2])
  | register_new o => left; rfl
  | register_again r =>
      left
      simp only [step]
      split <;> rfl
  | set_fs c o => left; rfl

theorem run_frameOf_some {F U : Type} (A : DoubleOps F) (V : OnSample F U) (i : Nat)
    (es : List (Event F U)) (p : Process F U) (x : F × F)
    (hes : ∀ e ∈ es, e.isRecordFrameOf i = false) (hp : frameOf p i = some x) :
    frameOf (run A V p es) i = some x := by
  induction es generalizing p with
  | nil => exact hp
  | cons e es ih =>
      apply ih (step A V p e) (fun e1 h1 => hes e1 (List.mem_cons_of_mem _ h1))
      rcases step_frameOf A V p i e (hes e (List.mem_cons_self _ _)) with h | ⟨h, _⟩
      · rw [h, hp]
      · rw [hp] at h; cases h

theorem run_frameOf_fresh {F U : Type} (A : DoubleOps F) (V : OnSample F U) (i : Nat)
    (es : List (Event F U)) (p : Process F U)
    (hes : ∀ e ∈ es, e.isRecordFrameOf i = false)
    (hp : frameOf p i = none ∨ frameOf p i = some (A.negOne, A.negOne)) :
    frameOf (run A V p es) i = none ∨ frameOf (run A V p es) i = some (A.negOne, A.negOne) := by
  induction es generalizing p with
  | nil => exact hp
  | cons e es ih =>
      apply ih (step A V p e) (fun e1 h1 => hes e1 (List.mem_cons_of_mem _ h1))
      rcases step_frameOf A V p i e (hes e (List.mem_cons_self _ _)) with h | ⟨_, h⟩
      · rw [h]; exact hp
      · right; exact h

theorem tick_built {F U : Type} (A : DoubleOps F) (V : OnSample F U) (p : Process F U)
    (i : Nat) (now cpu mem : F) (b : Nat × CoreMetricSample F)
    (hb : b ∈ builtDuring A V p [Event.tick i now cpu mem]) :
    b.1 = i ∧ ∃ impl, p.samplers[i]? = some impl ∧ impl.running = true ∧
      b.2 = buildSample impl now cpu mem := by
  unfold builtDuring at hb
  have hrun : run A V p [Event.tick i now cpu mem] = step A V p (Event.tick i now cpu mem) := rfl
  rw [hrun] at hb
  cases hi : p.samplers[i]? with
  | none => simp [step, hi] at hb
  | some impl =>
      simp only [step, hi, loopIteration_built] at hb
      by_cases hen : (impl.th && impl.running) = true
      · simp only [hen, if_true, Option.map_some', Option.toList_some, List.drop_left,
          List.mem_singleton] at hb
        subst hb
        simp only [Bool.and_eq_true] at hen
        exact ⟨rfl, impl, rfl, hen.2, rfl⟩
      · simp [hen] at hb

/-- C14: a sample that instance `i` builds when no `record_frame` has been
called on it carries the sentinel -1 in `frame_time_ms` and in
`avg_frame_time_ms`; a sample it builds after a `record_frame(d)` call, no
other `record_frame` on it coming in between, carries `d` in `frame_time_ms`
and in `avg_frame_time_ms` the average stored in the instance, which is the
one that call computed. -/
theorem samples_carry_frame_state {F U : Type} (A : DoubleOps F) (V : OnSample F U)
    (fs : FileSystem) (pre0 pre mid : List (Event F U)) (i : Nat) (d now cpu mem : F)
    (s0 s : CoreMetricSample F)
    (hpre0 : ∀ e ∈ pre0, e.isRecordFrameOf i = false)
    (hs0 : (i, s0) ∈ builtDuring A V (run A V (Process.init fs) pre0)
      [Event.tick i now cpu mem])
    (hex : i < (run A V (Process.init fs) pre).samplers.length)
    (hmid : ∀ e ∈ mid, e.isRecordFrameOf i = false)
    (hs : (i, s) ∈ builtDuring A V
      (run A V (run A V (Process.init fs) pre) (Event.record_frame i d :: mid))
      [Event.tick i now cpu mem]) :
    s0.frame_time_ms = A.negOne ∧ s0.avg_frame_time_ms = A.negOne ∧
    s.frame_time_ms = d ∧
    frameOf (run A V (run A V (Process.init fs) pre) (Event.record_frame i d :: mid)) i
      = some (d, s.avg_frame_time_ms) ∧
    (run A V (Process.init fs) pre).samplers[i]?.map
        (fun im => (record_frame A im d).avg_frame_ms)
      = some s.avg_frame_time_ms := by
  -- before any recording
  obtain ⟨_, im0, him0, _, hb0⟩ := tick_built A V _ i now cpu mem _ hs0
  have hf0 := run_frameOf_fresh A V i pre0 (Process.init fs) hpre0
    (Or.inl (by simp [frameOf, Process.init]))
  have hfr0 : frameOf (run A V (Process.init fs) pre0) i
      = some (im0.last_frame_ms, im0.avg_frame_ms) := by
    simp [frameOf, him0]
  rw [hfr0] at hf0
  have hpair0 : (im0.last_frame_ms, im0.avg_frame_ms) = (A.negOne, A.negOne) := by
    rcases hf0 with h | h
    · cases h
    · injection h
  simp only at hb0
  -- after a recording
  obtain ⟨_, im, him, _, hb⟩ := tick_built A V _ i now cpu mem _ hs
  simp only at hb
  have hsome : (run A V (Process.init fs) pre).samplers[i]?
      = some (run A V (Process.init fs) pre).samplers[i] := List.getElem?_eq_getElem hex
  have hrec : frameOf (step A V (run A V (Process.init fs) pre) (Event.record_frame i d)) i
      = some (d, (record_frame A (run A V (Process.init fs) pre).samplers[i] d).avg_frame_ms) := by
    simp only [frameOf, step, hsome]
    rw [getElem?_set_same _ i _ _ hsome]
    simp only [Option.map_some']
    have h1 : (record_frame A (run A V (Process.init fs) pre).samplers[i] d).last_frame_ms = d := by
      by_cases h : A.ltZero (run A V (Process.init fs) pre).samplers[i].avg_frame_ms = true <;>
        simp [record_frame, h]
    rw [h1]
  have hmidf := run_frameOf_some A V i mid _ _ hmid hrec
  have hrun : run A V (run A V (Process.init fs) pre) (Event.record_frame i d :: mid)
      = run A V (step A V (run A V (Process.init fs) pre) (Event.record_frame i d)) mid := rfl
  rw [← hrun] at hmidf
  have hfr : frameOf (run A V (run A V (Process.init fs) pre) (Event.record_frame i d :: mid)) i
      = some (im.last_frame_ms, im.avg_frame_ms) := by
    simp [frameOf, him]
  rw [hfr] at hmidf
  have hpair : (im.last_frame_ms, im.avg_frame_ms)
      = (d, (record_frame A (run A V (Process.init fs) pre).samplers[i] d).avg_frame_ms) := by
    injection hmidf
  have hl0 : im0.last_frame_ms = A.negOne := congrArg Prod.fst hpair0
  have ha0 : im0.avg_frame_ms = A.negOne := congrArg Prod.snd hpair0
  have hl : im.last_frame_ms = d := congrArg Prod.fst hpair
  have ha : im.avg_frame_ms
      = (record_frame A (run A V (Process.init fs) pre).samplers[i] d).avg_frame_ms :=
    congrArg Prod.snd hpair
  refine ⟨?_, ?_, ?_, ?_, ?_⟩
  · rw [hb0]; exact hl0
  · rw [hb0]; exact ha0
  · rw [hb]; exact hl
  · rw [hfr, hb]
    simp only [buildSample]
    rw [hl]
  · rw [hsome, hb]
    simp only [Option.map_some', buildSample]
    rw [ha]

/-- Witness for C14: the started instance of `startedOnce`, sampled before
any recording and after `record_frame(10)`. -/
theorem samples_carry_frame_state_witness :
    ((∀ e ∈ [(Event.construct : Event ℚ Unit), Event.start 0 1],
        e.isRecordFrameOf 0 = false) ∧
      (0, sampleUnrecorded) ∈ builtDuring exactOps noCustom
        (run exactOps noCustom (Process.init fsAll) [Event.construct, Event.start 0 1])
        [Event.tick 0 0 0 0] ∧
      0 < (run exactOps noCustom (Process.init fsAll)
        [Event.construct, Event.start 0 1]).samplers.length ∧
      (∀ e ∈ ([] : List (Event ℚ Unit)), e.isRecordFrameOf 0 = false) ∧
      (0, sampleRecorded10) ∈ builtDuring exactOps noCustom
        (run exactOps noCustom
          (run exactOps noCustom (Process.init fsAll) [Event.construct, Event.start 0 1])
          (Event.record_frame 0 10 :: []))
        [Event.tick 0 0 0 0]) ∧
    sampleUnrecorded.frame_time_ms = exactOps.negOne ∧
    sampleUnrecorded.avg_frame_time_ms = exactOps.negOne ∧
    sampleRecorded10.frame_time_ms = 10 :=
  have h1 : ∀ e ∈ [(Event.construct : Event ℚ Unit), Event.start 0 1],
      e.isRecordFrameOf 0 = false := by
    intro e he
    simp only [List.mem_cons, List.mem_singleton, List.not_mem_nil, or_false] at he
    rcases he with rfl | rfl <;> rfl
  have h2 : (0, sampleUnrecorded) ∈ builtDuring exactOps noCustom
      (run exactOps noCustom (Process.init fsAll) [Event.construct, Event.start 0 1])
      [Event.tick 0 0 0 0] := by decide
  have h3 : 0 < (run exactOps noCustom (Process.init fsAll)
      [Event.construct, Event.start 0 1]).samplers.length := by decide
  have h4 : ∀ e ∈ ([] : List (Event ℚ Unit)), e.isRecordFrameOf 0 = false := by
    intro e he
    cases he
  have h5 : (0, sampleRecorded10) ∈ builtDuring exactOps noCustom
      (run exactOps noCustom
        (run exactOps noCustom (Process.init fsAll) [Event.construct, Event.start 0 1])
        (Event.record_frame 0 10 :: []))
      [Event.tick 0 0 0 0] := by decide
  ⟨⟨h1, h2, h3, h4, h5⟩,
    (samples_carry_frame_state exactOps noCustom fsAll _ _ _ 0 10 0 0 0 _ _
      h1 h2 h3 h4 h5).1,
    (samples_carry_frame_state exactOps noCustom fsAll _ _ _ 0 10 0 0 0 _ _
      h1 h2 h3 h4 h5).2.1,
    (samples_carry_frame_state exactOps noCustom fsAll _ _ _ 0 10 0 0 0 _ _
      h1 h2 h3 h4 h5).2.2.1⟩

/-! ## Flushing twice, and the final flush -/

theorem flush_path {F : Type} (A : DoubleOps F) (s : JsonFileTelemetrySink F)
    (fs : FileSystem) :
    (s.flush A fs).1.1.path = s.path ∧ (s.flush A fs).1.2.canOpen = fs.canOpen := by
  by_cases hb : s.buffer_ = []
  · rw [flush_empty A s fs hb]; exact ⟨rfl, rfl⟩
  · by_cases ho : fs.canOpen s.path = true
    · rw [flush_opened A s fs hb ho]; exact ⟨rfl, rfl⟩
    · rw [flush_failed A s fs hb (by simpa using ho)]; exact ⟨rfl, rfl⟩

theorem flush_content {F : Type} (A : DoubleOps F) (s : JsonFileTelemetrySink F)
    (fs : FileSystem) :
    (s.flush A fs).1.2.content s.path
      = fs.content s.path
        ++ (if fs.canOpen s.path = true then s.buffer_.map (jsonLine A) else []) ∧
    (∀ q, q ≠ s.path → (s.flush A fs).1.2.content q = fs.content q) := by
  by_cases hb : s.buffer_ = []
  · rw [flush_empty A s fs hb]
    simp [hb]
  · by_cases ho : fs.canOpen s.path = true
    · rw [flush_opened A s fs hb ho]
      refine ⟨by simp [ho], ?_⟩
      intro q hq
      simp [hq]
    · rw [flush_failed A s fs hb (by simpa using ho)]
      simp [ho]

/-- C15: `flush` on a sink whose buffer is empty raises nothing and changes
neither the sink nor the file system (no line written, no open attempted);
and for every sink state a second `flush` right after a first one, the file
being as openable as before, leaves the sink state and the content of every
file as the first `flush` left them; when the first `flush` found the file
openable, the second one changes nothing whatever the file system has become
in between. -/
theorem flush_is_idempotent {F : Type} (A : DoubleOps F) (s : JsonFileTelemetrySink F)
    (fs : FileSystem) :
    JsonFileTelemetrySink.flush A { s with buffer_ := [] } fs
      = (({ s with buffer_ := [] }, fs), none) ∧
    ((s.flush A fs).1.1.flush A (s.flush A fs).1.2).1.1 = (s.flush A fs).1.1 ∧
    ((s.flush A fs).1.1.flush A (s.flush A fs).1.2).1.2.content
      = (s.flush A fs).1.2.content ∧
    ((s.flush A fs).1.1.flush A (s.flush A fs).1.2).2 = none ∧
    (fs.canOpen s.path = true → ∀ fs2 : FileSystem,
      (s.flush A fs).1.1.flush A fs2 = (((s.flush A fs).1.1, fs2), none)) := by
  refine ⟨flush_empty A _ fs rfl, ?_, ?_, flush_raises_nothing A _ _, ?_⟩
  · by_cases hb : s.buffer_ = []
    · rw [flush_empty A s fs hb, flush_empty A s fs hb]
    · by_cases ho : fs.canOpen s.path = true
      · rw [flush_opened A s fs hb ho, flush_empty A _ _ rfl]
      · rw [flush_failed A s fs hb (by simpa using ho)]
        exact congrArg (fun x => x.1.1)
          (flush_failed A { s with pending_ := 0 } { fs with opens := fs.opens + 1 } hb
            (by simpa using ho))
  · by_cases hb : s.buffer_ = []
    · rw [flush_empty A s fs hb, flush_empty A s fs hb]
    · by_cases ho : fs.canOpen s.path = true
      · rw [flush_opened A s fs hb ho, flush_empty A _ _ rfl]
      · rw [flush_failed A s fs hb (by simpa using ho)]
        exact congrArg (fun x => x.1.2.content)
          (flush_failed A { s with pending_ := 0 } { fs with opens := fs.opens + 1 } hb
            (by simpa using ho))
  · intro ho fs2
    by_cases hb : s.buffer_ = []
    · rw [flush_empty A s fs hb]
      exact flush_empty A s fs2 hb
    · rw [flush_opened A s fs hb ho]
      exact flush_empty A _ fs2 rfl

/-- Witness for C15: after a flush of `logsSink` that found its file
openable, a second flush changes nothing even if the file can no longer be
opened. -/
theorem flush_is_idempotent_witness :
    fsAll.canOpen logsSink.path = true ∧
    (logsSink.flush exactOps fsAll).1.1.flush exactOps (fsAll.setOpen false)
      = (((logsSink.flush exactOps fsAll).1.1, fsAll.setOpen false), none) :=
  ⟨rfl, (flush_is_idempotent exactOps logsSink fsAll).2.2.2.2 rfl (fsAll.setOpen false)⟩

/-- C16: destroying a JSON file sink raises nothing, whatever its final
flush raises being swallowed by the catch-all block (`swallow` never lets an
error through); when the file can be opened the destructor appends the
lines of all samples still in the buffer, in acceptance order, to the file,
and when it cannot it appends nothing; no other file is touched. -/
theorem destructor_flushes_and_swallows {F : Type} (A : DoubleOps F)
    (s : JsonFileTelemetrySink F) (fs : FileSystem)
    (r : (JsonFileTelemetrySink F × FileSystem) × Option Exn) :
    (s.destructor A fs).2 = none ∧
    (swallow r).2 = none ∧ (swallow r).1 = r.1 ∧
    (s.destructor A fs).1 = (s.flush A fs).1.2 ∧
    (s.destructor A fs).1.content s.path
      = fs.content s.path
        ++ (if fs.canOpen s.path = true then s.buffer_.map (jsonLine A) else []) ∧
    (∀ q, q ≠ s.path → (s.destructor A fs).1.content q = fs.content q) := by
  obtain ⟨h1, h2⟩ := flush_content A s fs
  exact ⟨rfl, rfl, rfl, rfl, h1, h2⟩

/-- Witness for C16: the destructor of `logsSink` leaves every other file
as it was. -/
theorem destructor_flushes_and_swallows_witness :
    "other" ≠ logsSink.path ∧
    (logsSink.destructor exactOps fsAll).1.content "other" = fsAll.content "other" :=
  ⟨by decide,
    (destructor_flushes_and_swallows exactOps logsSink fsAll
      ((logsSink, fsAll), none)).2.2.2.2.2 "other" (by decide)⟩

/-! ## After a stop -/

theorem step_stopped {F U : Type} (A : DoubleOps F) (V : OnSample F U) (p : Process F U)
    (i : Nat) (e : Event F U) (he : e.isStartOf i = false)
    (hp : workerOf p i = some (false, false)) :
    workerOf (step A V p e) i = some (false, false) ∧
    builtBy i (step A V p e).built = builtBy i p.built := by
  unfold workerOf at hp ⊢
  have hlt : i < p.samplers.length := by
    by_contra hc
    rw [List.getElem?_eq_none (by omega)] at hp
    cases hp
  cases e with
  | construct =>
      simp only [step]
      rw [List.getElem?_append_left hlt]
      exact ⟨hp, trivial⟩
  | start j iv =>
      have hji : j ≠ i := by
        intro hc
        simp [Event.isStartOf, hc] at he
      cases hj : p.samplers[j]? with
      | none => simp only [step, hj]; exact ⟨hp, trivial⟩
      | some impl =>
          simp only [step, hj]
          rw [map_set_ne p.samplers i j _ _ hji]
          exact ⟨hp, trivial⟩
  | stop j =>
      cases hj : p.samplers[j]? with
      | none => simp only [step, hj]; exact ⟨hp, trivial⟩
      | some impl =>
          simp only [step, hj]
          refine ⟨?_, trivial⟩
          by_cases hji : j = i
          · subst hji
            rw [getElem?_set_same p.samplers j impl _ hj]
            simp [stop_running, stop]
            split <;> simp_all
          · rw [map_set_ne p.samplers i j _ _ hji]
            exact hp
  | record_frame j d =>
      cases hj : p.samplers[j]? with
      | none => simp only [step, hj]; exact ⟨hp, trivial⟩
      | some impl =>
          simp only [step, hj]
          refine ⟨?_, trivial⟩
          rw [map_set_eq p.samplers i j _ impl _ hj]
          · exact hp
          · by_cases h : A.ltZero impl.avg_frame_ms = true <;> simp [record_frame, h]
  | tick j now cpu mem =>
      cases hj : p.samplers[j]? with
      | none => simp only [step, hj]; exact ⟨hp, by simp⟩
      | some impl =>
          simp only [step, hj]
          obtain ⟨_, _, h3, h4⟩ := loopIteration_impl A V p.globals impl now cpu mem
          refine ⟨?_, ?_⟩
          · rw [map_set_eq p.samplers i j _ impl _ hj (by rw [h3, h4])]
            exact hp
          · rw [loopIteration_built]
            by_cases hji : j = i
            · subst hji
              rw [hj] at hp
              simp only [Option.map_some', Option.some.injEq, Prod.mk.injEq] at hp
              simp [hp.1, hp.2]
            · by_cases hen : (impl.th && impl.running) = true
              · simp [hen, builtBy, List.filter_append, hji]
              · simp [hen]
  | register_new o => exact ⟨hp, rfl⟩
  | register_again r =>
      simp only [step]
      split <;> exact ⟨hp, rfl⟩
  | set_fs c o => exact ⟨hp, rfl⟩

theorem run_stopped {F U : Type} (A : DoubleOps F) (V : OnSample F U) (i : Nat)
    (es : List (Event F U)) (p : Process F U) (hes : ∀ e ∈ es, e.isStartOf i = false)
    (hp : workerOf p i = some (false, false)) :
    workerOf (run A V p es) i = some (false, false) ∧
    builtBy i (run A V p es).built = builtBy i p.built := by
  induction es generalizing p with
  | nil => exact ⟨hp, rfl⟩
  | cons e es ih =>
      obtain ⟨s1, s2⟩ := step_stopped A V p i e (hes e (List.mem_cons_self _ _)) hp
      obtain ⟨r1, r2⟩ := ih (step A V p e) (fun e1 h1 => hes e1 (List.mem_cons_of_mem _ h1)) s1
      exact ⟨r1, r2.trans s2⟩

/-- C18: `stop()` on a running sampler leaves it not running and without a
worker (the worker has been joined); from then on, as long as `start` is not
called on that instance again, the instance stays without a worker and
builds no sample, so none of its samples is published, whatever else
happens in the process. -/
theorem no_sample_after_stop {F U : Type} (A : DoubleOps F) (V : OnSample F U)
    (p : Process F U) (i : Nat) (impl : Impl F) (es : List (Event F U))
    (hi : p.samplers[i]? = some impl) (hrun : impl.running = true)
    (hes : ∀ e ∈ es, e.isStartOf i = false) :
    (step A V p (Event.stop i)).samplers[i]?
      = some { impl with running := false, th := false } ∧
    workerOf (run A V (step A V p (Event.stop i)) es) i = some (false, false) ∧
    builtBy i (builtDuring A V (step A V p (Event.stop i)) es) = [] := by
  have h1 : (step A V p (Event.stop i)).samplers[i]?
      = some { impl with running := false, th := false } := by
    simp only [step, hi]
    rw [getElem?_set_same p.samplers i impl _ hi]
    simp [stop, hrun]
  have hw : workerOf (step A V p (Event.stop i)) i = some (false, false) := by
    simp [workerOf, h1]
  obtain ⟨r1, r2⟩ := run_stopped A V i es _ hes hw
  refine ⟨h1, r1, ?_⟩
  rw [run_built] at r2
  unfold builtBy at r2 ⊢
  rw [List.filter_append] at r2
  exact List.append_cancel_left (r2.trans (List.append_nil _).symm)

/-- Witness for C18: the instance of `startedOnce` is stopped, then its
worker would tick and a frame is recorded. -/
theorem no_sample_after_stop_witness :
    (startedOnce.samplers[0]? = some runningImpl ∧ runningImpl.running = true ∧
      (∀ e ∈ [(Event.tick 0 1 0 0 : Event ℚ Unit), Event.record_frame 0 5],
        e.isStartOf 0 = false)) ∧
    builtBy 0 (builtDuring exactOps noCustom (step exactOps noCustom startedOnce (Event.stop 0))
        [Event.tick 0 1 0 0, Event.record_frame 0 5]) = [] :=
  have h1 : startedOnce.samplers[0]? = some runningImpl := by decide
  have h3 : ∀ e ∈ [(Event.tick 0 1 0 0 : Event ℚ Unit), Event.record_frame 0 5],
      e.isStartOf 0 = false := by
    intro e he
    simp only [List.mem_cons, List.mem_singleton, List.not_mem_nil, or_false] at he
    rcases he with rfl | rfl <;> rfl
  ⟨⟨h1, rfl, h3⟩,
    (no_sample_after_stop exactOps noCustom startedOnce 0 runningImpl _ h1 rfl h3).2.2⟩

/-! ## The persisted log format -/

theorem jsonLine_eq_object {F : Type} (A : DoubleOps F) (x : CoreMetricSample F) :
    jsonLine A x = jsonObject (sampleMembers A x) ++ "\n" := by
  simp only [jsonLine, jsonObject, sampleMembers, jsonMember, List.map, String.intercalate,
    String.intercalate.go, String.append_assoc]
  rfl

theorem digitChar_ne_newline (m : Nat) (h : m < 10) : Nat.digitChar m ≠ '\n' := by
  interval_cases m <;> decide

theorem toDigitsCore_no_newline (fuel n : Nat) (ds : List Char) (hds : '\n' ∉ ds) :
    '\n' ∉ Nat.toDigitsCore 10 fuel n ds := by
  induction fuel generalizing n ds with
  | zero => simpa [Nat.toDigitsCore] using hds
  | succ fuel ih =>
      have hcons : '\n' ∉ Nat.digitChar (n % 10) :: ds := by
        intro hmem
        rcases List.mem_cons.mp hmem with h | h
        · exact digitChar_ne_newline (n % 10) (Nat.mod_lt _ (by decide)) h.symm
        · exact hds h
      simp only [Nat.toDigitsCore]
      split
      · exact hcons
      · exact ih _ _ hcons

theorem toString_nat_no_newline (n : Nat) : '\n' ∉ (toString n).data := by
  show '\n' ∉ (Nat.repr n).data
  simp only [Nat.repr, Nat.toDigits, List.asString]
  exact toDigitsCore_no_newline _ _ _ (List.not_mem_nil _)

/-! ## JSON numbers -/

theorem dropWhile_isDigit_append (xs ys : List Char) (y : Char) (hy : y.isDigit = false) :
    (xs ++ y :: ys).dropWhile Char.isDigit = xs.dropWhile Char.isDigit ++ y :: ys := by
  induction xs with
  | nil => simp [List.dropWhile, hy]
  | cons x xs ih =>
      by_cases hx : x.isDigit = true
      · simp [List.dropWhile, hx, ih]
      · simp [List.dropWhile, hx]

theorem isNumberChar_false (y : Char) (hy : isNumberChar y = false) :
    y.isDigit = false ∧ y ≠ '-' ∧ y ≠ '+' ∧ y ≠ '.' ∧ y ≠ 'e' ∧ y ≠ 'E' := by
  simp only [isNumberChar, Bool.or_eq_false_iff, beq_eq_false_iff_ne, ne_eq] at hy
  obtain ⟨⟨⟨⟨⟨h1, h2⟩, h3⟩, h4⟩, h5⟩, h6⟩ := hy
  exact ⟨h1, h2, h3, h4, h5, h6⟩

theorem scanDigits_append (xs ys : List Char) (y : Char) (hy : isNumberChar y = false) :
    scanDigits (xs ++ y :: ys) = (scanDigits xs).map (fun r => r ++ y :: ys) := by
  obtain ⟨hd, _⟩ := isNumberChar_false y hy
  cases xs with
  | nil => simp [scanDigits, hd]
  | cons x xs =>
      by_cases hx : x.isDigit = true
      · simp [scanDigits, hx, dropWhile_isDigit_append xs ys y hd]
      · simp [scanDigits, hx]

theorem scanSign_append (xs ys : List Char) (y : Char) (hy : isNumberChar y = false) :
    scanSign (xs ++ y :: ys) = scanSign xs ++ y :: ys := by
  obtain ⟨_, hm, _⟩ := isNumberChar_false y hy
  cases xs with
  | nil => simp [scanSign, hm]
  | cons x xs =>
      by_cases hx : x = '-'
      · simp [scanSign, hx]
      · simp [scanSign, hx]

theorem scanInt_append (xs ys : List Char) (y : Char) (hy : isNumberChar y = false) :
    scanInt (xs ++ y :: ys) = (scanInt xs).map (fun r => r ++ y :: ys) := by
  obtain ⟨hd, _⟩ := isNumberChar_false y hy
  have hy0 : y ≠ '0' := by
    intro h
    rw [h] at hd
    exact absurd hd (by decide)
  cases xs with
  | nil => simp [scanInt, hd, hy0]
  | cons x xs =>
      by_cases hx0 : x = '0'
      · simp [scanInt, hx0]
      · by_cases hx : x.isDigit = true
        · simp [scanInt, hx0, hx, dropWhile_isDigit_append xs ys y hd]
        · simp [scanInt, hx0, hx]

theorem scanFrac_append (xs ys : List Char) (y : Char) (hy : isNumberChar y = false) :
    scanFrac (xs ++ y :: ys) = (scanFrac xs).map (fun r => r ++ y :: ys) := by
  obtain ⟨_, _, _, hp, _⟩ := isNumberChar_false y hy
  cases xs with
  | nil => simp [scanFrac, hp]
  | cons x xs =>
      by_cases hx : x = '.'
      · simp [scanFrac, hx, scanDigits_append xs ys y hy]
      · simp [scanFrac, hx]

theorem scanExp_append (xs ys : List Char) (y : Char) (hy : isNumberChar y = false) :
    scanExp (xs ++ y :: ys) = (scanExp xs).map (fun r => r ++ y :: ys) := by
  obtain ⟨hd, hm, hpl, _, he, hE⟩ := isNumberChar_false y hy
  cases xs with
  | nil => simp [scanExp, he, hE]
  | cons x xs =>
      by_cases hx : x = 'e' ∨ x = 'E'
      · cases xs with
        | nil => simp [scanExp, hx, hpl, hm, scanDigits, hd]
        | cons s xs1 =>
            by_cases hs : s = '+' ∨ s = '-'
            · simp [scanExp, hx, hs, scanDigits_append xs1 ys y hy]
            · have := scanDigits_append (s :: xs1) ys y hy
              simp only [List.cons_append] at this
              simp [scanExp, hx, hs, this]
      · simp [scanExp, hx]

theorem scanNumber_append (xs ys : List Char) (y : Char) (hy : isNumberChar y = false) :
    scanNumber (xs ++ y :: ys) = (scanNumber xs).map (fun r => r ++ y :: ys) := by
  unfold scanNumber
  rw [scanSign_append xs ys y hy, scanInt_append _ ys y hy]
  cases h1 : scanInt (scanSign xs) with
  | none => rfl
  | some r1 =>
      simp only [Option.map_some']
      rw [scanFrac_append r1 ys y hy]
      cases h2 : scanFrac r1 with
      | none => rfl
      | some r2 =>
          simp only [Option.map_some']
          exact scanExp_append r2 ys y hy

theorem isJsonNumber_iff (s : String) : isJsonNumber s = true ↔ scanNumber s.data = some [] := by
  unfold isJsonNumber
  split
  · rename_i h; simp [h]
  · rename_i h
    constructor
    · intro hf; exact absurd hf (by simp)
    · intro hs; exact absurd hs (h)

/-- A JSON number followed by a character that no number contains is scanned
as exactly that number. -/
theorem scanNumber_delimited (s : String) (ys : List Char) (y : Char)
    (hs : isJsonNumber s = true) (hy : isNumberChar y = false) :
    scanNumber (s.data ++ y :: ys) = some (y :: ys) := by
  rw [scanNumber_append s.data ys y hy, (isJsonNumber_iff s).mp hs]
  rfl

theorem isJsonNumber_chars (s : String) (hs : isJsonNumber s = true) (y : Char)
    (hy : isNumberChar y = false) : y ∉ s.data := by
  intro hmem
  obtain ⟨pre, post, hsplit⟩ := List.append_of_mem hmem
  have h := (isJsonNumber_iff s).mp hs
  rw [hsplit, scanNumber_append pre post y hy] at h
  cases hp : scanNumber pre with
  | none => rw [hp] at h; exact absurd h (by simp)
  | some r => rw [hp] at h; simp at h

theorem isJsonNumber_head (s : String) (hs : isJsonNumber s = true) :
    ∃ c cs, s.data = c :: cs ∧ (c = '-' ∨ c.isDigit = true) := by
  have h := (isJsonNumber_iff s).mp hs
  cases hd : s.data with
  | nil => rw [hd] at h; simp [scanNumber, scanSign, scanInt] at h
  | cons c cs =>
      refine ⟨c, cs, rfl, ?_⟩
      rw [hd] at h
      by_cases hc : c = '-'
      · exact Or.inl hc
      · right
        simp only [scanNumber, scanSign, if_neg hc, scanInt] at h
        by_cases h0 : c = '0'
        · rw [h0]; decide
        · by_cases hdig : c.isDigit = true
          · exact hdig
          · simp [h0, hdig] at h

theorem skipWhitespace_cons (c : Char) (cs : List Char) (hc : isJsonWhitespace c = false) :
    skipWhitespace (c :: cs) = c :: cs := by
  simp [skipWhitespace, List.dropWhile, hc]

theorem not_whitespace_of_number_start (c : Char) (hc : c = '-' ∨ c.isDigit = true) :
    isJsonWhitespace c = false := by
  rcases hc with h | h
  · subst h; decide
  · simp only [isJsonWhitespace, Bool.or_eq_false_iff, beq_eq_false_iff_ne, ne_eq]
    refine ⟨⟨⟨?_, ?_⟩, ?_⟩, ?_⟩ <;> (intro hc; subst hc; exact absurd h (by decide))

/-- A JSON number followed by a character that no number contains is parsed
as the value `number`. -/
theorem parseValue_number (fuel : Nat) (s : String) (y : Char) (ys : List Char)
    (hs : isJsonNumber s = true) (hy : isNumberChar y = false) :
    parseValue (fuel + 1) (s.data ++ y :: ys) = some (Json.number s, y :: ys) := by
  obtain ⟨c, cs, hd, hc⟩ := isJsonNumber_head s hs
  have hscan := scanNumber_delimited s ys y hs hy
  rw [hd] at hscan ⊢
  simp only [List.cons_append] at hscan ⊢
  unfold parseValue
  rw [skipWhitespace_cons c _ (not_whitespace_of_number_start c hc)]
  simp only [if_pos hc, hscan]
  have hlen : (c :: (cs ++ y :: ys)).length - (y :: ys).length = (c :: cs).length := by
    simp only [List.length_cons, List.length_append]
    omega
  rw [hlen]
  have htake : List.take (c :: cs).length (c :: (cs ++ y :: ys)) = c :: cs := by
    rw [← List.cons_append]
    exact List.take_left' rfl
  rw [htake, ← hd]

theorem scanString_plain (key : List Char) (rest : List Char) (fuel : Nat)
    (hkey : ∀ c ∈ key, isPlainChar c = true) (hfuel : key.length < fuel) :
    scanString fuel (key ++ '"' :: rest) = some (key, rest) := by
  induction key generalizing fuel with
  | nil =>
      obtain ⟨f, rfl⟩ : ∃ f, fuel = f + 1 := ⟨fuel - 1, by simp at hfuel; omega⟩
      simp [scanString]
  | cons c key ih =>
      obtain ⟨f, rfl⟩ : ∃ f, fuel = f + 1 := ⟨fuel - 1, by simp at hfuel; omega⟩
      have hc := hkey c (List.mem_cons_self c key)
      simp only [isPlainChar, Bool.and_eq_true, bne_iff_ne, ne_eq, Bool.not_eq_true',
        decide_eq_false_iff_not] at hc
      obtain ⟨⟨hq, hb⟩, hlt⟩ := hc
      have := ih f (fun x hx => hkey x (List.mem_cons_of_mem c hx))
        (by simp only [List.length_cons] at hfuel; omega)
      simp only [List.cons_append, scanString, if_neg hq, if_neg hb, if_neg hlt, List.append_eq,
        this]

theorem membersChars_length (kvs : List (String × String)) :
    kvs.length ≤ (membersChars kvs).length := by
  induction kvs with
  | nil => simp [membersChars]
  | cons kv kvs ih =>
      simp only [membersChars, List.length_cons, List.length_append]
      split
      · rename_i h; subst h; simp
      · simp only [List.length_cons]; omega

theorem parseMembers_numbers (kvs : List (String × String)) :
    kvs ≠ [] →
    (∀ kv ∈ kvs, (∀ c ∈ kv.1.data, isPlainChar c = true) ∧ isJsonNumber kv.2 = true) →
    ∀ (fuel f : Nat) (rest : List Char), kvs.length ≤ fuel →
      parseMembers (parseValue (f + 1)) fuel (membersChars kvs ++ rest)
        = some (kvs.map (fun kv => (kv.1, Json.number kv.2)), rest) := by
  induction kvs with
  | nil => intro h; exact absurd rfl h
  | cons kv kvs ih =>
      intro _ hall fuel f rest hfuel
      obtain ⟨n, rfl⟩ : ∃ n, fuel = n + 1 :=
        ⟨fuel - 1, by simp only [List.length_cons] at hfuel; omega⟩
      obtain ⟨hkey, hval⟩ := hall kv (List.mem_cons_self kv kvs)
      have hq : isJsonWhitespace '"' = false := by decide
      have hcolon : isJsonWhitespace ':' = false := by decide
      have hcomma : isJsonWhitespace ',' = false := by decide
      have hbrace : isJsonWhitespace '\x7d' = false := by decide
      have hdcomma : isNumberChar ',' = false := by decide
      have hdbrace : isNumberChar '\x7d' = false := by decide
      by_cases hk : kvs = []
      · subst hk
        have hscan := scanString_plain kv.1.data (':' :: (kv.2.data ++ '\x7d' :: rest))
          (kv.1.data ++ '"' :: ':' :: (kv.2.data ++ '\x7d' :: rest)).length hkey
          (by simp only [List.length_append, List.length_cons]; omega)
        have hv := parseValue_number f kv.2 '\x7d' rest hval hdbrace
        simp only [membersChars, if_true, List.cons_append, List.append_assoc,
          List.nil_append, parseMembers, skipWhitespace_cons _ _ hq, hscan,
          skipWhitespace_cons _ _ hcolon, hv, skipWhitespace_cons _ _ hbrace, List.map]
        simp
      · have hscan := scanString_plain kv.1.data
          (':' :: (kv.2.data ++ ',' :: (membersChars kvs ++ rest)))
          (kv.1.data ++ '"' :: ':' :: (kv.2.data ++ ',' :: (membersChars kvs ++ rest))).length
          hkey (by simp only [List.length_append, List.length_cons]; omega)
        have hv := parseValue_number f kv.2 ',' (membersChars kvs ++ rest) hval hdcomma
        have hrec := ih hk (fun x hx => hall x (List.mem_cons_of_mem kv hx)) n f rest
          (by simp only [List.length_cons] at hfuel; omega)
        simp only [membersChars, if_neg hk, List.cons_append, List.append_assoc,
          parseMembers, skipWhitespace_cons _ _ hq, hscan,
          skipWhitespace_cons _ _ hcolon, hv, skipWhitespace_cons _ _ hcomma, hrec, List.map]
        simp

theorem jsonMember_data (kv : String × String) :
    (jsonMember kv).data = '"' :: (kv.1.data ++ '"' :: ':' :: kv.2.data) := by
  simp only [jsonMember, String.data_append]
  simp

theorem intercalate_go_members (kvs : List (String × String)) (acc : String) :
    (String.intercalate.go acc "," (kvs.map jsonMember)).data ++ ['\x7d']
      = acc.data ++ (if kvs = [] then ['\x7d'] else ',' :: membersChars kvs) := by
  induction kvs generalizing acc with
  | nil => simp [String.intercalate.go]
  | cons kv l ih =>
      simp only [List.map_cons, String.intercalate.go]
      rw [ih (acc ++ "," ++ jsonMember kv)]
      simp only [String.data_append, jsonMember_data, membersChars, List.append_assoc,
        List.cons_append, if_false, reduceCtorEq]
      rfl

theorem jsonObject_data (kvs : List (String × String)) (h : kvs ≠ []) :
    (jsonObject kvs).data = '\x7b' :: membersChars kvs := by
  cases kvs with
  | nil => exact absurd rfl h
  | cons kv l =>
      have hgo := intercalate_go_members l (jsonMember kv)
      simp only [jsonObject, List.map_cons, String.intercalate, String.data_append,
        List.append_assoc]
      rw [hgo, jsonMember_data]
      simp only [membersChars, List.cons_append, List.append_assoc]
      rfl

theorem parseValue_object (kvs : List (String × String)) (h : kvs ≠ [])
    (hall : ∀ kv ∈ kvs, (∀ c ∈ kv.1.data, isPlainChar c = true) ∧ isJsonNumber kv.2 = true)
    (f : Nat) (rest : List Char) :
    parseValue (f + 2) ('\x7b' :: (membersChars kvs ++ rest))
      = some (Json.object (kvs.map (fun kv => (kv.1, Json.number kv.2))), rest) := by
  obtain ⟨kv, kvs1, rfl⟩ : ∃ kv kvs1, kvs = kv :: kvs1 := by
    cases kvs with
    | nil => exact absurd rfl h
    | cons kv kvs1 => exact ⟨kv, kvs1, rfl⟩
  have hbrace : isJsonWhitespace '\x7b' = false := by decide
  have hq : isJsonWhitespace '"' = false := by decide
  have hm := parseMembers_numbers (kv :: kvs1) h hall
    (membersChars (kv :: kvs1) ++ rest).length f rest
    (by rw [List.length_append]; exact Nat.le_add_right_of_le (membersChars_length _))
  have hshape : membersChars (kv :: kvs1) ++ rest
      = '"' :: (kv.1.data ++ '"' :: ':' :: kv.2.data
        ++ (if kvs1 = [] then ['\x7d'] else ',' :: membersChars kvs1) ++ rest) := by
    simp [membersChars]
  rw [parseValue, skipWhitespace_cons _ _ hbrace]
  simp only [show ¬ (('\x7b' : Char) = '-' ∨ ('\x7b' : Char).isDigit = true) by decide,
    if_false, show ¬ (('\x7b' : Char) = '"') by decide, if_true]
  rw [hshape, skipWhitespace_cons _ _ hq]
  simp only [show ¬ (('"' : Char) = '\x7d') by decide, if_false]
  rw [← hshape, hm]

/-- The text `jsonObject` builds for members whose keys need no escape and
whose values are JSON numbers is a JSON text, and so is that text followed by
a newline: the object with these members in this order. -/
theorem parseJson_jsonObject (kvs : List (String × String)) (h : kvs ≠ [])
    (hall : ∀ kv ∈ kvs, (∀ c ∈ kv.1.data, isPlainChar c = true) ∧ isJsonNumber kv.2 = true) :
    parseJson (jsonObject kvs)
        = some (Json.object (kvs.map (fun kv => (kv.1, Json.number kv.2)))) ∧
    parseJson (jsonObject kvs ++ "\n")
        = some (Json.object (kvs.map (fun kv => (kv.1, Json.number kv.2)))) := by
  have hdata := jsonObject_data kvs h
  constructor
  · have hlen : (jsonObject kvs).length + 1 = (membersChars kvs).length + 2 := by
      show (jsonObject kvs).data.length + 1 = _
      rw [hdata]
      rfl
    have hpv := parseValue_object kvs h hall (membersChars kvs).length []
    rw [List.append_nil] at hpv
    unfold parseJson
    rw [hlen, hdata, hpv]
    simp [skipWhitespace]
  · have hdata2 : (jsonObject kvs ++ "\n").data = '\x7b' :: (membersChars kvs ++ ['\n']) := by
      rw [String.data_append, hdata]
      rfl
    have hlen : (jsonObject kvs ++ "\n").length + 1 = ((membersChars kvs).length + 1) + 2 := by
      show (jsonObject kvs ++ "\n").data.length + 1 = _
      rw [hdata2]
      simp
    have hpv := parseValue_object kvs h hall ((membersChars kvs).length + 1) ['\n']
    unfold parseJson
    rw [hlen, hdata2, hpv]
    simp only
    rw [if_pos (by decide)]

/-! ## The six significant digits -/

theorem exponentUp_spec (n d : Nat) : ∀ (fuel k : Nat), d * 10 ^ k ≤ n → n < d * 10 ^ (k + fuel) →
    d * 10 ^ exponentUp n d fuel k ≤ n ∧ n < d * 10 ^ (exponentUp n d fuel k + 1) := by
  intro fuel
  induction fuel with
  | zero => intro k h1 h2; simp only [Nat.add_zero] at h2; omega
  | succ fuel ih =>
      intro k h1 h2
      unfold exponentUp
      split
      · rename_i hc
        exact ih (k + 1) hc (by rw [show k + 1 + fuel = k + (fuel + 1) by omega]; exact h2)
      · rename_i hc
        exact ⟨h1, by omega⟩

theorem exponentDown_spec (n d : Nat) : ∀ (fuel k : Nat), 0 < k → n * 10 ^ (k - 1) < d →
    d ≤ n * 10 ^ (k + fuel) →
    0 < exponentDown n d fuel k ∧ n * 10 ^ (exponentDown n d fuel k - 1) < d
      ∧ d ≤ n * 10 ^ exponentDown n d fuel k := by
  intro fuel
  induction fuel with
  | zero =>
      intro k hk h1 h2
      simp only [Nat.add_zero] at h2
      exact ⟨hk, h1, h2⟩
  | succ fuel ih =>
      intro k hk h1 h2
      unfold exponentDown
      split
      · rename_i hc
        exact ⟨hk, h1, hc⟩
      · rename_i hc
        exact ih (k + 1) (by omega) (by simpa using Nat.lt_of_not_le hc)
          (by rw [show k + 1 + fuel = k + (fuel + 1) by omega]; exact h2)

theorem lt_ten_pow_self (n : Nat) : n < 10 ^ n :=
  Nat.lt_pow_self (by norm_num) n

/-- The scaled quotient that `sixDigits` rounds lies between 100000 and
1000000. -/
theorem scaled_bounds (n d : Nat) (hn : 0 < n) (hd : 0 < d) :
    100000 * (d * 10 ^ (decimalExponent n d - 5).toNat)
        ≤ n * 10 ^ (5 - decimalExponent n d).toNat ∧
    n * 10 ^ (5 - decimalExponent n d).toNat
        < 1000000 * (d * 10 ^ (decimalExponent n d - 5).toNat) := by
  unfold decimalExponent
  split
  · rename_i hle
    have hfuel : n < d * 10 ^ (0 + n) := by
      rw [Nat.zero_add]
      calc n < 10 ^ n := lt_ten_pow_self n
        _ ≤ d * 10 ^ n := Nat.le_mul_of_pos_left _ hd
    obtain ⟨h1, h2⟩ := exponentUp_spec n d n 0 (by simpa using hle) hfuel
    generalize exponentUp n d n 0 = k at h1 h2
    rcases Nat.lt_or_ge 5 k with hk | hk
    · obtain ⟨j, rfl⟩ : ∃ j, k = 5 + j := ⟨k - 5, by omega⟩
      have e1 : (((5 + j : Nat) : Int) - 5).toNat = j := by omega
      have e2 : (5 - ((5 + j : Nat) : Int)).toNat = 0 := by omega
      rw [e1, e2, pow_zero, Nat.mul_one]
      rw [pow_add] at h1
      rw [show 5 + j + 1 = 6 + j by omega, pow_add] at h2
      constructor
      · calc 100000 * (d * 10 ^ j) = d * (10 ^ 5 * 10 ^ j) := by ring
          _ ≤ n := h1
      · calc n < d * (10 ^ 6 * 10 ^ j) := h2
          _ = 1000000 * (d * 10 ^ j) := by ring
    · obtain ⟨j, hj⟩ : ∃ j, 5 = k + j := ⟨5 - k, by omega⟩
      have e1 : ((k : Int) - 5).toNat = 0 := by omega
      have e2 : (5 - (k : Int)).toNat = j := by omega
      rw [e1, e2, pow_zero, Nat.mul_one]
      have p5 : 10 ^ k * 10 ^ j = 100000 := by rw [← pow_add, ← hj]; norm_num
      have p6 : 10 ^ (k + 1) * 10 ^ j = 1000000 := by
        rw [← pow_add, show k + 1 + j = 6 by omega]; norm_num
      constructor
      · calc 100000 * d = (d * 10 ^ k) * 10 ^ j := by rw [← p5]; ring
          _ ≤ n * 10 ^ j := Nat.mul_le_mul_right _ h1
      · calc n * 10 ^ j < (d * 10 ^ (k + 1)) * 10 ^ j :=
              Nat.mul_lt_mul_of_pos_right h2 (by positivity)
          _ = 1000000 * d := by rw [← p6]; ring
  · rename_i hlt
    have hlt1 : n < d := Nat.lt_of_not_le hlt
    have hfuel : d ≤ n * 10 ^ (1 + d) := by
      calc d ≤ 10 ^ d := (lt_ten_pow_self d).le
        _ ≤ 10 ^ (1 + d) := Nat.pow_le_pow_right (by norm_num) (by omega)
        _ ≤ n * 10 ^ (1 + d) := Nat.le_mul_of_pos_left _ hn
    obtain ⟨h0, h1, h2⟩ := exponentDown_spec n d d 1 (by norm_num) (by simpa using hlt1) hfuel
    generalize exponentDown n d d 1 = k at h0 h1 h2
    obtain ⟨j, rfl⟩ : ∃ j, k = j + 1 := ⟨k - 1, by omega⟩
    have e1 : (-((j + 1 : Nat) : Int) - 5).toNat = 0 := by omega
    have e2 : (5 - -((j + 1 : Nat) : Int)).toNat = 6 + j := by omega
    rw [e1, e2, pow_zero, Nat.mul_one]
    simp only [Nat.add_sub_cancel] at h1
    constructor
    · calc 100000 * d ≤ 100000 * (n * 10 ^ (j + 1)) := Nat.mul_le_mul_left _ h2
        _ = n * 10 ^ (6 + j) := by rw [pow_add, pow_add]; ring
    · calc n * 10 ^ (6 + j) = 1000000 * (n * 10 ^ j) := by rw [pow_add]; ring
        _ < 1000000 * d := Nat.mul_lt_mul_of_pos_left h1 (by norm_num)

theorem sixDigits_bounds (n d : Nat) (hn : 0 < n) (hd : 0 < d) :
    100000 ≤ (sixDigits n d).1 ∧ (sixDigits n d).1 < 1000000 := by
  obtain ⟨h1, h2⟩ := scaled_bounds n d hn hd
  unfold sixDigits
  simp only
  generalize n * 10 ^ (5 - decimalExponent n d).toNat = num at h1 h2
  have hden : 0 < d * 10 ^ (decimalExponent n d - 5).toNat := by positivity
  generalize d * 10 ^ (decimalExponent n d - 5).toNat = den at h1 h2 hden
  have hq1 : 100000 ≤ num / den := (Nat.le_div_iff_mul_le hden).mpr h1
  have hq2 : num / den < 1000000 := (Nat.div_lt_iff_lt_mul hden).mpr h2
  split_ifs <;> simp only <;> omega

/-! ## What `operator<<` prints for a finite double is a JSON number -/

theorem digitChar_isDigit (m : Nat) (h : m < 10) : (Nat.digitChar m).isDigit = true := by
  interval_cases m <;> decide

theorem digitChar_ne_zero (m : Nat) (h0 : 0 < m) (h : m < 10) : Nat.digitChar m ≠ '0' := by
  interval_cases m <;> decide

theorem digitList_lt (width n : Nat) : ∀ x ∈ digitList width n, x < 10 := by
  induction width with
  | zero => intro x hx; simp [digitList] at hx
  | succ w ih =>
      intro x hx
      simp only [digitList, List.mem_cons] at hx
      rcases hx with rfl | hx
      · exact Nat.mod_lt _ (by norm_num)
      · exact ih x hx

theorem digitList_length (width n : Nat) : (digitList width n).length = width := by
  induction width with
  | zero => rfl
  | succ w ih => simp [digitList, ih]

theorem stripTrailingZeros_mem (ds : List Nat) : ∀ x ∈ stripTrailingZeros ds, x ∈ ds := by
  intro x hx
  unfold stripTrailingZeros at hx
  rw [List.mem_reverse] at hx
  have := (List.dropWhile_sublist _).subset hx
  exact List.mem_reverse.mp this

theorem digitChars_allDigits (ds : List Nat) (h : ∀ x ∈ ds, x < 10) :
    ∀ c ∈ digitChars ds, c.isDigit = true := by
  intro c hc
  simp only [digitChars, List.mem_map] at hc
  obtain ⟨x, hx, rfl⟩ := hc
  exact digitChar_isDigit x (h x hx)

theorem dropWhile_allDigits (cs r : List Char) (h : ∀ c ∈ cs, c.isDigit = true) :
    (cs ++ r).dropWhile Char.isDigit = r.dropWhile Char.isDigit := by
  induction cs with
  | nil => rfl
  | cons c cs ih =>
      have hc := h c (List.mem_cons_self c cs)
      simp only [List.cons_append, List.dropWhile, hc]
      exact ih (fun x hx => h x (List.mem_cons_of_mem c hx))

theorem scanDigits_allDigits (cs r : List Char) (hne : cs ≠ [])
    (h : ∀ c ∈ cs, c.isDigit = true) :
    scanDigits (cs ++ r) = some (r.dropWhile Char.isDigit) := by
  cases cs with
  | nil => exact absurd rfl hne
  | cons c cs =>
      have hc := h c (List.mem_cons_self c cs)
      simp only [List.cons_append, scanDigits, hc, if_true]
      rw [dropWhile_allDigits cs r (fun x hx => h x (List.mem_cons_of_mem c hx))]

theorem scanInt_leading (c : Char) (cs r : List Char) (hc : c.isDigit = true) (h0 : c ≠ '0')
    (h : ∀ x ∈ cs, x.isDigit = true) :
    scanInt (c :: (cs ++ r)) = some (r.dropWhile Char.isDigit) := by
  simp only [scanInt, if_neg h0, hc, if_true]
  rw [dropWhile_allDigits cs r h]

theorem dropWhile_startsExponent (r : List Char) (h : startsExponent r) :
    r.dropWhile Char.isDigit = r := by
  rcases h with rfl | ⟨r1, rfl⟩
  · rfl
  · simp [List.dropWhile]

theorem fractionChars_head (ds : List Nat) (r : List Char) (h : startsExponent r) :
    (fractionChars ds ++ r).dropWhile Char.isDigit = fractionChars ds ++ r := by
  unfold fractionChars
  split
  · simpa using dropWhile_startsExponent r h
  · simp [List.dropWhile]

theorem scanFrac_fractionChars (ds : List Nat) (r : List Char) (hds : ∀ x ∈ ds, x < 10)
    (h : startsExponent r) : scanFrac (fractionChars ds ++ r) = some r := by
  unfold fractionChars
  split
  · rcases h with rfl | ⟨r1, rfl⟩
    · rfl
    · simp [scanFrac]
  · rename_i hne
    simp only [List.cons_append, scanFrac, if_true]
    rw [scanDigits_allDigits _ r (by simpa [digitChars] using hne)
      (digitChars_allDigits _ (fun x hx => hds x (stripTrailingZeros_mem ds x hx)))]
    rw [dropWhile_startsExponent r h]

theorem toDigitsCore_allDigits (fuel n : Nat) (ds : List Char)
    (hds : ∀ c ∈ ds, c.isDigit = true) :
    ∀ c ∈ Nat.toDigitsCore 10 fuel n ds, c.isDigit = true := by
  induction fuel generalizing n ds with
  | zero => simpa [Nat.toDigitsCore] using hds
  | succ fuel ih =>
      have hcons : ∀ c ∈ Nat.digitChar (n % 10) :: ds, c.isDigit = true := by
        intro c hc
        rcases List.mem_cons.mp hc with h | h
        · rw [h]; exact digitChar_isDigit _ (Nat.mod_lt _ (by norm_num))
        · exact hds c h
      simp only [Nat.toDigitsCore]
      split
      · exact hcons
      · exact ih _ _ hcons

theorem toDigitsCore_ne_nil (fuel n : Nat) (ds : List Char) (h : 0 < fuel ∨ ds ≠ []) :
    Nat.toDigitsCore 10 fuel n ds ≠ [] := by
  induction fuel generalizing n ds with
  | zero =>
      rcases h with h | h
      · omega
      · simpa [Nat.toDigitsCore] using h
  | succ fuel ih =>
      simp only [Nat.toDigitsCore]
      split
      · simp
      · exact ih _ _ (Or.inr (by simp))

theorem toDigits_allDigits (n : Nat) : ∀ c ∈ Nat.toDigits 10 n, c.isDigit = true :=
  toDigitsCore_allDigits _ _ _ (by simp)

theorem toDigits_ne_nil (n : Nat) : Nat.toDigits 10 n ≠ [] :=
  toDigitsCore_ne_nil _ _ _ (Or.inl (by omega))

theorem scanExp_exponentChars (X : Int) : scanExp (exponentChars X) = some [] := by
  have hall : ∀ c ∈ (if X.natAbs < 10 then ['0'] else []) ++ Nat.toDigits 10 X.natAbs,
      c.isDigit = true := by
    intro c hc
    rcases List.mem_append.mp hc with h | h
    · split at h
      · simp only [List.mem_singleton] at h; rw [h]; decide
      · simp at h
    · exact toDigits_allDigits _ c h
  have hne : (if X.natAbs < 10 then ['0'] else []) ++ Nat.toDigits 10 X.natAbs ≠ [] := by
    intro h
    exact toDigits_ne_nil _ (List.append_eq_nil.mp h).2
  have hscan := scanDigits_allDigits _ [] hne hall
  rw [List.append_nil] at hscan
  unfold exponentChars
  simp only [scanExp, true_or, if_true]
  split <;> simp [hscan]

theorem startsExponent_exponentChars (X : Int) : startsExponent (exponentChars X) :=
  Or.inr ⟨_, rfl⟩

/-- The part of `scanNumber` after the sign. -/
theorem scanNumber_unsigned (c : Char) (cs : List Char) (hc : c ≠ '-') :
    scanNumber (c :: cs)
      = (match scanInt (c :: cs) with
         | none => none
         | some r1 =>
             match scanFrac r1 with
             | none => none
             | some r2 => scanExp r2) := by
  simp only [scanNumber, scanSign, if_neg hc]

theorem isDigit_ne_minus (c : Char) (hc : c.isDigit = true) : c ≠ '-' := by
  intro h
  rw [h] at hc
  exact absurd hc (by decide)

theorem sixDigits_leading (n d : Nat) (hn : 0 < n) (hd : 0 < d) :
    digitList 6 (sixDigits n d).1
      = ((sixDigits n d).1 / 100000) :: digitList 5 (sixDigits n d).1 ∧
    0 < (sixDigits n d).1 / 100000 ∧ (sixDigits n d).1 / 100000 < 10 := by
  obtain ⟨h1, h2⟩ := sixDigits_bounds n d hn hd
  generalize (sixDigits n d).1 = m at h1 h2
  have hlt : m / 100000 < 10 := by omega
  have hpos : 0 < m / 100000 := by omega
  refine ⟨?_, hpos, hlt⟩
  show (m / 10 ^ 5 % 10) :: digitList 5 m = _
  rw [show (10 : Nat) ^ 5 = 100000 by norm_num, Nat.mod_eq_of_lt hlt]

/-- The text printed for a positive value starts with a digit and is a JSON
number. -/
theorem magnitudeChars_number (n d : Nat) (hn : 0 < n) (hd : 0 < d) :
    ∃ c cs, magnitudeChars n d = c :: cs ∧ c.isDigit = true ∧ scanNumber (c :: cs) = some [] := by
  obtain ⟨hlist, hpos, hlt⟩ := sixDigits_leading n d hn hd
  have h5 : ∀ x ∈ digitList 5 (sixDigits n d).1, x < 10 := digitList_lt 5 _
  have hlead := digitChar_isDigit _ hlt
  have hlead0 := digitChar_ne_zero _ hpos hlt
  unfold magnitudeChars
  simp only
  generalize hm : (sixDigits n d).1 = m at *
  generalize (sixDigits n d).2 = X
  split
  · rename_i hX
    split
    · rename_i hX0
      refine ⟨Nat.digitChar (m / 100000),
        digitChars ((digitList 5 m).take X.toNat)
          ++ fractionChars ((digitList 6 m).drop (X.toNat + 1)), ?_, hlead, ?_⟩
      · rw [hlist]
        simp [digitChars]
      · rw [scanNumber_unsigned _ _ (isDigit_ne_minus _ hlead)]
        have hint := scanInt_leading (Nat.digitChar (m / 100000))
          (digitChars ((digitList 5 m).take X.toNat))
          (fractionChars ((digitList 6 m).drop (X.toNat + 1))) hlead hlead0
          (digitChars_allDigits _ (fun x hx => h5 x (List.mem_of_mem_take hx)))
        have hhead := fractionChars_head ((digitList 6 m).drop (X.toNat + 1)) [] (Or.inl rfl)
        rw [List.append_nil] at hhead
        rw [hint, hhead]
        have hfrac := scanFrac_fractionChars ((digitList 6 m).drop (X.toNat + 1)) []
          (fun x hx => digitList_lt 6 m x (List.mem_of_mem_drop hx)) (Or.inl rfl)
        rw [List.append_nil] at hfrac
        simp only [hfrac]
        rfl
    · refine ⟨'0', fractionChars (List.replicate ((-X).toNat - 1) 0 ++ digitList 6 m), rfl,
        by decide, ?_⟩
      rw [scanNumber_unsigned _ _ (by decide)]
      have hfrac := scanFrac_fractionChars (List.replicate ((-X).toNat - 1) 0 ++ digitList 6 m)
        [] (by
          intro x hx
          rcases List.mem_append.mp hx with h | h
          · rw [List.eq_of_mem_replicate h]; norm_num
          · exact digitList_lt 6 m x h) (Or.inl rfl)
      rw [List.append_nil] at hfrac
      simp only [scanInt, if_true, hfrac]
      rfl
  · refine ⟨Nat.digitChar (m / 100000 % 10),
      fractionChars (digitList 5 m) ++ exponentChars X, ?_, ?_, ?_⟩
    · simp [digitChars, digitList]
    · exact digitChar_isDigit _ (Nat.mod_lt _ (by norm_num))
    · rw [Nat.mod_eq_of_lt hlt]
      rw [scanNumber_unsigned _ _ (isDigit_ne_minus _ hlead)]
      have hint := scanInt_leading (Nat.digitChar (m / 100000)) []
        (fractionChars (digitList 5 m) ++ exponentChars X) hlead hlead0 (by simp)
      rw [List.nil_append] at hint
      rw [hint, fractionChars_head _ _ (startsExponent_exponentChars X)]
      simp only [scanFrac_fractionChars _ _ h5 (startsExponent_exponentChars X)]
      exact scanExp_exponentChars X

/-- Every finite value is printed as a JSON number. -/
theorem renderFinite_number (q : ℚ) : isJsonNumber (renderFinite q) = true := by
  rw [isJsonNumber_iff]
  unfold renderFinite
  split
  · rfl
  · rename_i hnum
    obtain ⟨c, cs, hmag, hc, hscan⟩ := magnitudeChars_number q.num.natAbs q.den
      (Int.natAbs_pos.mpr hnum) q.den_pos
    rw [hmag]
    split
    · show scanNumber ('-' :: c :: cs) = some []
      rw [scanNumber_unsigned _ _ (isDigit_ne_minus _ hc)] at hscan
      simp only [scanNumber, scanSign, if_true]
      exact hscan
    · exact hscan

/-! ## The persisted line is a JSON object -/

theorem toDigitsCore_leading (fuel : Nat) : ∀ (n : Nat) (ds : List Char), 0 < n → n < fuel →
    (∀ c ∈ ds, c.isDigit = true) →
    ∃ c cs, Nat.toDigitsCore 10 fuel n ds = c :: cs ∧ c.isDigit = true ∧ c ≠ '0'
      ∧ ∀ x ∈ cs, x.isDigit = true := by
  induction fuel with
  | zero => intro n ds _ h; omega
  | succ fuel ih =>
      intro n ds hn hf hds
      simp only [Nat.toDigitsCore]
      split
      · rename_i h0
        have hlt : n < 10 := by
          by_contra hc
          have : 1 ≤ n / 10 := (Nat.le_div_iff_mul_le (by norm_num)).mpr (by omega)
          omega
        refine ⟨_, ds, rfl, digitChar_isDigit _ (Nat.mod_lt _ (by norm_num)), ?_, hds⟩
        rw [Nat.mod_eq_of_lt hlt]
        exact digitChar_ne_zero n hn hlt
      · rename_i h0
        have hpos : 0 < n / 10 := Nat.pos_of_ne_zero h0
        have hlt : n / 10 < fuel := by
          have : n / 10 < n := Nat.div_lt_self hn (by norm_num)
          omega
        exact ih (n / 10) _ hpos hlt (by
          intro c hc
          rcases List.mem_cons.mp hc with h | h
          · rw [h]; exact digitChar_isDigit _ (Nat.mod_lt _ (by norm_num))
          · exact hds c h)

/-- The decimal rendering of an unsigned integer is a JSON number. -/
theorem toString_nat_number (n : Nat) : isJsonNumber (toString n) = true := by
  rw [isJsonNumber_iff]
  show scanNumber (Nat.toDigits 10 n) = some []
  rcases Nat.eq_zero_or_pos n with h0 | hpos
  · subst h0
    rfl
  · obtain ⟨c, cs, hd, hc, hc0, hcs⟩ := toDigitsCore_leading (n + 1) n [] hpos (by omega)
      (by simp)
    have hd2 : Nat.toDigits 10 n = c :: cs := hd
    rw [hd2, scanNumber_unsigned _ _ (isDigit_ne_minus _ hc)]
    have hint := scanInt_leading c cs [] hc hc0 hcs
    rw [List.append_nil] at hint
    rw [hint]
    rfl

/-- What `operator<<` prints for a `double` is a JSON number exactly when the
value is finite. -/
theorem render_number_iff_finite (v : IeeeDouble) :
    isJsonNumber v.render = v.isFinite := by
  cases v with
  | finite q => exact renderFinite_number q
  | negZero => decide
  | infinity negative => cases negative <;> decide
  | nan negative => cases negative <;> decide

theorem number_no_newline (s : String) (hs : isJsonNumber s = true) :
    s.data.count '\n' = 0 :=
  List.count_eq_zero.mpr (isJsonNumber_chars s hs '\n' (by decide))

theorem jsonLine_one_newline {F : Type} (A : DoubleOps F) (x : CoreMetricSample F)
    (hts : isJsonNumber (A.render x.timestamp_sec) = true)
    (hcpu : isJsonNumber (A.render x.process_cpu_pct) = true)
    (hmem : isJsonNumber (A.render x.process_mem_mb) = true)
    (hframe : isJsonNumber (A.render x.frame_time_ms) = true)
    (havg : isJsonNumber (A.render x.avg_frame_time_ms) = true) :
    (jsonLine A x).data.count '\n' = 1 ∧ (jsonLine A x).data.getLast? = some '\n' := by
  constructor
  · simp only [jsonLine, String.data_append, List.count_append, number_no_newline _ hts,
      number_no_newline _ hcpu, number_no_newline _ hmem, number_no_newline _ hframe,
      number_no_newline _ havg, number_no_newline _ (toString_nat_number x.sequence)]
    decide
  · simp only [jsonLine, String.data_append]
    rw [List.getLast?_append]
    rfl

theorem parseValue_nonfinite (v : IeeeDouble) (hv : v.isFinite = false) (fuel : Nat)
    (rest : List Char) : parseValue fuel (v.render.data ++ rest) = none := by
  cases fuel with
  | zero => rfl
  | succ f =>
      cases v with
      | finite q => simp [IeeeDouble.isFinite] at hv
      | negZero => simp [IeeeDouble.isFinite] at hv
      | infinity negative => cases negative <;> rfl
      | nan negative => cases negative <;> rfl

theorem parseMembers_bad (good : List (String × String)) (key bad : String)
    (more : List (String × String))
    (hgood : ∀ kv ∈ good, (∀ c ∈ kv.1.data, isPlainChar c = true) ∧ isJsonNumber kv.2 = true)
    (hkey : ∀ c ∈ key.data, isPlainChar c = true)
    (hbad : ∀ (fuel : Nat) (r : List Char), parseValue fuel (bad.data ++ r) = none) :
    ∀ (fuel f : Nat) (rest : List Char),
      parseMembers (parseValue f) fuel (membersChars (good ++ (key, bad) :: more) ++ rest)
        = none := by
  have hq : isJsonWhitespace '"' = false := by decide
  have hcolon : isJsonWhitespace ':' = false := by decide
  have hcomma : isJsonWhitespace ',' = false := by decide
  induction good with
  | nil =>
      intro fuel f rest
      cases fuel with
      | zero => rfl
      | succ n =>
          have hscan := scanString_plain key.data
            (':' :: (bad.data ++ ((if more = [] then ['\x7d'] else ',' :: membersChars more)
              ++ rest)))
            (key.data ++ '"' :: ':' :: (bad.data
              ++ ((if more = [] then ['\x7d'] else ',' :: membersChars more) ++ rest))).length
            hkey (by simp only [List.length_append, List.length_cons]; omega)
          simp only [List.nil_append, membersChars, List.cons_append, List.append_assoc,
            parseMembers, skipWhitespace_cons _ _ hq, if_true, hscan,
            skipWhitespace_cons _ _ hcolon, hbad]
  | cons kv good ih =>
      intro fuel f rest
      cases fuel with
      | zero => rfl
      | succ n =>
          obtain ⟨hk, hval⟩ := hgood kv (List.mem_cons_self kv good)
          have hne : good ++ (key, bad) :: more ≠ [] := by simp
          have hdcomma : isNumberChar ',' = false := by decide
          have hscan := scanString_plain kv.1.data
            (':' :: (kv.2.data ++ ',' :: (membersChars (good ++ (key, bad) :: more) ++ rest)))
            (kv.1.data ++ '"' :: ':' :: (kv.2.data
              ++ ',' :: (membersChars (good ++ (key, bad) :: more) ++ rest))).length
            hk (by simp only [List.length_append, List.length_cons]; omega)
          have hrec := ih (fun x hx => hgood x (List.mem_cons_of_mem kv hx)) n f rest
          cases f with
          | zero =>
              simp only [List.cons_append, membersChars, List.append_eq, if_neg hne, List.append_assoc,
                parseMembers, skipWhitespace_cons _ _ hq, if_true, hscan,
                skipWhitespace_cons _ _ hcolon, parseValue]
          | succ f1 =>
              have hv := parseValue_number f1 kv.2 ','
                (membersChars (good ++ (key, bad) :: more) ++ rest) hval hdcomma
              simp only [List.cons_append, membersChars, List.append_eq, if_neg hne, List.append_assoc,
                parseMembers, skipWhitespace_cons _ _ hq, if_true, hscan,
                skipWhitespace_cons _ _ hcolon, hv, skipWhitespace_cons _ _ hcomma, hrec]

theorem parseJson_bad (good : List (String × String)) (key bad : String)
    (more : List (String × String))
    (hgood : ∀ kv ∈ good, (∀ c ∈ kv.1.data, isPlainChar c = true) ∧ isJsonNumber kv.2 = true)
    (hkey : ∀ c ∈ key.data, isPlainChar c = true)
    (hbad : ∀ (fuel : Nat) (r : List Char), parseValue fuel (bad.data ++ r) = none) :
    parseJson (jsonObject (good ++ (key, bad) :: more)) = none ∧
    parseJson (jsonObject (good ++ (key, bad) :: more) ++ "\n") = none := by
  have hne : good ++ (key, bad) :: more ≠ [] := by simp
  have hdata := jsonObject_data _ hne
  have hbrace : isJsonWhitespace '\x7b' = false := by decide
  have hq : isJsonWhitespace '"' = false := by decide
  have hshape : ∀ rest : List Char, ∃ tl : List Char,
      membersChars (good ++ (key, bad) :: more) ++ rest = '"' :: tl := by
    intro rest
    cases good with
    | nil => exact ⟨_, rfl⟩
    | cons kv good => exact ⟨_, rfl⟩
  have hpv : ∀ (fuel : Nat) (rest : List Char),
      parseValue fuel ('\x7b' :: (membersChars (good ++ (key, bad) :: more) ++ rest))
        = none := by
    intro fuel rest
    cases fuel with
    | zero => rfl
    | succ f =>
        have hm := parseMembers_bad good key bad more hgood hkey hbad
          (membersChars (good ++ (key, bad) :: more) ++ rest).length f rest
        obtain ⟨tl, htl⟩ := hshape rest
        rw [parseValue, skipWhitespace_cons _ _ hbrace]
        simp only [show ¬ (('\x7b' : Char) = '-' ∨ ('\x7b' : Char).isDigit = true) by decide,
          if_false, show ¬ (('\x7b' : Char) = '"') by decide, if_true]
        rw [htl, skipWhitespace_cons _ _ hq]
        simp only [show ¬ (('"' : Char) = '\x7d') by decide, if_false]
        rw [← htl, hm]
  constructor
  · have := hpv ((jsonObject (good ++ (key, bad) :: more)).length + 1) []
    rw [List.append_nil] at this
    unfold parseJson
    rw [hdata, this]
  · have hdata2 : (jsonObject (good ++ (key, bad) :: more) ++ "\n").data
        = '\x7b' :: (membersChars (good ++ (key, bad) :: more) ++ ['\n']) := by
      rw [String.data_append, hdata]
      rfl
    unfold parseJson
    rw [hdata2, hpv]

/-- With `double` values, the line that `flush` writes for a sample is a JSON
text exactly when the five double values of the sample are finite. -/
theorem ieee_line_json_iff_finite (defaultNan : IeeeDouble)
    (y : CoreMetricSample IeeeDouble) :
    isJsonText (jsonLine (ieeeOps defaultNan) y)
      = (y.timestamp_sec.isFinite && y.process_cpu_pct.isFinite && y.process_mem_mb.isFinite
          && y.frame_time_ms.isFinite && y.avg_frame_time_ms.isFinite) := by
  have hrender : ∀ v : IeeeDouble, (ieeeOps defaultNan).render v = v.render := fun _ => rfl
  have hline := jsonLine_eq_object (ieeeOps defaultNan) y
  have hkeys : (∀ c ∈ "ts".data, isPlainChar c = true) ∧ (∀ c ∈ "seq".data, isPlainChar c = true)
      ∧ (∀ c ∈ "cpu".data, isPlainChar c = true) ∧ (∀ c ∈ "mem_mb".data, isPlainChar c = true)
      ∧ (∀ c ∈ "frame_ms".data, isPlainChar c = true)
      ∧ (∀ c ∈ "avg_frame_ms".data, isPlainChar c = true) := by decide
  obtain ⟨k1, k2, k3, k4, k5, k6⟩ := hkeys
  have hseq := toString_nat_number y.sequence
  have good : ∀ v : IeeeDouble, v.isFinite = true → isJsonNumber v.render = true := by
    intro v hv
    rw [render_number_iff_finite, hv]
  have bad : ∀ v : IeeeDouble, ¬ v.isFinite = true →
      ∀ (fuel : Nat) (r : List Char), parseValue fuel (v.render.data ++ r) = none := by
    intro v hv fuel r
    exact parseValue_nonfinite v (by simpa using hv) fuel r
  unfold isJsonText
  rw [hline]
  by_cases h1 : y.timestamp_sec.isFinite = true
  · by_cases h2 : y.process_cpu_pct.isFinite = true
    · by_cases h3 : y.process_mem_mb.isFinite = true
      · by_cases h4 : y.frame_time_ms.isFinite = true
        · by_cases h5 : y.avg_frame_time_ms.isFinite = true
          · have hp := (parseJson_jsonObject (sampleMembers (ieeeOps defaultNan) y)
              (by simp [sampleMembers]) (by
                intro kv hkv
                simp only [sampleMembers, List.mem_cons, List.mem_singleton, List.not_mem_nil,
                  or_false] at hkv
                rcases hkv with rfl | rfl | rfl | rfl | rfl | rfl
                · exact ⟨k1, good _ h1⟩
                · exact ⟨k2, hseq⟩
                · exact ⟨k3, good _ h2⟩
                · exact ⟨k4, good _ h3⟩
                · exact ⟨k5, good _ h4⟩
                · exact ⟨k6, good _ h5⟩)).2
            rw [hp, h1, h2, h3, h4, h5]
            rfl
          · have hp := (parseJson_bad
              [("ts", y.timestamp_sec.render), ("seq", toString y.sequence),
               ("cpu", y.process_cpu_pct.render), ("mem_mb", y.process_mem_mb.render),
               ("frame_ms", y.frame_time_ms.render)]
              "avg_frame_ms" y.avg_frame_time_ms.render [] (by
                intro kv hkv
                simp only [List.mem_cons, List.mem_singleton, List.not_mem_nil, or_false] at hkv
                rcases hkv with rfl | rfl | rfl | rfl | rfl
                · exact ⟨k1, good _ h1⟩
                · exact ⟨k2, hseq⟩
                · exact ⟨k3, good _ h2⟩
                · exact ⟨k4, good _ h3⟩
                · exact ⟨k5, good _ h4⟩) k6 (bad _ h5)).2
            have h5f : y.avg_frame_time_ms.isFinite = false := by simpa using h5
            show (parseJson (jsonObject ([("ts", y.timestamp_sec.render),
              ("seq", toString y.sequence), ("cpu", y.process_cpu_pct.render),
              ("mem_mb", y.process_mem_mb.render), ("frame_ms", y.frame_time_ms.render)]
              ++ ("avg_frame_ms", y.avg_frame_time_ms.render) :: []) ++ "\n")).isSome = _
            rw [hp, h5f]
            simp
        · have hp := (parseJson_bad
            [("ts", y.timestamp_sec.render), ("seq", toString y.sequence),
             ("cpu", y.process_cpu_pct.render), ("mem_mb", y.process_mem_mb.render)]
            "frame_ms" y.frame_time_ms.render
            [("avg_frame_ms", y.avg_frame_time_ms.render)] (by
              intro kv hkv
              simp only [List.mem_cons, List.mem_singleton, List.not_mem_nil, or_false] at hkv
              rcases hkv with rfl | rfl | rfl | rfl
              · exact ⟨k1, good _ h1⟩
              · exact ⟨k2, hseq⟩
              · exact ⟨k3, good _ h2⟩
              · exact ⟨k4, good _ h3⟩) k5 (bad _ h4)).2
          have h4f : y.frame_time_ms.isFinite = false := by simpa using h4
          show (parseJson (jsonObject ([("ts", y.timestamp_sec.render),
            ("seq", toString y.sequence), ("cpu", y.process_cpu_pct.render),
            ("mem_mb", y.process_mem_mb.render)]
            ++ ("frame_ms", y.frame_time_ms.render)
              :: [("avg_frame_ms", y.avg_frame_time_ms.render)]) ++ "\n")).isSome = _
          rw [hp, h4f]
          simp
      · have hp := (parseJson_bad
          [("ts", y.timestamp_sec.render), ("seq", toString y.sequence),
           ("cpu", y.process_cpu_pct.render)]
          "mem_mb" y.process_mem_mb.render
          [("frame_ms", y.frame_time_ms.render), ("avg_frame_ms", y.avg_frame_time_ms.render)]
          (by
            intro kv hkv
            simp only [List.mem_cons, List.mem_singleton, List.not_mem_nil, or_false] at hkv
            rcases hkv with rfl | rfl | rfl
            · exact ⟨k1, good _ h1⟩
            · exact ⟨k2, hseq⟩
            · exact ⟨k3, good _ h2⟩) k4 (bad _ h3)).2
        have h3f : y.process_mem_mb.isFinite = false := by simpa using h3
        show (parseJson (jsonObject ([("ts", y.timestamp_sec.render),
          ("seq", toString y.sequence), ("cpu", y.process_cpu_pct.render)]
          ++ ("mem_mb", y.process_mem_mb.render)
            :: [("frame_ms", y.frame_time_ms.render),
                ("avg_frame_ms", y.avg_frame_time_ms.render)]) ++ "\n")).isSome = _
        rw [hp, h3f]
        simp
    · have hp := (parseJson_bad
        [("ts", y.timestamp_sec.render), ("seq", toString y.sequence)]
        "cpu" y.process_cpu_pct.render
        [("mem_mb", y.process_mem_mb.render), ("frame_ms", y.frame_time_ms.render),
         ("avg_frame_ms", y.avg_frame_time_ms.render)]
        (by
          intro kv hkv
          simp only [List.mem_cons, List.mem_singleton, List.not_mem_nil, or_false] at hkv
          rcases hkv with rfl | rfl
          · exact ⟨k1, good _ h1⟩
          · exact ⟨k2, hseq⟩) k3 (bad _ h2)).2
      have h2f : y.process_cpu_pct.isFinite = false := by simpa using h2
      show (parseJson (jsonObject ([("ts", y.timestamp_sec.render),
        ("seq", toString y.sequence)]
        ++ ("cpu", y.process_cpu_pct.render)
          :: [("mem_mb", y.process_mem_mb.render), ("frame_ms", y.frame_time_ms.render),
              ("avg_frame_ms", y.avg_frame_time_ms.render)]) ++ "\n")).isSome = _
      rw [hp, h2f]
      simp
  · have hp := (parseJson_bad ([] : List (String × String)) "ts" y.timestamp_sec.render
      [("seq", toString y.sequence), ("cpu", y.process_cpu_pct.render),
       ("mem_mb", y.process_mem_mb.render), ("frame_ms", y.frame_time_ms.render),
       ("avg_frame_ms", y.avg_frame_time_ms.render)]
      (fun kv hkv => absurd hkv (List.not_mem_nil kv)) k1 (bad _ h1)).2
    have h1f : y.timestamp_sec.isFinite = false := by simpa using h1
    show (parseJson (jsonObject (([] : List (String × String))
      ++ ("ts", y.timestamp_sec.render)
        :: [("seq", toString y.sequence), ("cpu", y.process_cpu_pct.render),
            ("mem_mb", y.process_mem_mb.render), ("frame_ms", y.frame_time_ms.render),
            ("avg_frame_ms", y.avg_frame_time_ms.render)]) ++ "\n")).isSome = _
    rw [hp, h1f]
    simp

/-- C13, as stated, fails: after `record_frame(NAN)` the sample that a fresh
sampler builds carries NaN as frame time and as average, `flush` writes them
as `nan`, and the line is no JSON text: `nan`, like `inf`, is no JSON
value. -/
theorem nan_frame_time_line_is_not_json :
    sampleAfterNan.frame_time_ms = IeeeDouble.nan false ∧
    sampleAfterNan.avg_frame_time_ms = IeeeDouble.nan false ∧
    jsonLine (ieeeOps (IeeeDouble.nan true)) sampleAfterNan
      = "\x7b\"ts\":1.5,\"seq\":0,\"cpu\":-1,\"mem_mb\":-1,\"frame_ms\":nan,\"avg_frame_ms\":nan\x7d\n" ∧
    isJsonText (jsonLine (ieeeOps (IeeeDouble.nan true)) sampleAfterNan) = false ∧
    isJsonText (jsonObject (sampleMembers (ieeeOps (IeeeDouble.nan true)) sampleAfterNan))
      = false ∧
    isJsonNumber "nan" = false ∧ isJsonNumber "inf" = false := by
  decide!

/-- C13, amended: every sample that `flush` writes and whose five double
values are printed as JSON numbers yields exactly one newline-terminated
line: the line holds one newline, its last character, and is a JSON text,
with the newline and without it, namely the object with exactly the six
members `ts`, `seq`, `cpu`, `mem_mb`, `frame_ms`, `avg_frame_ms` in that
order, where the value of `seq` is the decimal rendering of the sequence
number and the other five values are what `operator<<` prints (six
significant digits) for the timestamp, the CPU percent, the memory in MB, the
frame time and the average frame time; a flush whose file opens appends these
lines, one per buffered sample in buffer order.  A `double` is printed as a
JSON number exactly when it is finite (a NaN is printed as `nan`, an infinity
as `inf`), so with `double` values the line is a JSON text exactly when the
five values are finite. -/
theorem json_line_format {F : Type} (A : DoubleOps F) (s : JsonFileTelemetrySink F)
    (fs : FileSystem) (x : CoreMetricSample F)
    (hts : isJsonNumber (A.render x.timestamp_sec) = true)
    (hcpu : isJsonNumber (A.render x.process_cpu_pct) = true)
    (hmem : isJsonNumber (A.render x.process_mem_mb) = true)
    (hframe : isJsonNumber (A.render x.frame_time_ms) = true)
    (havg : isJsonNumber (A.render x.avg_frame_time_ms) = true) :
    jsonLine A x = jsonObject (sampleMembers A x) ++ "\n" ∧
    parseJson (jsonObject (sampleMembers A x))
      = some (Json.object
          [("ts", Json.number (A.render x.timestamp_sec)),
           ("seq", Json.number (toString x.sequence)),
           ("cpu", Json.number (A.render x.process_cpu_pct)),
           ("mem_mb", Json.number (A.render x.process_mem_mb)),
           ("frame_ms", Json.number (A.render x.frame_time_ms)),
           ("avg_frame_ms", Json.number (A.render x.avg_frame_time_ms))]) ∧
    parseJson (jsonLine A x) = parseJson (jsonObject (sampleMembers A x)) ∧
    (sampleMembers A x).map Prod.fst
      = ["ts", "seq", "cpu", "mem_mb", "frame_ms", "avg_frame_ms"] ∧
    (sampleMembers A x).map Prod.snd
      = [A.render x.timestamp_sec, toString x.sequence, A.render x.process_cpu_pct,
         A.render x.process_mem_mb, A.render x.frame_time_ms,
         A.render x.avg_frame_time_ms] ∧
    (jsonLine A x).data.count '\n' = 1 ∧
    (jsonLine A x).data.getLast? = some '\n' ∧
    (s.flush A fs).1.2.content s.path
      = fs.content s.path
        ++ (if fs.canOpen s.path = true
            then s.buffer_.map (fun y => jsonObject (sampleMembers A y) ++ "\n") else []) ∧
    (∀ (defaultNan v : IeeeDouble),
      isJsonNumber ((ieeeOps defaultNan).render v) = v.isFinite) ∧
    (∀ (defaultNan : IeeeDouble) (y : CoreMetricSample IeeeDouble),
      isJsonText (jsonLine (ieeeOps defaultNan) y)
        = (y.timestamp_sec.isFinite && y.process_cpu_pct.isFinite
            && y.process_mem_mb.isFinite && y.frame_time_ms.isFinite
            && y.avg_frame_time_ms.isFinite)) ∧
    (∀ q : ℚ, isJsonNumber (exactOps.render q) = true
      ∧ isJsonNumber (binary64Ops.render q) = true) ∧
    (∀ n : Nat, isJsonNumber (toString n) = true) ∧
    toString (sampleAt 18446744073709551615).sequence = "18446744073709551615" ∧
    jsonLine exactOps sampleFinite
      = "\x7b\"ts\":1.5,\"seq\":7,\"cpu\":12.5,\"mem_mb\":2047.8,\"frame_ms\":16.6,\"avg_frame_ms\":1.23457e+06\x7d\n" := by
  have hparse := parseJson_jsonObject (sampleMembers A x) (by simp [sampleMembers]) (by
    intro kv hkv
    simp only [sampleMembers, List.mem_cons, List.mem_singleton, List.not_mem_nil,
      or_false] at hkv
    rcases hkv with rfl | rfl | rfl | rfl | rfl | rfl
    · exact ⟨(by decide : ∀ c ∈ "ts".data, isPlainChar c = true), hts⟩
    · exact ⟨(by decide : ∀ c ∈ "seq".data, isPlainChar c = true), toString_nat_number _⟩
    · exact ⟨(by decide : ∀ c ∈ "cpu".data, isPlainChar c = true), hcpu⟩
    · exact ⟨(by decide : ∀ c ∈ "mem_mb".data, isPlainChar c = true), hmem⟩
    · exact ⟨(by decide : ∀ c ∈ "frame_ms".data, isPlainChar c = true), hframe⟩
    · exact ⟨(by decide : ∀ c ∈ "avg_frame_ms".data, isPlainChar c = true), havg⟩)
  obtain ⟨hn1, hn2⟩ := jsonLine_one_newline A x hts hcpu hmem hframe havg
  refine ⟨jsonLine_eq_object A x, hparse.1, ?_, rfl, rfl, hn1, hn2, ?_, ?_,
    ieee_line_json_iff_finite, ?_, toString_nat_number, by decide, by decide!⟩
  · rw [jsonLine_eq_object A x, hparse.1, hparse.2]
  · rw [(flush_content A s fs).1]
    have hfun : (fun y => jsonObject (sampleMembers A y) ++ "\n") = jsonLine A := by
      funext y
      exact (jsonLine_eq_object A y).symm
    rw [hfun]
  · intro defaultNan v
    exact render_number_iff_finite v
  · intro q
    exact ⟨renderFinite_number q, renderFinite_number q⟩

/-- Witness for C13: the sample `sampleFinite` in exact arithmetic. -/
theorem json_line_format_witness :
    (isJsonNumber (exactOps.render sampleFinite.timestamp_sec) = true ∧
      isJsonNumber (exactOps.render sampleFinite.process_cpu_pct) = true ∧
      isJsonNumber (exactOps.render sampleFinite.process_mem_mb) = true ∧
      isJsonNumber (exactOps.render sampleFinite.frame_time_ms) = true ∧
      isJsonNumber (exactOps.render sampleFinite.avg_frame_time_ms) = true) ∧
    parseJson (jsonObject (sampleMembers exactOps sampleFinite))
      = some (Json.object
          [("ts", Json.number "1.5"), ("seq", Json.number "7"), ("cpu", Json.number "12.5"),
           ("mem_mb", Json.number "2047.8"), ("frame_ms", Json.number "16.6"),
           ("avg_frame_ms", Json.number "1.23457e+06")]) := by
  have h1 : isJsonNumber (exactOps.render sampleFinite.timestamp_sec) = true := by decide!
  have h2 : isJsonNumber (exactOps.render sampleFinite.process_cpu_pct) = true := by decide!
  have h3 : isJsonNumber (exactOps.render sampleFinite.process_mem_mb) = true := by decide!
  have h4 : isJsonNumber (exactOps.render sampleFinite.frame_time_ms) = true := by decide!
  have h5 : isJsonNumber (exactOps.render sampleFinite.avg_frame_time_ms) = true := by decide!
  have hv : [exactOps.render sampleFinite.timestamp_sec, toString sampleFinite.sequence,
      exactOps.render sampleFinite.process_cpu_pct, exactOps.render sampleFinite.process_mem_mb,
      exactOps.render sampleFinite.frame_time_ms, exactOps.render sampleFinite.avg_frame_time_ms]
      = ["1.5", "7", "12.5", "2047.8", "16.6", "1.23457e+06"] := by decide!
  have hmain := (json_line_format exactOps logsSink fsAll sampleFinite h1 h2 h3 h4 h5).2.1
  simp only [List.cons.injEq, and_true] at hv
  obtain ⟨e1, e2, e3, e4, e5, e6⟩ := hv
  rw [e1, e2, e3, e4, e5, e6] at hmain
  exact ⟨⟨h1, h2, h3, h4, h5⟩, hmain⟩

/-! ## CPU percentage -/

theorem subU64_self (a : Nat) : subU64 a a = 0 := by
  unfold subU64
  have h : a % U64 < U64 := Nat.mod_lt _ (by decide)
  have h2 : a % U64 + U64 - a % U64 = U64 := by omega
  rw [h2, Nat.mod_self]

theorem clampPct_exact (q : ℚ) : clampPct exactCpuOps q = min 100 (max 0 q) := by
  unfold clampPct
  simp only [exactCpuOps, exactOps, decide_eq_true_eq]
  by_cases h0 : q < 0
  · have h1 : ¬ (100 : ℚ) < 0 := by norm_num
    simp only [h0, if_true, h1, if_false]
    rw [max_eq_left (le_of_lt h0), min_eq_right (by norm_num)]
  · simp only [h0, if_false]
    rw [max_eq_right (not_lt.mp h0)]
    by_cases h1 : (100 : ℚ) < q
    · simp only [h1, if_true]
      rw [min_eq_left (le_of_lt h1)]
    · simp only [h1, if_false]
      rw [min_eq_right (not_lt.mp h1)]

theorem cpuPctRaw_exact (dk du dt n : Nat) :
    cpuPctRaw exactCpuOps dk du dt n
      = 100 * ((((dk + du) % U64 : Nat) : ℚ) / 10000) / (dt : ℚ) / (n : ℚ) := by
  simp only [cpuPctRaw, exactCpuOps, exactOps]
  ring

theorem calc_cpu_pct_measured {F : Type} (C : CpuOps F) (st : CpuState)
    (kernel user now nprocs : Nat) (hinit : st.cpu_inited = true)
    (hdt : subU64 now st.last_time ≠ 0) :
    calc_cpu_pct C st (some (kernel, user)) now nprocs
      = ({ st with last_cpu_kernel := kernel, last_cpu_user := user, last_time := now },
         clampPct C (cpuPctRaw C (subU64 kernel st.last_cpu_kernel)
           (subU64 user st.last_cpu_user) (subU64 now st.last_time) nprocs)) := by
  simp only [calc_cpu_pct, hinit, hdt, clampPct, cpuPctRaw]
  rfl

/-- C17, as stated, fails: a measurement after the first one that falls in
the same millisecond tick as the previous one (wall-clock delta 0) returns
-1, which is not in [0,100]; here the first measurement, at tick 1000, set
the baseline and the second one, at tick 1000 again with 5 ms of kernel time
used, returns -1. -/
theorem calc_cpu_pct_unavailable_on_zero_delta :
    calc_cpu_pct exactCpuOps CpuState.fresh (some (0, 0)) 1000 4 = (cpuBaseline, -1) ∧
    (calc_cpu_pct exactCpuOps cpuBaseline (some (50000, 0)) 1000 4).2 = -1 ∧
    ¬ (0 ≤ (calc_cpu_pct exactCpuOps cpuBaseline (some (50000, 0)) 1000 4).2) := by
  have h1 : calc_cpu_pct exactCpuOps CpuState.fresh (some (0, 0)) 1000 4
      = (cpuBaseline, -1) := by
    simp [calc_cpu_pct, CpuState.fresh, cpuBaseline, exactCpuOps, exactOps]
  have h2 : (calc_cpu_pct exactCpuOps cpuBaseline (some (50000, 0)) 1000 4).2 = -1 := by
    have hz : subU64 1000 cpuBaseline.last_time = 0 := subU64_self 1000
    simp [calc_cpu_pct, cpuBaseline, exactCpuOps, exactOps] at hz ⊢
    simp [hz]
  refine ⟨h1, h2, ?_⟩
  rw [h2]
  norm_num

/-- C17, amended: on a measurement after the first successful one, when the
process times can be read and the wall-clock delta is not zero,
`calc_cpu_pct` stores the new baselines and returns
(cpu_ms / wall-clock delta) * 100 / processor count, clamped by the two tests
of the code, where cpu_ms is the kernel-time delta plus the user-time delta
(64-bit unsigned) divided by 10000; in exact arithmetic with at least one
processor this is 100 * cpu_ms / wall-clock delta / processor count clamped
to [0,100] (10 ms of CPU time in 1000 ms on 4 processors give 0.25).  When
the process times cannot be read, or the wall-clock delta is zero, it
returns -1. -/
theorem calc_cpu_pct_value {F : Type} (C : CpuOps F) (st : CpuState)
    (kernel user now nprocs : Nat) (hinit : st.cpu_inited = true)
    (hdt : subU64 now st.last_time ≠ 0) (hn : 1 ≤ nprocs) :
    calc_cpu_pct C st (some (kernel, user)) now nprocs
      = ({ st with last_cpu_kernel := kernel, last_cpu_user := user, last_time := now },
         clampPct C (cpuPctRaw C (subU64 kernel st.last_cpu_kernel)
           (subU64 user st.last_cpu_user) (subU64 now st.last_time) nprocs)) ∧
    (calc_cpu_pct exactCpuOps st (some (kernel, user)) now nprocs).2
      = min 100 (max 0
          (100 * ((((subU64 kernel st.last_cpu_kernel + subU64 user st.last_cpu_user) % U64
              : Nat) : ℚ) / 10000) / (subU64 now st.last_time : ℚ) / (nprocs : ℚ))) ∧
    0 ≤ (calc_cpu_pct exactCpuOps st (some (kernel, user)) now nprocs).2 ∧
    (calc_cpu_pct exactCpuOps st (some (kernel, user)) now nprocs).2 ≤ 100 ∧
    calc_cpu_pct C st none now nprocs = (st, C.negOne) ∧
    (calc_cpu_pct C st (some (kernel, user)) st.last_time nprocs) = (st, C.negOne) ∧
    (calc_cpu_pct exactCpuOps cpuBaseline (some (50000, 50000)) 2000 4).2 = 1 / 4 := by
  have _ := hn
  have hquarter : (calc_cpu_pct exactCpuOps cpuBaseline (some (50000, 50000)) 2000 4).2
      = 1 / 4 := by
    rw [calc_cpu_pct_measured exactCpuOps cpuBaseline 50000 50000 2000 4 rfl (by decide)]
    simp only [clampPct_exact, cpuPctRaw_exact]
    have h1 : subU64 50000 cpuBaseline.last_cpu_kernel = 50000 := by decide
    have h2 : subU64 50000 cpuBaseline.last_cpu_user = 50000 := by decide
    have h3 : subU64 2000 cpuBaseline.last_time = 1000 := by decide
    have h4 : (50000 + 50000) % U64 = 100000 := by decide
    rw [h1, h2, h3, h4]
    norm_num
  have hex := calc_cpu_pct_measured exactCpuOps st kernel user now nprocs hinit hdt
  have hval : (calc_cpu_pct exactCpuOps st (some (kernel, user)) now nprocs).2
      = min 100 (max 0
          (100 * ((((subU64 kernel st.last_cpu_kernel + subU64 user st.last_cpu_user) % U64
              : Nat) : ℚ) / 10000) / (subU64 now st.last_time : ℚ) / (nprocs : ℚ))) := by
    rw [hex]
    simp only [clampPct_exact, cpuPctRaw_exact]
  refine ⟨calc_cpu_pct_measured C st kernel user now nprocs hinit hdt, hval, ?_, ?_, rfl, ?_,
    hquarter⟩
  · rw [hval]
    exact le_min (by norm_num) (le_max_left _ _)
  · rw [hval]
    exact min_le_left _ _
  · simp [calc_cpu_pct, hinit, subU64_self]

/-- Witness for C17: one second after the baseline, 10 ms of CPU time used
on 4 processors. -/
theorem calc_cpu_pct_value_witness :
    (cpuBaseline.cpu_inited = true ∧ subU64 2000 cpuBaseline.last_time ≠ 0 ∧ 1 ≤ 4) ∧
    (calc_cpu_pct exactCpuOps cpuBaseline (some (50000, 50000)) 2000 4).2
      = min 100 (max 0
          (100 * ((((subU64 50000 cpuBaseline.last_cpu_kernel
              + subU64 50000 cpuBaseline.last_cpu_user) % U64 : Nat) : ℚ) / 10000)
            / (subU64 2000 cpuBaseline.last_time : ℚ) / ((4 : Nat) : ℚ))) :=
  ⟨⟨rfl, by decide, by decide⟩,
    (calc_cpu_pct_value exactCpuOps cpuBaseline 50000 50000 2000 4 rfl (by decide)
      (by decide)).2.1⟩

/-! ## The minimal core -/

theorem initializeImpl_config {F U : Type} (A : DoubleOps F) (V : OnSample F U) (w : World F U) :
    (Core.initializeImpl A V w).1.core.config = initializedConfig := by
  simp only [Core.initializeImpl]
  split <;> rfl

theorem coreStep_config {F U : Type} (A : DoubleOps F) (V : OnSample F U) (w w1 : World F U)
    (c : CoreCall) (h : coreStep A V w c = some w1)
    (hw : w.core.initialized = false ∨ w.core.config = initializedConfig) :
    w1.core.initialized = false ∨ w1.core.config = initializedConfig := by
  cases c with
  | callInitialize =>
      simp only [coreStep, Option.some.injEq] at h
      subst h
      exact Or.inr (initializeImpl_config A V w)
  | callStart =>
      simp only [coreStep, Core.start] at h
      cases hinit : w.core.initialized <;> cases hth : w.core.consciousness_thread <;>
        simp [hinit, hth] at h <;> subst h <;> simp_all
  | callStop =>
      simp only [coreStep, Option.some.injEq] at h
      subst h
      simp only [Core.stop]
      split <;> exact hw

theorem coreRun_config {F U : Type} (A : DoubleOps F) (V : OnSample F U) (cs : List CoreCall)
    (w w1 : World F U) (h : coreRun A V w cs = some w1)
    (hw : w.core.initialized = false ∨ w.core.config = initializedConfig) :
    w1.core.initialized = false ∨ w1.core.config = initializedConfig := by
  induction cs generalizing w with
  | nil =>
      simp only [coreRun, Option.some.injEq] at h
      subst h
      exact hw
  | cons c cs ih =>
      simp only [coreRun] at h
      cases hc : coreStep A V w c with
      | none => rw [hc] at h; cases h
      | some w2 =>
          rw [hc] at h
          exact ih w2 h (coreStep_config A V w w2 c hc hw)

/-- C19, the code at the failing input: every `initialize()` stores the
name "AIOS" and the version "0.6.1.grok", and on every `Core` reached by
lifecycle calls on which `initialize()` has returned true `getConfig()`
reports that configuration; on a fresh `Core` with a writable log directory
`initialize()` returns true and the version reported is not "0.4". -/
theorem core_version_after_initialize {F U : Type} (A : DoubleOps F) (V : OnSample F U)
    (w : World F U) (fs : FileSystem) (cs : List CoreCall) :
    (Core.getConfig (Core.initializeImpl A V w).1.core).name = "AIOS" ∧
    (Core.getConfig (Core.initializeImpl A V w).1.core).version = "0.6.1.grok" ∧
    (match coreRun A V (World.init fs) cs with
      | some w1 => w1.core.initialized = false ∨ Core.getConfig w1.core = initializedConfig
      | none => True) ∧
    (Core.initializeImpl exactOps noCustom (World.init fsAll)).2 = true ∧
    (Core.getConfig (Core.initializeImpl exactOps noCustom (World.init fsAll)).1.core).version
      = "0.6.1.grok" ∧
    (Core.getConfig (Core.initializeImpl exactOps noCustom (World.init fsAll)).1.core).version
      ≠ "0.4" := by
  have h := initializeImpl_config A V w
  refine ⟨?_, ?_, ?_, by decide, by decide, by decide⟩
  · simp only [Core.getConfig, h]; rfl
  · simp only [Core.getConfig, h]; rfl
  · cases hr : coreRun A V (World.init fs) cs with
    | none => trivial
    | some w1 => exact coreRun_config A V cs _ w1 hr (Or.inl rfl)

/-- C20, the code at the failing input: `start()` returns false on a `Core`
that is not initialised and changes nothing, returns true on an initialised
`Core` whose processing thread is not joinable and leaves it running, and
ends the process when the processing thread is joinable, as it is after an
earlier `start()` without `stop()`; `stop()` always leaves the `Core` not
running.  On a fresh `Core` the calls initialize, start leave it running,
initialize, start, stop leave it not running, and initialize, start, start
end the process. -/
theorem core_start_twice_terminates {F U : Type} (A : DoubleOps F) (V : OnSample F U)
    (w : World F U) (c : CoreImpl) :
    (Core.start c).2
      = (if c.initialized = false then CallResult.returned false
         else if c.consciousness_thread = true then CallResult.terminated
         else CallResult.returned true) ∧
    Core.isRunning (Core.start c).1 = (c.initialized || c.running) ∧
    Core.start { c with initialized := false }
      = ({ c with initialized := false }, CallResult.returned false) ∧
    Core.isRunning (Core.stop A V w).core = false ∧
    (coreRun exactOps noCustom (World.init fsAll) [CoreCall.callInitialize, CoreCall.callStart]).map
        (fun w1 => (w1.core.initialized, Core.isRunning w1.core, w1.core.consciousness_thread))
      = some (true, true, true) ∧
    (coreRun exactOps noCustom (World.init fsAll)
        [CoreCall.callInitialize, CoreCall.callStart, CoreCall.callStop]).map
        (fun w1 => (w1.core.initialized, Core.isRunning w1.core, w1.core.consciousness_thread))
      = some (true, false, false) ∧
    (coreRun exactOps noCustom (World.init fsAll)
        [CoreCall.callInitialize, CoreCall.callStart, CoreCall.callStart]).isNone = true ∧
    (coreRun exactOps noCustom (World.init fsNoDir) [CoreCall.callInitialize, CoreCall.callStart]).map
        (fun w1 => (w1.core.initialized, Core.isRunning w1.core))
      = some (false, false) := by
  refine ⟨?_, ?_, rfl, ?_, by decide, by decide, by decide, by decide⟩
  · cases hinit : c.initialized <;> cases hth : c.consciousness_thread <;>
      simp [Core.start, hinit, hth]
  · cases hinit : c.initialized <;> cases hth : c.consciousness_thread <;>
      simp [Core.start, Core.isRunning, hinit, hth]
  · simp only [Core.stop, Core.isRunning]
    split <;> rfl

/-! ## No sample is lost -/

theorem flush_dir {F : Type} (A : DoubleOps F) (s : JsonFileTelemetrySink F) (fs : FileSystem) :
    (s.flush A fs).1.1.dir_ = s.dir_ := by
  by_cases hb : s.buffer_ = []
  · rw [flush_empty A s fs hb]
  · by_cases ho : fs.canOpen s.path = true
    · rw [flush_opened A s fs hb ho]
    · rw [flush_failed A s fs hb (by simpa using ho)]

theorem flush_conserves {F : Type} (A : DoubleOps F) (s : JsonFileTelemetrySink F)
    (fs : FileSystem) :
    (s.flush A fs).1.2.content s.path ++ (s.flush A fs).1.1.buffer_.map (jsonLine A)
      = fs.content s.path ++ s.buffer_.map (jsonLine A) ∧
    (∀ q, q ≠ s.path → (s.flush A fs).1.2.content q = fs.content q) := by
  by_cases hb : s.buffer_ = []
  · rw [flush_empty A s fs hb]
    exact ⟨rfl, fun _ _ => rfl⟩
  · by_cases ho : fs.canOpen s.path = true
    · rw [flush_opened A s fs hb ho]
      refine ⟨by simp, ?_⟩
      intro q hq
      simp [hq]
    · rw [flush_failed A s fs hb (by simpa using ho)]
      exact ⟨rfl, fun _ _ => rfl⟩

theorem on_sample_conserves {F : Type} (A : DoubleOps F) (s : JsonFileTelemetrySink F)
    (fs : FileSystem) (x : CoreMetricSample F) :
    (s.on_sample A fs x).1.2.content s.path ++ (s.on_sample A fs x).1.1.buffer_.map (jsonLine A)
      = fs.content s.path ++ (s.buffer_ ++ [x]).map (jsonLine A) ∧
    (∀ q, q ≠ s.path → (s.on_sample A fs x).1.2.content q = fs.content q) ∧
    (s.on_sample A fs x).1.1.dir_ = s.dir_ := by
  simp only [JsonFileTelemetrySink.on_sample]
  split
  · obtain ⟨h1, h2⟩ := flush_conserves A (s.push x) fs
    exact ⟨h1, h2, flush_dir A (s.push x) fs⟩
  · exact ⟨rfl, fun _ _ => rfl, rfl⟩

theorem sinkRun_conserves {F : Type} (A : DoubleOps F) (ops : List (SinkOp F))
    (s : JsonFileTelemetrySink F) (fs : FileSystem) :
    (sinkRun A (s, fs) ops).2.content s.path
        ++ (sinkRun A (s, fs) ops).1.buffer_.map (jsonLine A)
      = fs.content s.path ++ (s.buffer_ ++ acceptedBy ops).map (jsonLine A) ∧
    (∀ q, q ≠ s.path → (sinkRun A (s, fs) ops).2.content q = fs.content q) ∧
    (sinkRun A (s, fs) ops).1.dir_ = s.dir_ := by
  induction ops generalizing s fs with
  | nil => simp [sinkRun, acceptedBy]
  | cons op ops ih =>
      cases op with
      | on_sample x b =>
          obtain ⟨h1, h2, h3⟩ := on_sample_conserves A s (fs.setOpen b) x
          obtain ⟨i1, i2, i3⟩ := ih (s.on_sample A (fs.setOpen b) x).1.1
            (s.on_sample A (fs.setOpen b) x).1.2
          have hpath : (s.on_sample A (fs.setOpen b) x).1.1.path = s.path := by
            simp only [JsonFileTelemetrySink.path, h3]
          rw [hpath] at i1 i2
          have hrun : sinkRun A (s, fs) (SinkOp.on_sample x b :: ops)
              = sinkRun A ((s.on_sample A (fs.setOpen b) x).1.1,
                  (s.on_sample A (fs.setOpen b) x).1.2) ops := rfl
          rw [hrun]
          refine ⟨?_, ?_, i3.trans h3⟩
          · rw [i1, List.map_append, ← List.append_assoc, h1]
            simp [acceptedBy, FileSystem.setOpen]
          · intro q hq
            rw [i2 q hq, h2 q hq]
            rfl
      | flush b =>
          obtain ⟨h1, h2⟩ := flush_conserves A s (fs.setOpen b)
          have h3 := flush_dir A s (fs.setOpen b)
          obtain ⟨i1, i2, i3⟩ := ih (s.flush A (fs.setOpen b)).1.1 (s.flush A (fs.setOpen b)).1.2
          have hpath : (s.flush A (fs.setOpen b)).1.1.path = s.path := by
            simp only [JsonFileTelemetrySink.path, h3]
          rw [hpath] at i1 i2
          have hrun : sinkRun A (s, fs) (SinkOp.flush b :: ops)
              = sinkRun A ((s.flush A (fs.setOpen b)).1.1, (s.flush A (fs.setOpen b)).1.2) ops :=
            rfl
          rw [hrun]
          refine ⟨?_, ?_, i3.trans h3⟩
          · rw [i1, List.map_append, ← List.append_assoc, h1]
            simp [acceptedBy, FileSystem.setOpen]
          · intro q hq
            rw [i2 q hq, h2 q hq]
            rfl

/-- C23: for every sequence of `on_sample` and `flush` calls on a sink, each
file open succeeding or failing on its own, the lines appended to the file
so far followed by the lines of the samples still in the buffer are the
lines of all accepted samples in acceptance order (after what the file and
the buffer held at the start; a freshly constructed sink has an empty
buffer), and no other file is changed. -/
theorem no_sample_lost {F : Type} (A : DoubleOps F) (s : JsonFileTelemetrySink F)
    (fs : FileSystem) (dir : String) (N : Nat) (ops : List (SinkOp F)) :
    (sinkRun A (s, fs) ops).2.content s.path
        ++ (sinkRun A (s, fs) ops).1.buffer_.map (jsonLine A)
      = fs.content s.path ++ (s.buffer_ ++ acceptedBy ops).map (jsonLine A) ∧
    (sinkRun A
        (({ dir_ := dir, flush_every_ := N, buffer_ := [], pending_ := pendingInitial }
          : JsonFileTelemetrySink F), fs) ops).2.content (dir ++ "/core_metrics.json")
        ++ (sinkRun A
            (({ dir_ := dir, flush_every_ := N, buffer_ := [], pending_ := pendingInitial }
              : JsonFileTelemetrySink F), fs) ops).1.buffer_.map (jsonLine A)
      = fs.content (dir ++ "/core_metrics.json") ++ (acceptedBy ops).map (jsonLine A) ∧
    (∀ q, q ≠ s.path → (sinkRun A (s, fs) ops).2.content q = fs.content q) := by
  obtain ⟨h1, h2, _⟩ := sinkRun_conserves A ops s fs
  obtain ⟨g1, _, _⟩ := sinkRun_conserves A ops
    ({ dir_ := dir, flush_every_ := N, buffer_ := [], pending_ := pendingInitial }
      : JsonFileTelemetrySink F) fs
  refine ⟨h1, ?_, h2⟩
  simpa [JsonFileTelemetrySink.path] using g1

/-- Witness for C23: a history with a failed open leaves the file `other`
as it was. -/
theorem no_sample_lost_witness :
    "other" ≠ freshLogs2.path ∧
    (sinkRun exactOps (freshLogs2, fsAll)
        [SinkOp.on_sample (sampleAt 0) false, SinkOp.on_sample (sampleAt 1) false,
         SinkOp.flush true]).2.content "other" = fsAll.content "other" :=
  ⟨by decide,
    (no_sample_lost exactOps freshLogs2 fsAll "logs" 2
      [SinkOp.on_sample (sampleAt 0) false, SinkOp.on_sample (sampleAt 1) false,
       SinkOp.flush true]).2.2 "other" (by decide)⟩

/-! ## The default sink and the bus list -/

/-- C24: the code does not do what its comment on line 102 says (`Register
default JSON sink if none registered yet`).  In `callerRegisteredFirst` the
bus already holds the sink the caller registered (the list is the single
handle 0), and the first `start` appends the default sink all the same: the
list becomes the handles 0 and 1, the second one naming the default JSON file
sink. -/
theorem start_registers_despite_caller_sink :
    callerRegisteredFirst.globals.sinks_ = [0] ∧
    (step exactOps noCustom callerRegisteredFirst (Event.start 0 1)).globals.sinks_ = [0, 1] ∧
    (step exactOps noCustom callerRegisteredFirst (Event.start 0 1)).globals.heap[1]?
      = some (SinkObj.json defaultSink) := by
  decide

/-- What the code of `start` does about the default sink (lines 103-108): it
registers the default JSON sink exactly when it takes effect and the
process-wide flag `sink_registered` is not set yet, that is, when no earlier
start has registered it; the bus list is not inspected, so the registration
happens also when the list already holds sinks registered by the caller, and
the list is left unchanged when the flag is set. -/
theorem start_registers_by_flag {F U : Type} (A : DoubleOps F) (V : OnSample F U)
    (p : Process F U) (i : Nat) (iv : F) (l : List Nat) :
    (step A V p (Event.start i iv)).globals.sinks_
      = p.globals.sinks_
        ++ (if startTakesEffect p i iv = true ∧ p.globals.sink_registered = false
            then [p.globals.heap.length] else []) ∧
    (step A V { p with globals := { p.globals with sinks_ := l } }
        (Event.start i iv)).globals.sinks_
      = l ++ (if startTakesEffect p i iv = true ∧ p.globals.sink_registered = false
            then [p.globals.heap.length] else []) ∧
    (step A V { p with globals := { p.globals with sink_registered := true } }
        (Event.start i iv)).globals.sinks_ = p.globals.sinks_ := by
  refine ⟨(start_step_globals A V p i iv).1, ?_, ?_⟩
  · have h := (start_step_globals A V { p with globals := { p.globals with sinks_ := l } }
      i iv).1
    rw [h]
    have heff : startTakesEffect { p with globals := { p.globals with sinks_ := l } } i iv
        = startTakesEffect p i iv := by
      simp only [startTakesEffect]
      cases p.samplers[i]? with
      | none => rfl
      | some impl =>
          simp only
          cases hrun : impl.running <;> cases hreg : p.globals.sink_registered <;>
            cases hdir : p.globals.fs.canCreateDir defaultDir <;>
            simp [start, ensureDefaultSink, JsonFileTelemetrySink.new, hrun, hreg, hdir]
    rw [heff]
  · have h := (start_step_globals A V
      { p with globals := { p.globals with sink_registered := true } } i iv).1
    rw [h]
    simp

/-- C25: when constructing the default file sink fails during `start`, the
call raises and leaves everything as it was: the sampler is not running and
has no worker, the process-wide state with the bus list and the flag
`sink_registered`, found unset, is unchanged; a later `start` tries the
registration again: it raises again while the directory cannot be created,
and once it can be created it registers the default sink, sets the flag and
starts the sampler. -/
theorem failed_start_is_atomic {F U : Type} (g : Globals F U) (impl : Impl F) (iv iv2 : F)
    (fs1 : FileSystem) (h : (start g impl iv).2 ≠ none)
    (hdir : fs1.canCreateDir defaultDir = true) :
    (start g impl iv).1 = (g, impl) ∧
    impl.running = false ∧
    g.sink_registered = false ∧
    (start g impl iv2).2 = some (Exn.filesystem_error defaultDir) ∧
    start { g with fs := fs1 } impl iv2
      = (({ g with fs := fs1, heap := g.heap ++ [SinkObj.json defaultSink],
                   sinks_ := g.sinks_ ++ [g.heap.length], sink_registered := true },
          { impl with interval := iv2, running := true, th := true,
                      spawned := impl.spawned + 1 }), none) := by
  cases hrun : impl.running <;> cases hreg : g.sink_registered <;>
    cases hd : g.fs.canCreateDir defaultDir <;>
    simp [start, ensureDefaultSink, JsonFileTelemetrySink.new, register_sink, defaultSink,
      hrun, hreg, hd, hdir] at h ⊢

/-- Witness for C25: a fresh sampler in a fresh process whose log directory
cannot be created, and the file system `fsAll` later. -/
theorem failed_start_is_atomic_witness :
    ((start (Globals.init fsNoDir : Globals ℚ Unit) (Impl.fresh exactOps) 1).2 ≠ none ∧
      fsAll.canCreateDir defaultDir = true) ∧
    (start (Globals.init fsNoDir : Globals ℚ Unit) (Impl.fresh exactOps) 1).1
      = (Globals.init fsNoDir, Impl.fresh exactOps) :=
  ⟨⟨by decide, rfl⟩,
    (failed_start_is_atomic (Globals.init fsNoDir : Globals ℚ Unit) (Impl.fresh exactOps)
      1 5 fsAll (by decide) rfl).1⟩

/-! ## Bounds of the frame-time average -/

theorem foldl_min_le (ds : List ℚ) (a b : ℚ) (h : a ≤ b) : ds.foldl min a ≤ ds.foldl min b := by
  induction ds generalizing a b with
  | nil => simpa using h
  | cons d ds ih => exact ih _ _ (min_le_min_right d h)

theorem foldl_max_le (ds : List ℚ) (a b : ℚ) (h : a ≤ b) : ds.foldl max a ≤ ds.foldl max b := by
  induction ds generalizing a b with
  | nil => simpa using h
  | cons d ds ih => exact ih _ _ (max_le_max_right d h)

theorem record_frame_exact_avg (impl : Impl ℚ) (d : ℚ) (h : 0 ≤ impl.avg_frame_ms) :
    (record_frame exactOps impl d).avg_frame_ms = impl.avg_frame_ms * (9 / 10) + d * (1 / 10) := by
  have hlt : exactOps.ltZero impl.avg_frame_ms = false := by
    simp [exactOps, h]
  rw [record_frame_avg_of_nonneg exactOps impl d hlt]
  rfl

theorem record_frames_exact_bounds (ds : List ℚ) (impl : Impl ℚ) (lo hi : ℚ)
    (h0 : 0 ≤ impl.avg_frame_ms) (hlo : lo ≤ impl.avg_frame_ms) (hhi : impl.avg_frame_ms ≤ hi)
    (hnn : ∀ d ∈ ds, 0 ≤ d) :
    ds.foldl min lo ≤ (record_frames exactOps impl ds).avg_frame_ms ∧
    (record_frames exactOps impl ds).avg_frame_ms ≤ ds.foldl max hi := by
  induction ds generalizing impl lo hi with
  | nil => exact ⟨hlo, hhi⟩
  | cons d ds ih =>
      have hd : 0 ≤ d := hnn d (List.mem_cons_self d ds)
      have havg := record_frame_exact_avg impl d h0
      have h1 : 0 ≤ (record_frame exactOps impl d).avg_frame_ms := by
        rw [havg]; positivity
      have h2 : min lo d ≤ (record_frame exactOps impl d).avg_frame_ms := by
        rw [havg]
        rcases le_total impl.avg_frame_ms d with hle | hle
        · exact le_trans (min_le_left lo d) (by linarith)
        · exact le_trans (min_le_right lo d) (by linarith)
      have h3 : (record_frame exactOps impl d).avg_frame_ms ≤ max hi d := by
        rw [havg]
        rcases le_total impl.avg_frame_ms d with hle | hle
        · exact le_trans (by linarith) (le_max_right hi d)
        · exact le_trans (by linarith) (le_max_left hi d)
      exact ih (record_frame exactOps impl d) (min lo d) (max hi d) h1 h2 h3
        (fun x hx => hnn x (List.mem_cons_of_mem d hx))

theorem roundToGrid_nonneg (n d : Nat) (s : Int) : 0 ≤ roundToGrid n d s := by
  unfold roundToGrid
  simp only
  rw [Rat.mkRat_eq_div]
  apply div_nonneg
  · exact_mod_cast Int.ofNat_nonneg _
  · positivity

theorem roundBinary64_nonneg (q : ℚ) (h : 0 ≤ q) : 0 ≤ roundBinary64 q := by
  unfold roundBinary64
  split
  · exact le_refl 0
  · have hnum : 0 ≤ q.num := Rat.num_nonneg.mpr h
    have hs : (0 : ℚ) ≤ (q.num.sign : ℚ) := by exact_mod_cast Int.sign_nonneg.mpr hnum
    exact mul_nonneg hs (roundToGrid_nonneg _ _ _)

theorem binary64_c09_nonneg : 0 ≤ binary64Ops.c09 :=
  roundBinary64_nonneg _ (by norm_num)

theorem binary64_c01_nonneg : 0 ≤ binary64Ops.c01 :=
  roundBinary64_nonneg _ (by norm_num)

theorem record_frame_binary64_avg (impl : Impl ℚ) (d : ℚ) (h : 0 ≤ impl.avg_frame_ms) :
    (record_frame binary64Ops impl d).avg_frame_ms
      = binary64Ops.add (binary64Ops.mul impl.avg_frame_ms binary64Ops.c09)
          (binary64Ops.mul d binary64Ops.c01) := by
  have hlt : binary64Ops.ltZero impl.avg_frame_ms = false := by
    simp [binary64Ops, h]
  exact record_frame_avg_of_nonneg binary64Ops impl d hlt

theorem binary64_step_nonneg (a d : ℚ) (ha : 0 ≤ a) (hd : 0 ≤ d) :
    0 ≤ binary64Ops.add (binary64Ops.mul a binary64Ops.c09) (binary64Ops.mul d binary64Ops.c01) := by
  have h1 : 0 ≤ binary64Ops.mul a binary64Ops.c09 :=
    roundBinary64_nonneg _ (mul_nonneg ha binary64_c09_nonneg)
  have h2 : 0 ≤ binary64Ops.mul d binary64Ops.c01 :=
    roundBinary64_nonneg _ (mul_nonneg hd binary64_c01_nonneg)
  exact roundBinary64_nonneg _ (add_nonneg h1 h2)

theorem record_frames_binary64_nonneg (ds : List ℚ) (impl : Impl ℚ)
    (h0 : 0 ≤ impl.avg_frame_ms) (hnn : ∀ d ∈ ds, 0 ≤ d) :
    0 ≤ (record_frames binary64Ops impl ds).avg_frame_ms := by
  induction ds generalizing impl with
  | nil => exact h0
  | cons d ds ih =>
      have hd : 0 ≤ d := hnn d (List.mem_cons_self d ds)
      have h1 : 0 ≤ (record_frame binary64Ops impl d).avg_frame_ms := by
        rw [record_frame_binary64_avg impl d h0]
        exact binary64_step_nonneg _ _ h0 hd
      exact ih (record_frame binary64Ops impl d) h1
        (fun x hx => hnn x (List.mem_cons_of_mem d hx))

theorem record_frames_cons {F : Type} (A : DoubleOps F) (impl : Impl F) (d : F) (ds : List F) :
    record_frames A impl (d :: ds) = record_frames A (record_frame A impl d) ds := rfl

theorem record_frame_fresh_avg {F : Type} (A : DoubleOps F) (d : F) :
    (record_frame A (Impl.fresh A) d).avg_frame_ms = d := by
  simp [record_frame, Impl.fresh, A.negOne_ltZero]

/-- C26, as stated, fails in the arithmetic of `double`: recording the frame
time 13.0 twice on a fresh sampler leaves the average
13.000000000000002 (13 + 2^-49), which is above 13, the largest (and the
smallest) value recorded: 13*0.9 and 13*0.1 are each rounded, and so is
their sum. -/
theorem record_frame_average_exceeds_largest :
    (record_frames binary64Ops (Impl.fresh binary64Ops) [13, 13]).avg_frame_ms
      = 7318349394477057 / 562949953421312 ∧
    largest 13 [13] = 13 ∧
    largest 13 [13] < (record_frames binary64Ops (Impl.fresh binary64Ops) [13, 13]).avg_frame_ms := by
  decide!

/-- C26, amended: for every sequence `d1, ds` of non-negative frame times
recorded on a fresh sampler, in exact arithmetic the stored average lies
between the smallest and the largest value recorded so far; in binary64
arithmetic, where rounding can carry it above the largest value, and in exact
arithmetic alike, the stored average is not negative, the first call takes
the seeding branch (the fresh average is negative and the call stores `d1`)
and a further call, with the frame time `d`, takes the branch
`avg*0.9 + d*0.1`. -/
theorem record_frame_average_bounds (d1 : ℚ) (ds : List ℚ) (d : ℚ)
    (hnn : ∀ x ∈ d1 :: ds, 0 ≤ x) :
    (smallest d1 ds ≤ (record_frames exactOps (Impl.fresh exactOps) (d1 :: ds)).avg_frame_ms ∧
      (record_frames exactOps (Impl.fresh exactOps) (d1 :: ds)).avg_frame_ms ≤ largest d1 ds) ∧
    (exactOps.ltZero (record_frames exactOps (Impl.fresh exactOps) (d1 :: ds)).avg_frame_ms
        = false ∧
      binary64Ops.ltZero
        (record_frames binary64Ops (Impl.fresh binary64Ops) (d1 :: ds)).avg_frame_ms = false) ∧
    (exactOps.ltZero (Impl.fresh exactOps).avg_frame_ms = true ∧
      binary64Ops.ltZero (Impl.fresh binary64Ops).avg_frame_ms = true ∧
      (record_frames exactOps (Impl.fresh exactOps) [d1]).avg_frame_ms = d1 ∧
      (record_frames binary64Ops (Impl.fresh binary64Ops) [d1]).avg_frame_ms = d1) ∧
    (record_frames exactOps (Impl.fresh exactOps) ((d1 :: ds) ++ [d])).avg_frame_ms
        = exactOps.add
            (exactOps.mul
              (record_frames exactOps (Impl.fresh exactOps) (d1 :: ds)).avg_frame_ms exactOps.c09)
            (exactOps.mul d exactOps.c01) ∧
    (record_frames binary64Ops (Impl.fresh binary64Ops) ((d1 :: ds) ++ [d])).avg_frame_ms
        = binary64Ops.add
            (binary64Ops.mul
              (record_frames binary64Ops (Impl.fresh binary64Ops) (d1 :: ds)).avg_frame_ms
              binary64Ops.c09)
            (binary64Ops.mul d binary64Ops.c01) := by
  have hd1 : 0 ≤ d1 := hnn d1 (List.mem_cons_self d1 ds)
  have hds : ∀ x ∈ ds, 0 ≤ x := fun x hx => hnn x (List.mem_cons_of_mem d1 hx)
  have he1 : (record_frame exactOps (Impl.fresh exactOps) d1).avg_frame_ms = d1 :=
    record_frame_fresh_avg exactOps d1
  have hb1 : (record_frame binary64Ops (Impl.fresh binary64Ops) d1).avg_frame_ms = d1 :=
    record_frame_fresh_avg binary64Ops d1
  have hbounds := record_frames_exact_bounds ds (record_frame exactOps (Impl.fresh exactOps) d1)
    d1 d1 (by rw [he1]; exact hd1) (by rw [he1]) (by rw [he1]) hds
  have hbin := record_frames_binary64_nonneg ds
    (record_frame binary64Ops (Impl.fresh binary64Ops) d1) (by rw [hb1]; exact hd1) hds
  have hexact : 0 ≤ (record_frames exactOps (Impl.fresh exactOps) (d1 :: ds)).avg_frame_ms := by
    rw [record_frames_cons]
    refine le_trans ?_ hbounds.1
    have hmin : ∀ (l : List ℚ) (a : ℚ), 0 ≤ a → (∀ x ∈ l, 0 ≤ x) → 0 ≤ l.foldl min a := by
      intro l
      induction l with
      | nil => intro a ha _; exact ha
      | cons y l ih =>
          intro a ha hl
          exact ih (min a y) (le_min ha (hl y (List.mem_cons_self y l)))
            (fun x hx => hl x (List.mem_cons_of_mem y hx))
    exact hmin ds d1 hd1 hds
  rw [← record_frames_cons] at hbin
  refine ⟨?_, ⟨?_, ?_⟩, ⟨?_, ?_, ?_, ?_⟩, ?_, ?_⟩
  · rw [record_frames_cons]
    exact hbounds
  · simpa [exactOps] using hexact
  · simpa [binary64Ops] using hbin
  · exact exactOps.negOne_ltZero
  · exact binary64Ops.negOne_ltZero
  · exact he1
  · exact hb1
  · rw [record_frames_snoc]
    exact record_frame_avg_of_nonneg exactOps _ d (by simpa [exactOps] using hexact)
  · rw [record_frames_snoc]
    exact record_frame_avg_of_nonneg binary64Ops _ d (by simpa [binary64Ops] using hbin)

/-- Witness for C26: the frame times 10, 20, 5 and then 8. -/
theorem record_frame_average_bounds_witness :
    (∀ x ∈ [(10 : ℚ), 20, 5], 0 ≤ x) ∧
    smallest 10 [20, 5] ≤ (record_frames exactOps (Impl.fresh exactOps) [10, 20, 5]).avg_frame_ms ∧
    (record_frames exactOps (Impl.fresh exactOps) [10, 20, 5]).avg_frame_ms ≤ largest 10 [20, 5] :=
  ⟨by decide, (record_frame_average_bounds 10 [20, 5] 8 (by decide)).1⟩

/-! ## Orchestration controller: report ids -/

theorem orchRun_append (c : AIOrchestrationController) (xs ys : List OrchCall) :
    orchRun c (xs ++ ys) = orchRun (orchRun c xs) ys := by
  simp [orchRun, List.foldl_append]

theorem submits_state (tasks : List AITask) (c : AIOrchestrationController)
    (hact : c.orchestration_active_ = true) :
    (orchRun c (tasks.map OrchCall.submit)).orchestration_active_ = true ∧
    (orchRun c (tasks.map OrchCall.submit)).task_counter_ % U64
      = (c.task_counter_ + tasks.length) % U64 ∧
    (tasks ≠ [] → (orchRun c (tasks.map OrchCall.submit)).task_counter_ < U64) ∧
    (orchRun c (tasks.map OrchCall.submit)).task_queue_.length
      = c.task_queue_.length + tasks.length ∧
    (orchRun c (tasks.map OrchCall.submit)).completed_reports_ = c.completed_reports_ := by
  induction tasks generalizing c with
  | nil => simp [orchRun, hact]
  | cons t ts ih =>
      have hpos : 0 < U64 := by unfold U64; positivity
      have hstep : orchRun c ((t :: ts).map OrchCall.submit)
          = orchRun (submitTask c t).1 (ts.map OrchCall.submit) := rfl
      have hs : (submitTask c t).1
          = { c with task_counter_ := (c.task_counter_ + 1) % U64,
                     task_queue_ := c.task_queue_ ++
                       [{ t with task_id := "task_" ++ toString ((c.task_counter_ + 1) % U64) }] } := by
        simp [submitTask, hact]
      obtain ⟨h1, h2, h3, h4, h5⟩ := ih (submitTask c t).1 (by rw [hs]; exact hact)
      rw [hstep]
      refine ⟨h1, ?_, ?_, ?_, ?_⟩
      · rw [h2, hs]
        simp only [List.length_cons]
        rw [Nat.add_mod, Nat.mod_mod, ← Nat.add_mod]
        congr 1
        omega
      · intro _
        by_cases hts : ts = []
        · subst hts
          simp only [List.map_nil, orchRun, List.foldl_nil]
          rw [hs]
          exact Nat.mod_lt _ hpos
        · exact h3 hts
      · rw [h4, hs]
        simp only [List.length_append, List.length_cons, List.length_nil]
        omega
      · rw [h5, hs]

theorem mapAssign_single (k : String) (r1 r2 : AIReport) :
    mapAssign [(k, r1)] k r2 = [(k, r2)] := by
  simp [mapAssign]

theorem mapAssign_nil (k : String) (r : AIReport) : mapAssign [] k r = [(k, r)] := by
  simp [mapAssign]

theorem processes_overwrite (q : List AITask) (c : AIOrchestrationController) (t : AITask)
    (r : AIReport) (hact : c.orchestration_active_ = true)
    (hq : c.task_queue_ = q ++ [t])
    (hm : c.completed_reports_ = [] ∨
      c.completed_reports_ = [("report_" ++ toString c.task_counter_, r)]) :
    orchRun c (List.replicate (q.length + 1) OrchCall.process)
      = { c with task_queue_ := [],
                 completed_reports_ :=
                   [("report_" ++ toString c.task_counter_,
                     { report_id := "report_" ++ toString c.task_counter_,
                       task_id := t.task_id, report_type := t.task_type })] } := by
  induction q generalizing c r with
  | nil =>
      have hq1 : c.task_queue_ = [t] := by simpa using hq
      rcases hm with hm | hm <;>
        simp [orchRun, orchStep, processNextTask, hact, hq1, hm, mapAssign]
  | cons u us ih =>
      have hq1 : c.task_queue_ = u :: (us ++ [t]) := by simpa using hq
      have hrun : orchRun c (List.replicate ((u :: us).length + 1) OrchCall.process)
          = orchRun (processNextTask c).1 (List.replicate (us.length + 1) OrchCall.process) := rfl
      have hp : (processNextTask c).1
          = { c with task_queue_ := us ++ [t],
                     completed_reports_ :=
                       [("report_" ++ toString c.task_counter_,
                         { report_id := "report_" ++ toString c.task_counter_,
                           task_id := u.task_id, report_type := u.task_type })] } := by
        rcases hm with hm | hm <;>
          simp [processNextTask, hact, hq1, hm, mapAssign]
      rw [hrun, ih (processNextTask c).1
        { report_id := "report_" ++ toString c.task_counter_,
          task_id := u.task_id, report_type := u.task_type }
        (by rw [hp]; exact hact) (by rw [hp]) (Or.inr (by rw [hp]))]
      rw [hp]

theorem submits_snoc (ts : List AITask) (t : AITask) (c : AIOrchestrationController)
    (hact : c.orchestration_active_ = true) :
    orchRun c ((ts ++ [t]).map OrchCall.submit)
      = { orchRun c (ts.map OrchCall.submit) with
          task_counter_ := (c.task_counter_ + ts.length + 1) % U64,
          task_queue_ := (orchRun c (ts.map OrchCall.submit)).task_queue_ ++
            [{ t with task_id := "task_" ++ toString ((c.task_counter_ + ts.length + 1) % U64) }] } := by
  obtain ⟨h1, h2, _, _, _⟩ := submits_state ts c hact
  have hc : ((orchRun c (ts.map OrchCall.submit)).task_counter_ + 1) % U64
      = (c.task_counter_ + ts.length + 1) % U64 := by
    rw [Nat.add_mod, h2, ← Nat.add_mod]
  rw [List.map_append, orchRun_append]
  simp only [List.map_cons, List.map_nil, orchRun, List.foldl_cons, List.foldl_nil, orchStep]
  simp only [orchRun] at h1 hc
  simp [submitTask, h1, hc]

theorem processes_state (j : Nat) (c : AIOrchestrationController)
    (hact : c.orchestration_active_ = true) :
    (orchRun c (List.replicate j OrchCall.process)).orchestration_active_ = true ∧
    (orchRun c (List.replicate j OrchCall.process)).task_queue_ = c.task_queue_.drop j := by
  induction j generalizing c with
  | zero => simp [orchRun, hact]
  | succ j ih =>
      have hrun : orchRun c (List.replicate (j + 1) OrchCall.process)
          = orchRun (processNextTask c).1 (List.replicate j OrchCall.process) := rfl
      rw [hrun]
      cases hq : c.task_queue_ with
      | nil =>
          have hp : (processNextTask c).1 = c := by simp [processNextTask, hq]
          rw [hp]
          obtain ⟨h1, h2⟩ := ih c hact
          exact ⟨h1, by rw [h2, hq]; simp⟩
      | cons u us =>
          have hp1 : (processNextTask c).1.orchestration_active_ = true := by
            simp [processNextTask, hact, hq]
          have hp2 : (processNextTask c).1.task_queue_ = us := by
            simp [processNextTask, hact, hq]
          obtain ⟨h1, h2⟩ := ih (processNextTask c).1 hp1
          exact ⟨h1, by rw [h2, hp2]; simp⟩

theorem processNextTask_finds (c : AIOrchestrationController)
    (hact : c.orchestration_active_ = true) (hq : 0 < c.task_queue_.length) :
    (processNextTask c).2 = true := by
  cases hc : c.task_queue_ with
  | nil => rw [hc] at hq; exact absurd hq (by simp)
  | cons u us => simp [processNextTask, hact, hc]

/-- C29: after the tasks `t1`, those of `pre` and `tl` have been submitted to
an active controller, in this order, and then as many `processNextTask`
calls are made, every one of these calls finds a pending task and returns
true, and yet the controller ends with one completed report only, not one
per task: every report was stored under the id built from the task counter,
`"report_k"` for the `k` tasks submitted, and the one left is that of the
last task.  For two tasks the ids are `["report_2"]` for the task `"task_2"`;
when each task is processed before the next is submitted the reports are
`"report_1"` and `"report_2"`, one per task, in submission order. -/
theorem batch_reports_collide (t1 : AITask) (pre : List AITask) (tl : AITask) :
    (∀ j : Fin (pre.length + 2),
      (processNextTask (orchRun AIOrchestrationController.active
        (((t1 :: pre) ++ [tl]).map OrchCall.submit
          ++ List.replicate j.val OrchCall.process))).2 = true) ∧
    getCompletedReportIds (orchRun AIOrchestrationController.active
        (((t1 :: pre) ++ [tl]).map OrchCall.submit
          ++ List.replicate (pre.length + 2) OrchCall.process))
      = ["report_" ++ toString ((pre.length + 2) % U64)] ∧
    reportedTaskIds (orchRun AIOrchestrationController.active
        (((t1 :: pre) ++ [tl]).map OrchCall.submit
          ++ List.replicate (pre.length + 2) OrchCall.process))
      = ["task_" ++ toString ((pre.length + 2) % U64)] ∧
    getCompletedReportIds (orchRun AIOrchestrationController.active
        [OrchCall.submit (analyzeTask "a"), OrchCall.submit (analyzeTask "b"),
          OrchCall.process, OrchCall.process]) = ["report_2"] ∧
    reportedTaskIds (orchRun AIOrchestrationController.active
        [OrchCall.submit (analyzeTask "a"), OrchCall.submit (analyzeTask "b"),
          OrchCall.process, OrchCall.process]) = ["task_2"] ∧
    getCompletedReportIds (orchRun AIOrchestrationController.active
        [OrchCall.submit (analyzeTask "a"), OrchCall.process,
          OrchCall.submit (analyzeTask "b"), OrchCall.process]) = ["report_1", "report_2"] ∧
    reportedTaskIds (orchRun AIOrchestrationController.active
        [OrchCall.submit (analyzeTask "a"), OrchCall.process,
          OrchCall.submit (analyzeTask "b"), OrchCall.process]) = ["task_1", "task_2"] := by
  have hact : AIOrchestrationController.active.orchestration_active_ = true := rfl
  obtain ⟨s1, s2, _, s4, s5⟩ := submits_state ((t1 :: pre) ++ [tl])
    AIOrchestrationController.active hact
  obtain ⟨p1, _, _, p4, p5⟩ := submits_state (t1 :: pre) AIOrchestrationController.active hact
  have hsn := submits_snoc (t1 :: pre) tl AIOrchestrationController.active hact
  have hcnt : (AIOrchestrationController.active.task_counter_ + (t1 :: pre).length + 1)
      = pre.length + 2 := by
    simp [AIOrchestrationController.active]
  rw [hcnt] at hsn
  obtain ⟨q, hq, hqlen⟩ : ∃ q : List AITask,
      (orchRun AIOrchestrationController.active ((t1 :: pre).map OrchCall.submit)).task_queue_ = q
        ∧ q.length = pre.length + 1 := by
    refine ⟨_, rfl, ?_⟩
    rw [p4]
    simp [AIOrchestrationController.active]
  have hover := processes_overwrite q
    (orchRun AIOrchestrationController.active (((t1 :: pre) ++ [tl]).map OrchCall.submit))
    { tl with task_id := "task_" ++ toString ((pre.length + 2) % U64) }
    { report_id := "", task_id := "", report_type := "" } s1
    (by rw [hsn, hq]) (Or.inl (by rw [s5]; rfl))
  rw [hqlen] at hover
  have hfin : (orchRun AIOrchestrationController.active
      (((t1 :: pre) ++ [tl]).map OrchCall.submit)).task_counter_ = (pre.length + 2) % U64 := by
    rw [hsn]
  refine ⟨?_, ?_, ?_, by decide, by decide, by decide, by decide⟩
  · intro j
    rw [orchRun_append]
    obtain ⟨h1, h2⟩ := processes_state j.val _ s1
    apply processNextTask_finds _ h1
    rw [h2, List.length_drop, s4]
    have := j.isLt
    simp [AIOrchestrationController.active]
  · rw [orchRun_append, hover, hfin]
    rfl
  · rw [orchRun_append, hover, hfin]
    rfl

/-! ## C API: repeated initialisation and the awareness level -/

/-- C21: on a library that is already initialised, `AIOS_InitializeCore` does
not return 0.  Line 51 calls `SetLastError` while the `lock_guard` of line 48
holds `g_engine_mutex`, and `SetLastError` locks the same mutex again: where
relocking blocks the call never returns, and where it throws the handler of
line 66 records `"Initialization failed: ..."` and the call returns -1.  The
engine is kept in both cases.  The first call, on the library as loaded,
returns 0 and creates the engine at level 3.56. -/
theorem initialize_core_again_never_returns_zero {F : Type} (L : LevelOps F) (s : ApiState F)
    (what : String) :
    AIOS_InitializeCore L Relock.blocks { s with g_initialized := true }
      = ({ s with g_initialized := true }, ApiResult.neverReturns) ∧
    AIOS_InitializeCore L (Relock.raises what) { s with g_initialized := true }
      = ({ s with g_initialized := true, g_last_error := "Initialization failed: " ++ what },
          ApiResult.returned (-1)) ∧
    (∀ relock : Relock,
      (AIOS_InitializeCore L relock { s with g_initialized := true }).2 ≠ ApiResult.returned 0 ∧
      (AIOS_InitializeCore L relock { s with g_initialized := true }).1.g_engine = s.g_engine ∧
      AIOS_InitializeCore L relock ApiState.init
        = ({ g_engine := some { system_consciousness_level := L.lit (89 / 25),
                                initialized_flag := true },
             g_last_error := "", g_initialized := true }, ApiResult.returned 0) ∧
      (AIOS_InitializeCore L relock (AIOS_InitializeCore L relock ApiState.init).1).2
        ≠ ApiResult.returned 0) := by
  refine ⟨?_, ?_, ?_⟩
  · simp [AIOS_InitializeCore, SetLastError, lockMutex]
  · simp [AIOS_InitializeCore, SetLastError, lockMutex]
  · intro relock
    cases relock <;>
      simp [AIOS_InitializeCore, SetLastError, lockMutex, ApiState.init,
        AIOSConsciousnessEngine.new, AIOSConsciousnessEngine.initializeEngine]

theorem growEngine_level (s : ApiState ℚ) (step : ℚ) (hstep : 0 ≤ step)
    (h : ∀ e, s.g_engine = some e → 89 / 25 ≤ e.system_consciousness_level) :
    ∀ e, (growEngine exactLevelOps s step).g_engine = some e →
      89 / 25 ≤ e.system_consciousness_level := by
  intro e he
  unfold growEngine at he
  cases hs : s.g_engine with
  | none =>
      rw [hs] at he
      simp only at he
      rw [hs] at he
      exact absurd he (by simp)
  | some e0 =>
      rw [hs] at he
      simp only [Option.some.injEq] at he
      have h0 := h e0 hs
      rw [← he]
      unfold AIOSConsciousnessEngine.grow
      split
      · exact h0
      · simp only [exactLevelOps]
        linarith

theorem apiStep_level (relock : Relock) (s s1 : ApiState ℚ) (call : ApiCall)
    (hstep : apiStep exactLevelOps relock s call = some s1)
    (h : ∀ e, s.g_engine = some e → 89 / 25 ≤ e.system_consciousness_level) :
    ∀ e, s1.g_engine = some e → 89 / 25 ≤ e.system_consciousness_level := by
  cases call with
  | initializeCore =>
      cases hi : s.g_initialized <;> cases relock <;>
        simp [apiStep, AIOS_InitializeCore, SetLastError, lockMutex, hi] at hstep
      all_goals
        subst hstep
        first
          | exact h
          | (intro e he
             simp [AIOSConsciousnessEngine.new, AIOSConsciousnessEngine.initializeEngine,
               exactLevelOps] at he
             rw [← he])
  | updateConsciousness =>
      simp only [apiStep, Option.some.injEq] at hstep
      subst hstep
      exact growEngine_level s _ (by norm_num) h
  | shutdownCore =>
      simp only [apiStep, Option.some.injEq] at hstep
      subst hstep
      intro e he
      simp [AIOS_ShutdownCore] at he
  | getConsciousnessLevel =>
      simp only [apiStep, Option.some.injEq] at hstep
      subst hstep
      unfold AIOS_GetConsciousnessLevel
      cases hs : s.g_engine with
      | none => intro e he; simp [hs] at he
      | some e0 => exact h
  | stimulateDendriticGrowth source =>
      cases source <;> simp [apiStep] at hstep <;> subst hstep
      · exact h
      · exact growEngine_level s _ (by norm_num) h
  | adaptToSystemBehavior source =>
      cases source <;> simp [apiStep] at hstep <;> subst hstep
      · exact h
      · exact growEngine_level s _ (by norm_num) h
  | enhanceIntelligence source =>
      cases source <;> simp [apiStep] at hstep <;> subst hstep
      · exact h
      · exact growEngine_level s _ (by norm_num) h
  | transformError m c =>
      cases m <;> cases c <;> simp [apiStep] at hstep <;> subst hstep
      · exact h
      · exact h
      · exact h
      · exact growEngine_level s _ (by norm_num) h
  | evolveLogicFromError source =>
      cases source <;> simp [apiStep] at hstep <;> subst hstep
      · exact h
      · exact growEngine_level s _ (by norm_num) h

theorem apiRun_level (relock : Relock) (calls : List ApiCall) (s s1 : ApiState ℚ)
    (hrun : apiRun exactLevelOps relock s calls = some s1)
    (h : ∀ e, s.g_engine = some e → 89 / 25 ≤ e.system_consciousness_level) :
    ∀ e, s1.g_engine = some e → 89 / 25 ≤ e.system_consciousness_level := by
  induction calls generalizing s with
  | nil =>
      simp only [apiRun, Option.some.injEq] at hrun
      subst hrun
      exact h
  | cons call calls ih =>
      simp only [apiRun] at hrun
      cases hstep : apiStep exactLevelOps relock s call with
      | none => rw [hstep] at hrun; exact absurd hrun (by simp)
      | some s2 =>
          rw [hstep] at hrun
          exact ih s2 hrun (apiStep_level relock s s2 call hstep h)

/-- C22: the awareness level is not confined to the documented range 0.0-1.0.
Right after `AIOS_InitializeCore` on the library as loaded,
`AIOS_GetAwarenessLevel` and the `awareness_level` field filled by
`AIOS_GetAllMetrics` are 3.56, the level the engine starts from, which is
outside the range (in binary64 the value is 8016407336719483 / 2^51, above
1).  In exact arithmetic, in the state `s1` reached from there by any
sequence of C API calls that return, the two readings agree and are 0.0 when
there is no engine (after a shutdown) and at least 3.56 otherwise, so the
reading is within the range only when there is no engine. -/
theorem awareness_level_outside_unit_interval {F : Type} (L : LevelOps F) (relock : Relock)
    (calls : List ApiCall) (s1 : ApiState ℚ)
    (hrun : apiRun exactLevelOps relock ApiState.init (ApiCall.initializeCore :: calls)
      = some s1) :
    AIOS_GetAwarenessLevel L (AIOS_InitializeCore L relock ApiState.init).1 = L.lit (89 / 25) ∧
    (AIOS_GetAllMetrics L (AIOS_InitializeCore L relock ApiState.init).1).awareness_level
      = L.lit (89 / 25) ∧
    L.inUnit (AIOS_GetAwarenessLevel L (AIOS_InitializeCore L relock ApiState.init).1) = false ∧
    binary64LevelOps.lit (89 / 25) = 8016407336719483 / 2251799813685248 ∧
    (1 : ℚ) < binary64LevelOps.lit (89 / 25) ∧
    (AIOS_GetAllMetrics exactLevelOps s1).awareness_level
      = AIOS_GetAwarenessLevel exactLevelOps s1 ∧
    (if s1.g_engine.isNone then AIOS_GetAwarenessLevel exactLevelOps s1 = 0
     else 89 / 25 ≤ AIOS_GetAwarenessLevel exactLevelOps s1) ∧
    exactLevelOps.inUnit (AIOS_GetAwarenessLevel exactLevelOps s1) = s1.g_engine.isNone := by
  have hinit : (AIOS_InitializeCore L relock ApiState.init).1.g_engine
      = some { system_consciousness_level := L.lit (89 / 25), initialized_flag := true } := by
    cases relock <;>
      simp [AIOS_InitializeCore, lockMutex, ApiState.init, AIOSConsciousnessEngine.new,
        AIOSConsciousnessEngine.initializeEngine]
  have hlev := apiRun_level relock (ApiCall.initializeCore :: calls) ApiState.init s1 hrun
    (by intro e he; simp [ApiState.init] at he)
  have h1 : AIOS_GetAwarenessLevel L (AIOS_InitializeCore L relock ApiState.init).1
      = L.lit (89 / 25) := by
    simp [AIOS_GetAwarenessLevel, hinit, AIOSConsciousnessEngine.getCurrentMetrics]
  refine ⟨h1, ?_, ?_, by decide!, by decide!, ?_, ?_, ?_⟩
  · simp [AIOS_GetAllMetrics, hinit, AIOSConsciousnessEngine.getCurrentMetrics]
  · rw [h1]
    exact L.lit356_outside
  · cases hs : s1.g_engine <;>
      simp [AIOS_GetAllMetrics, AIOS_GetAwarenessLevel, hs,
        AIOSConsciousnessEngine.getCurrentMetrics]
  · cases hs : s1.g_engine with
    | none => simp [AIOS_GetAwarenessLevel, hs, exactLevelOps]
    | some e =>
        have := hlev e hs
        simpa [AIOS_GetAwarenessLevel, hs, AIOSConsciousnessEngine.getCurrentMetrics] using this
  · cases hs : s1.g_engine with
    | none => simp [AIOS_GetAwarenessLevel, hs, exactLevelOps]
    | some e =>
        have := hlev e hs
        have h2 : ¬ e.system_consciousness_level ≤ 1 := by
          intro hle
          linarith
        simp [AIOS_GetAwarenessLevel, hs, AIOSConsciousnessEngine.getCurrentMetrics,
          exactLevelOps, h2]

/-- Witness for C22: initialisation, one update and one dendritic stimulation,
in exact arithmetic. -/
theorem awareness_level_outside_unit_interval_witness :
    apiRun exactLevelOps Relock.blocks ApiState.init
        [ApiCall.initializeCore, ApiCall.updateConsciousness,
          ApiCall.stimulateDendriticGrowth (some "probe")]
      = some (growEngine exactLevelOps
          (growEngine exactLevelOps
            (AIOS_InitializeCore exactLevelOps Relock.blocks ApiState.init).1 (1 / 10000))
          (1 / 1000)) ∧
    exactLevelOps.inUnit
      (AIOS_GetAwarenessLevel exactLevelOps
        (AIOS_InitializeCore exactLevelOps Relock.blocks ApiState.init).1) = false :=
  ⟨rfl,
    (awareness_level_outside_unit_interval exactLevelOps Relock.blocks
      [ApiCall.updateConsciousness, ApiCall.stimulateDendriticGrowth (some "probe")]
      (growEngine exactLevelOps
        (growEngine exactLevelOps
          (AIOS_InitializeCore exactLevelOps Relock.blocks ApiState.init).1 (1 / 10000))
        (1 / 1000)) rfl).2.2.1⟩

/-! ## Binary64 rounding below 2^53 -/

theorem floorLog2Aux_spec (fuel : Nat) : ∀ n : Nat, 0 < n → n ≤ fuel →
    2 ^ floorLog2Aux fuel n ≤ n ∧ n < 2 ^ (floorLog2Aux fuel n + 1) := by
  induction fuel with
  | zero => intro n hn hf; omega
  | succ fuel ih =>
      intro n hn hf
      unfold floorLog2Aux
      by_cases h2 : n < 2
      · have h1 : n = 1 := by omega
        subst h1
        simp
      · rw [if_neg h2]
        have hdiv : 0 < n / 2 := Nat.div_pos (by omega) (by norm_num)
        have hle : n / 2 ≤ fuel := by omega
        obtain ⟨ha, hb⟩ := ih (n / 2) hdiv hle
        constructor
        · rw [pow_succ]
          omega
        · rw [pow_succ]
          omega

theorem floorLog2_spec (n : Nat) (hn : 0 < n) :
    2 ^ floorLog2 n ≤ n ∧ n < 2 ^ (floorLog2 n + 1) :=
  floorLog2Aux_spec n n hn (le_refl n)

theorem binadeOf_le (n d k : Nat) (hn : 0 < n) (hd : 0 < d) (h : n < 2 ^ (k + 1) * d) :
    binadeOf n d ≤ (k : Int) := by
  obtain ⟨hn1, _⟩ := floorLog2_spec n hn
  obtain ⟨_, hd2⟩ := floorLog2_spec d hd
  unfold binadeOf
  simp only
  by_contra hcon
  split_ifs at hcon with hc
  · have hL : floorLog2 d + (k + 1) ≤ floorLog2 n := by omega
    have h1 : d * 2 ^ (floorLog2 d + (k + 1)) ≤ d * 2 ^ floorLog2 n :=
      Nat.mul_le_mul_left d (Nat.pow_le_pow_right (by norm_num) hL)
    have h2 : d * 2 ^ (floorLog2 d + (k + 1)) = (2 ^ (k + 1) * d) * 2 ^ floorLog2 d := by
      rw [pow_add]; ring
    have h3 : (2 ^ (k + 1) * d) * 2 ^ floorLog2 d ≤ n * 2 ^ floorLog2 d := by
      rw [← h2]; exact le_trans h1 hc
    have h4 : 2 ^ (k + 1) * d ≤ n := Nat.le_of_mul_le_mul_right h3 (by positivity)
    omega
  · have hL : floorLog2 d + 1 + (k + 1) ≤ floorLog2 n := by omega
    have h1 : 2 ^ (floorLog2 d + 1 + (k + 1)) ≤ 2 ^ floorLog2 n :=
      Nat.pow_le_pow_right (by norm_num) hL
    have h2 : 2 ^ (floorLog2 d + 1 + (k + 1)) = 2 ^ (k + 1) * 2 ^ (floorLog2 d + 1) := by
      rw [pow_add]; ring
    have h3 : 2 ^ (k + 1) * d < 2 ^ (k + 1) * 2 ^ (floorLog2 d + 1) :=
      Nat.mul_lt_mul_of_pos_left hd2 (by positivity)
    omega

theorem roundToGrid_le (n d S N : Nat) (hd : 0 < d) (h : n ≤ N * d) :
    roundToGrid n d (S : Int) ≤ (N : ℚ) := by
  unfold roundToGrid
  simp only [Int.toNat_ofNat, Int.toNat_neg_nat, pow_zero, mul_one]
  have hnum : n * 2 ^ S ≤ (N * 2 ^ S) * d := by
    calc n * 2 ^ S ≤ (N * d) * 2 ^ S := Nat.mul_le_mul_right _ h
      _ = (N * 2 ^ S) * d := by ring
  have hm : n * 2 ^ S / d ≤ N * 2 ^ S := Nat.div_le_of_le_mul (by rw [mul_comm d]; exact hnum)
  have hm1 : (if 2 * (n * 2 ^ S % d) < d then n * 2 ^ S / d
      else if d < 2 * (n * 2 ^ S % d) then n * 2 ^ S / d + 1
      else if n * 2 ^ S / d % 2 = 0 then n * 2 ^ S / d else n * 2 ^ S / d + 1) ≤ N * 2 ^ S := by
    rcases Nat.lt_or_ge (n * 2 ^ S / d) (N * 2 ^ S) with hlt | hge
    · split_ifs <;> omega
    · have heq : n * 2 ^ S / d = N * 2 ^ S := le_antisymm hm hge
      have hdm := Nat.div_add_mod (n * 2 ^ S) d
      rw [heq] at hdm
      have hr : n * 2 ^ S % d = 0 := by
        have : d * (N * 2 ^ S) = (N * 2 ^ S) * d := by ring
        omega
      rw [hr, heq]
      simp [hd]
  rw [Rat.mkRat_eq_div]
  rw [div_le_iff₀ (by positivity)]
  push_cast
  exact_mod_cast hm1

theorem roundToGrid_nat (N S : Nat) : roundToGrid N 1 (S : Int) = (N : ℚ) := by
  unfold roundToGrid
  simp only [Int.toNat_ofNat, Int.toNat_neg_nat, pow_zero, mul_one, Nat.div_one, Nat.mod_one,
    mul_zero]
  rw [if_pos (by norm_num)]
  rw [Rat.mkRat_eq_div]
  push_cast
  field_simp

theorem roundBinary64_le_nat (q : ℚ) (N : Nat) (h0 : 0 ≤ q) (hq : q ≤ N) (hN : N < 2 ^ 53) :
    roundBinary64 q ≤ (N : ℚ) := by
  unfold roundBinary64
  split
  · exact_mod_cast Nat.zero_le N
  · rename_i hnum
    have hnum0 : 0 ≤ q.num := Rat.num_nonneg.mpr h0
    have hpos : 0 < q.num := lt_of_le_of_ne hnum0 (Ne.symm hnum)
    have hsign : q.num.sign = 1 := Int.sign_eq_one_of_pos hpos
    have hd : 0 < q.den := q.den_pos
    have hn : 0 < q.num.natAbs := Int.natAbs_pos.mpr hnum
    have hcast : ((q.num.natAbs : Nat) : Int) = q.num := Int.natAbs_of_nonneg hnum0
    have hle : q.num.natAbs ≤ N * q.den := by
      have h1 : (q.num : ℚ) / (q.den : ℚ) ≤ N := by rw [Rat.num_div_den]; exact hq
      rw [div_le_iff₀ (by exact_mod_cast hd)] at h1
      have h2 : (q.num : ℚ) = ((q.num.natAbs : Nat) : ℚ) := by
        conv_rhs => rw [← Int.cast_natCast, hcast]
      rw [h2] at h1
      exact_mod_cast h1
    have hlt : q.num.natAbs < 2 ^ (52 + 1) * q.den := by
      calc q.num.natAbs ≤ N * q.den := hle
        _ < 2 ^ 53 * q.den := Nat.mul_lt_mul_of_lt_of_le hN (le_refl _) hd
    have he := binadeOf_le q.num.natAbs q.den 52 hn hd hlt
    have hs : 0 ≤ 52 - max (binadeOf q.num.natAbs q.den) (-1022) := by
      have : max (binadeOf q.num.natAbs q.den) (-1022) ≤ 52 := max_le he (by norm_num)
      omega
    obtain ⟨S, hS⟩ := Int.eq_ofNat_of_zero_le hs
    rw [hS, hsign]
    simp only [Int.cast_one, one_mul]
    exact roundToGrid_le _ _ S N hd hle

theorem roundBinary64_nat (N : Nat) (hN : N < 2 ^ 53) : roundBinary64 (N : ℚ) = (N : ℚ) := by
  apply le_antisymm (roundBinary64_le_nat _ N (by positivity) (le_refl _) hN)
  unfold roundBinary64
  split
  · rename_i hnum
    have : N = 0 := by simpa using hnum
    subst this
    simp
  · rename_i hnum
    have hN0 : N ≠ 0 := by
      intro h0; subst h0; simp at hnum
    have hpos : 0 < N := Nat.pos_of_ne_zero hN0
    have he := binadeOf_le N 1 52 hpos (by norm_num) (by omega)
    have hs : 0 ≤ 52 - max (binadeOf N 1) (-1022) := by
      have : max (binadeOf N 1) (-1022) ≤ 52 := max_le he (by norm_num)
      omega
    obtain ⟨S, hS⟩ := Int.eq_ofNat_of_zero_le hs
    have hnumN : (N : ℚ).num = (N : Int) := Rat.num_natCast N
    have hdenN : (N : ℚ).den = 1 := Rat.den_natCast N
    rw [hnumN, hdenN]
    simp only [Int.natAbs_ofNat]
    rw [hS, roundToGrid_nat]
    have hsign : (N : Int).sign = 1 := Int.sign_eq_one_of_pos (by exact_mod_cast hpos)
    rw [hsign]
    simp

/-! ## Binary64 rounding is rounding to nearest, ties to even -/

theorem binadeOf_spec (n d : Nat) (hn : 0 < n) (hd : 0 < d) :
    (2 : ℚ) ^ binadeOf n d ≤ (n : ℚ) / (d : ℚ) ∧
    (n : ℚ) / (d : ℚ) < (2 : ℚ) ^ (binadeOf n d + 1) := by
  obtain ⟨hn1, hn2⟩ := floorLog2_spec n hn
  obtain ⟨hd1, hd2⟩ := floorLog2_spec d hd
  have hdq : (0 : ℚ) < (d : ℚ) := by exact_mod_cast hd
  have h2 : (2 : ℚ) ≠ 0 := by norm_num
  have hpow : ∀ a b : Nat, (2 : ℚ) ^ ((a : Int) - (b : Int)) = (2 : ℚ) ^ a / (2 : ℚ) ^ b := by
    intro a b
    rw [zpow_sub₀ h2, zpow_natCast, zpow_natCast]
  have hn1q : (2 : ℚ) ^ floorLog2 n ≤ (n : ℚ) := by exact_mod_cast hn1
  have hn2q : (n : ℚ) < (2 : ℚ) ^ (floorLog2 n + 1) := by exact_mod_cast hn2
  have hd1q : (2 : ℚ) ^ floorLog2 d ≤ (d : ℚ) := by exact_mod_cast hd1
  have hd2q : (d : ℚ) < (2 : ℚ) ^ (floorLog2 d + 1) := by exact_mod_cast hd2
  have hLd : (0 : ℚ) < (2 : ℚ) ^ floorLog2 d := by positivity
  have hLn : (0 : ℚ) < (2 : ℚ) ^ floorLog2 n := by positivity
  unfold binadeOf
  simp only
  split_ifs with hc
  · have hcq : (d : ℚ) * (2 : ℚ) ^ floorLog2 n ≤ (n : ℚ) * (2 : ℚ) ^ floorLog2 d := by
      exact_mod_cast hc
    constructor
    · rw [hpow, div_le_div_iff₀ hLd hdq]
      linarith
    · rw [zpow_add_one₀ h2, hpow, div_lt_iff₀ hdq]
      rw [pow_succ] at hn2q
      have : (2 : ℚ) ^ floorLog2 n / (2 : ℚ) ^ floorLog2 d * 2 * (d : ℚ)
          = (2 : ℚ) ^ floorLog2 n * 2 * ((d : ℚ) / (2 : ℚ) ^ floorLog2 d) := by
        field_simp
      rw [this]
      have h1 : (1 : ℚ) ≤ (d : ℚ) / (2 : ℚ) ^ floorLog2 d := by
        rw [le_div_iff₀ hLd]; linarith
      nlinarith
  · have hcq : (n : ℚ) * (2 : ℚ) ^ floorLog2 d < (d : ℚ) * (2 : ℚ) ^ floorLog2 n := by
      exact_mod_cast (Nat.lt_of_not_le hc)
    constructor
    · rw [zpow_sub_one₀ h2, hpow, div_mul_eq_mul_div, div_le_div_iff₀ (by positivity) hdq]
      rw [pow_succ] at hd2q
      have : (2 : ℚ) ^ floorLog2 n * (2 : ℚ)⁻¹ * (d : ℚ) ≤ (2 : ℚ) ^ floorLog2 n * (2 : ℚ) ^ floorLog2 d := by
        have : (d : ℚ) * (2 : ℚ)⁻¹ ≤ (2 : ℚ) ^ floorLog2 d := by
          rw [← div_eq_mul_inv, div_le_iff₀ (by norm_num)]
          linarith
        nlinarith
      nlinarith
    · rw [sub_add_cancel, hpow, div_lt_div_iff₀ hdq hLd]
      linarith

theorem roundToGrid_eq (n d a b : Nat) (s : Int) (ha : s.toNat = a) (hb : (-s).toNat = b) :
    roundToGrid n d s
      = (((if 2 * (n * 2 ^ a % (d * 2 ^ b)) < d * 2 ^ b then n * 2 ^ a / (d * 2 ^ b)
          else if d * 2 ^ b < 2 * (n * 2 ^ a % (d * 2 ^ b)) then n * 2 ^ a / (d * 2 ^ b) + 1
          else if n * 2 ^ a / (d * 2 ^ b) % 2 = 0 then n * 2 ^ a / (d * 2 ^ b)
          else n * 2 ^ a / (d * 2 ^ b) + 1 : Nat) : ℚ)) * (2 : ℚ) ^ b / (2 : ℚ) ^ a := by
  unfold roundToGrid
  simp only [ha, hb]
  rw [Rat.mkRat_eq_div]
  simp only [Int.cast_mul, Int.cast_pow, Int.cast_natCast, Int.cast_ofNat, Nat.cast_mul,
    Nat.cast_pow, Nat.cast_ofNat]

/-- The value `roundToGrid` returns is `k * 2^(-s)` for the natural number `k`
nearest to `n / d * 2^s`, the even one of the two when both are at the
distance 1/2. -/
theorem roundToGrid_nearest (n d : Nat) (s : Int) (hd : 0 < d) :
    ∃ k : Nat, roundToGrid n d s = (k : ℚ) * (2 : ℚ) ^ (-s) ∧
      |(k : ℚ) - (n : ℚ) / (d : ℚ) * (2 : ℚ) ^ s| ≤ 1 / 2 ∧
      (|(k : ℚ) - (n : ℚ) / (d : ℚ) * (2 : ℚ) ^ s| = 1 / 2 → k % 2 = 0) := by
  obtain ⟨a, b, ha, hb, hs⟩ : ∃ a b : Nat, s.toNat = a ∧ (-s).toNat = b
      ∧ (2 : ℚ) ^ s = (2 : ℚ) ^ a / (2 : ℚ) ^ b := by
    refine ⟨s.toNat, (-s).toNat, rfl, rfl, ?_⟩
    rcases le_total 0 s with h | h
    · obtain ⟨k, hk⟩ := Int.eq_ofNat_of_zero_le h
      subst hk
      simp
    · obtain ⟨k, hk⟩ := Int.eq_ofNat_of_zero_le (by omega : 0 ≤ -s)
      have hs : s = -(k : Int) := by omega
      subst hs
      simp
  have hsneg : (2 : ℚ) ^ (-s) = (2 : ℚ) ^ b / (2 : ℚ) ^ a := by
    rw [zpow_neg, hs, inv_div]
  have hden : 0 < d * 2 ^ b := by positivity
  have hdenq : (0 : ℚ) < ((d * 2 ^ b : Nat) : ℚ) := by exact_mod_cast hden
  have hx : (n : ℚ) / (d : ℚ) * (2 : ℚ) ^ s = ((n * 2 ^ a : Nat) : ℚ) / ((d * 2 ^ b : Nat) : ℚ) := by
    rw [hs]
    push_cast
    have : (d : ℚ) ≠ 0 := by exact_mod_cast hd.ne.symm
    field_simp
  have hdm := Nat.div_add_mod (n * 2 ^ a) (d * 2 ^ b)
  have hr := Nat.mod_lt (n * 2 ^ a) hden
  have hxq : ((n * 2 ^ a : Nat) : ℚ) / ((d * 2 ^ b : Nat) : ℚ)
      = ((n * 2 ^ a / (d * 2 ^ b) : Nat) : ℚ)
        + ((n * 2 ^ a % (d * 2 ^ b) : Nat) : ℚ) / ((d * 2 ^ b : Nat) : ℚ) := by
    have hcast : ((n * 2 ^ a : Nat) : ℚ)
        = ((d * 2 ^ b : Nat) : ℚ) * ((n * 2 ^ a / (d * 2 ^ b) : Nat) : ℚ)
          + ((n * 2 ^ a % (d * 2 ^ b) : Nat) : ℚ) := by
      exact_mod_cast hdm.symm
    rw [div_eq_iff hdenq.ne.symm, add_mul, div_mul_cancel₀ _ hdenq.ne.symm]
    rw [hcast]
    ring
  rw [roundToGrid_eq n d a b s ha hb, hx, hxq]
  generalize n * 2 ^ a / (d * 2 ^ b) = m at *
  generalize hrdef : n * 2 ^ a % (d * 2 ^ b) = r at *
  generalize hDdef : d * 2 ^ b = D at *
  have hDq : (0 : ℚ) < (D : ℚ) := by exact_mod_cast hden
  have hfrac0 : (0 : ℚ) ≤ (r : ℚ) / (D : ℚ) := by positivity
  by_cases h1 : 2 * r < D
  · refine ⟨m, ?_, ?_, ?_⟩
    · rw [if_pos h1, hsneg]; ring
    · have : (r : ℚ) / (D : ℚ) < 1 / 2 := by
        rw [div_lt_iff₀ hDq]
        have : ((2 * r : Nat) : ℚ) < (D : ℚ) := by exact_mod_cast h1
        push_cast at this
        linarith
      rw [abs_le]
      constructor <;> linarith
    · intro habs
      have : (r : ℚ) / (D : ℚ) < 1 / 2 := by
        rw [div_lt_iff₀ hDq]
        have : ((2 * r : Nat) : ℚ) < (D : ℚ) := by exact_mod_cast h1
        push_cast at this
        linarith
      have h2 : |(m : ℚ) - ((m : ℚ) + (r : ℚ) / (D : ℚ))| = (r : ℚ) / (D : ℚ) := by
        rw [show (m : ℚ) - ((m : ℚ) + (r : ℚ) / (D : ℚ)) = -((r : ℚ) / (D : ℚ)) by ring,
          abs_neg, abs_of_nonneg hfrac0]
      rw [h2] at habs
      linarith
  · by_cases h2 : D < 2 * r
    · refine ⟨m + 1, ?_, ?_, ?_⟩
      · rw [if_neg h1, if_pos h2, hsneg]; ring
      · have hgt : (1 : ℚ) / 2 < (r : ℚ) / (D : ℚ) := by
          rw [lt_div_iff₀ hDq]
          have : ((D : Nat) : ℚ) < ((2 * r : Nat) : ℚ) := by exact_mod_cast h2
          push_cast at this
          linarith
        have hlt : (r : ℚ) / (D : ℚ) < 1 := by
          rw [div_lt_one hDq]; exact_mod_cast hr
        push_cast
        rw [abs_le]
        constructor <;> linarith
      · intro habs
        have hgt : (1 : ℚ) / 2 < (r : ℚ) / (D : ℚ) := by
          rw [lt_div_iff₀ hDq]
          have : ((D : Nat) : ℚ) < ((2 * r : Nat) : ℚ) := by exact_mod_cast h2
          push_cast at this
          linarith
        have hlt : (r : ℚ) / (D : ℚ) < 1 := by
          rw [div_lt_one hDq]; exact_mod_cast hr
        push_cast at habs
        have h3 : |(m : ℚ) + 1 - ((m : ℚ) + (r : ℚ) / (D : ℚ))| = 1 - (r : ℚ) / (D : ℚ) := by
          rw [show (m : ℚ) + 1 - ((m : ℚ) + (r : ℚ) / (D : ℚ)) = 1 - (r : ℚ) / (D : ℚ) by ring,
            abs_of_nonneg (by linarith)]
        rw [h3] at habs
        linarith
    · have heq : 2 * r = D := by omega
      have hhalf : (r : ℚ) / (D : ℚ) = 1 / 2 := by
        rw [div_eq_iff hDq.ne.symm]
        have : ((2 * r : Nat) : ℚ) = (D : ℚ) := by exact_mod_cast heq
        push_cast at this
        linarith
      by_cases h3 : m % 2 = 0
      · refine ⟨m, ?_, ?_, fun _ => h3⟩
        · rw [if_neg h1, if_neg h2, if_pos h3, hsneg]; ring
        · rw [hhalf, abs_le]
          constructor <;> linarith
      · refine ⟨m + 1, ?_, ?_, fun _ => by omega⟩
        · rw [if_neg h1, if_neg h2, if_neg h3, hsneg]; ring
        · push_cast
          rw [hhalf, abs_le]
          constructor <;> linarith

theorem abs_eq_natAbs_div (q : ℚ) : |q| = (q.num.natAbs : ℚ) / (q.den : ℚ) := by
  have hden : (0 : ℚ) < (q.den : ℚ) := by exact_mod_cast q.den_pos
  conv_lhs => rw [← Rat.num_div_den q]
  rw [abs_div, abs_of_pos hden]
  congr 1
  rw [← Int.cast_abs, Int.abs_eq_natAbs, Int.cast_natCast]

/-- The value `roundBinary64` returns for a non-zero `q` in the binade `e`
(`2^e ≤ |q| < 2^(e+1)`): with the sign of `q`, the multiple `k * 2^(E-52)`,
`E` the larger of `e` and -1022, that is nearest to `|q|`, the even `k` of
the two when both are at the same distance. -/
theorem roundBinary64_nearest (q : ℚ) (hq : q ≠ 0) :
    ∃ (e : Int) (k : Nat),
      (2 : ℚ) ^ e ≤ |q| ∧ |q| < (2 : ℚ) ^ (e + 1) ∧
      roundBinary64 q = (q.num.sign : ℚ) * ((k : ℚ) * (2 : ℚ) ^ (-(52 - max e (-1022)))) ∧
      |(k : ℚ) - |q| * (2 : ℚ) ^ (52 - max e (-1022))| ≤ 1 / 2 ∧
      (|(k : ℚ) - |q| * (2 : ℚ) ^ (52 - max e (-1022))| = 1 / 2 → k % 2 = 0) := by
  have hnum : q.num ≠ 0 := Rat.num_ne_zero.mpr hq
  have hn : 0 < q.num.natAbs := Int.natAbs_pos.mpr hnum
  have hd : 0 < q.den := q.den_pos
  obtain ⟨h1, h2⟩ := binadeOf_spec q.num.natAbs q.den hn hd
  obtain ⟨k, hk1, hk2, hk3⟩ := roundToGrid_nearest q.num.natAbs q.den
    (52 - max (binadeOf q.num.natAbs q.den) (-1022)) hd
  refine ⟨binadeOf q.num.natAbs q.den, k, ?_, ?_, ?_, ?_, ?_⟩
  · rw [abs_eq_natAbs_div]; exact h1
  · rw [abs_eq_natAbs_div]; exact h2
  · unfold roundBinary64
    rw [if_neg hnum, hk1]
  · rw [abs_eq_natAbs_div q]; exact hk2
  · rw [abs_eq_natAbs_div q]; exact hk3

/-! ## Height map: sample indices -/

theorem columnIndex_single (cx total : Nat) : columnIndex cx 1 total = none := by
  simp [columnIndex]

theorem columnIndex_bound (c cx t : Nat) (hcx : cx ≤ c + 1) (ht : t < 2 ^ 53) :
    ∃ idx, columnIndex cx (c + 2) (t + 1) = some idx ∧ idx ≤ t := by
  have hratio0 : 0 ≤ roundBinary64 ((cx : ℚ) / ((c + 2 - 1 : Nat) : ℚ)) :=
    roundBinary64_nonneg _ (by positivity)
  have hq1 : (cx : ℚ) / ((c + 2 - 1 : Nat) : ℚ) ≤ ((1 : Nat) : ℚ) := by
    have hc : c + 2 - 1 = c + 1 := by omega
    rw [hc, div_le_iff₀ (by positivity)]
    exact_mod_cast (by omega : cx ≤ 1 * (c + 1))
  have hratio1 : roundBinary64 ((cx : ℚ) / ((c + 2 - 1 : Nat) : ℚ)) ≤ 1 := by
    have := roundBinary64_le_nat _ 1 (by positivity) hq1 (by norm_num)
    simpa using this
  have hT : roundBinary64 ((t + 1 - 1 : Nat) : ℚ) = (t : ℚ) := by
    rw [Nat.add_sub_cancel]
    exact roundBinary64_nat t ht
  have hprod0 : 0 ≤ roundBinary64 ((cx : ℚ) / ((c + 2 - 1 : Nat) : ℚ)) * (t : ℚ) :=
    mul_nonneg hratio0 (by positivity)
  have hprod1 : roundBinary64 ((cx : ℚ) / ((c + 2 - 1 : Nat) : ℚ)) * (t : ℚ) ≤ (t : ℚ) := by
    have : (0 : ℚ) ≤ (t : ℚ) := by positivity
    nlinarith
  have hscaled := roundBinary64_le_nat _ t hprod0 hprod1 ht
  have hfloor : ⌊roundBinary64 (roundBinary64 ((cx : ℚ) / ((c + 2 - 1 : Nat) : ℚ)) * (t : ℚ))⌋₊
      ≤ t := by
    have := Nat.floor_le_floor hscaled
    simpa using this
  have hU : ⌊roundBinary64 (roundBinary64 ((cx : ℚ) / ((c + 2 - 1 : Nat) : ℚ)) * (t : ℚ))⌋₊
      < U64 := by
    have : (2 : Nat) ^ 53 < U64 := by unfold U64; norm_num
    omega
  refine ⟨_, ?_, hfloor⟩
  unfold columnIndex
  rw [if_neg (by omega)]
  simp only [hT]
  rw [if_pos hU]

theorem columnIndex_first (c t : Nat) : columnIndex 0 (c + 2) (t + 1) = some 0 := by
  have h0 : roundBinary64 0 = 0 := by simp [roundBinary64]
  unfold columnIndex
  rw [if_neg (by omega)]
  simp [h0, U64]

theorem columnIndex_last (c t : Nat) (ht : t < 2 ^ 53) :
    columnIndex (c + 1) (c + 2) (t + 1) = some t := by
  have h1 : roundBinary64 1 = 1 := by
    have := roundBinary64_nat 1 (by norm_num)
    simpa using this
  have hT : roundBinary64 (t : ℚ) = (t : ℚ) := roundBinary64_nat t ht
  have hU : t < U64 := by
    have : (2 : Nat) ^ 53 < U64 := by unfold U64; norm_num
    omega
  have hc : ((c + 1 : Nat) : ℚ) / ((c + 2 - 1 : Nat) : ℚ) = 1 := by
    have : c + 2 - 1 = c + 1 := by omega
    rw [this]
    exact div_self (by positivity)
  unfold columnIndex
  rw [if_neg (by omega)]
  simp only [hc, h1, Nat.add_sub_cancel, hT, one_mul, Nat.floor_natCast]
  rw [if_pos hU]

theorem columnPoints_length {F : Type} (P : FloatOps F) (magnitudes : List F)
    (core_distance_fn : Nat → F) (columns rows cx idx : Nat)
    (hidx : columnIndex cx columns magnitudes.length = some idx) (hlt : idx < magnitudes.length) :
    ∃ ps, columnPoints P magnitudes core_distance_fn columns rows cx = some ps
      ∧ ps.length = rows := by
  unfold columnPoints
  rw [hidx]
  simp only
  rw [List.getElem?_eq_getElem hlt]
  exact ⟨_, rfl, by simp⟩

theorem columnLoop_length {F : Type} (P : FloatOps F) (magnitudes : List F)
    (core_distance_fn : Nat → F) (columns rows : Nat)
    (hcols : ∀ cx, cx < columns →
      ∃ ps, columnPoints P magnitudes core_distance_fn columns rows cx = some ps
        ∧ ps.length = rows) :
    ∀ n cx, cx + n ≤ columns →
      ∃ pts, columnLoop P magnitudes core_distance_fn columns rows n cx = some pts
        ∧ pts.length = n * rows := by
  intro n
  induction n with
  | zero => intro cx _; exact ⟨[], rfl, by simp⟩
  | succ n ih =>
      intro cx hle
      obtain ⟨ps, hps, hlen⟩ := hcols cx (by omega)
      obtain ⟨rest, hrest, hrlen⟩ := ih (cx + 1) (by omega)
      refine ⟨ps ++ rest, ?_, ?_⟩
      · simp [columnLoop, hps, hrest]
      · rw [List.length_append, hlen, hrlen]
        ring

/-- C27: with `columns = 1` the sample index of the one column is computed as
`(0.0 / 0) * (total - 1)`, a division by zero whose result is not a number and
has no defined conversion to `size_t`: for every non-empty `magnitudes` and
every `rows >= 1`, `build_height_map` has no defined result (the guard of line
18 covers `columns == 0` only).  With `columns >= 2` (and at most 2^53
magnitudes, so that `total - 1` is a binary64 value) the claim holds: every
column has an index within the vector, the first column reads entry 0, the
oldest, and the last column entry `total - 1`, the newest, and the result
holds `columns * rows` points with `width = columns` and `height = rows`. -/
theorem build_height_map_single_column_undefined {F : Type} (P : FloatOps F) (m : F)
    (ms : List F) (core_distance_fn : Nat → F) (c rows : Nat)
    (hlen : (m :: ms).length ≤ 2 ^ 53) :
    columnIndex 0 1 (m :: ms).length = none ∧
    build_height_map P (m :: ms) core_distance_fn 1 (rows + 1) = none ∧
    (∀ cx : Fin (c + 2), ∃ idx,
      columnIndex cx.val (c + 2) (m :: ms).length = some idx ∧ idx < (m :: ms).length) ∧
    columnIndex 0 (c + 2) (m :: ms).length = some 0 ∧
    columnIndex (c + 1) (c + 2) (m :: ms).length = some ((m :: ms).length - 1) ∧
    (∃ hm, build_height_map P (m :: ms) core_distance_fn (c + 2) (rows + 1) = some hm ∧
      hm.width = c + 2 ∧ hm.height = rows + 1 ∧ hm.points.length = (c + 2) * (rows + 1)) := by
  have ht : ms.length < 2 ^ 53 := by
    simp only [List.length_cons] at hlen
    omega
  have hidx : ∀ cx, cx < c + 2 → ∃ idx,
      columnIndex cx (c + 2) (m :: ms).length = some idx ∧ idx < (m :: ms).length := by
    intro cx hcx
    obtain ⟨idx, h1, h2⟩ := columnIndex_bound c cx ms.length (by omega) ht
    exact ⟨idx, h1, by simp only [List.length_cons]; omega⟩
  refine ⟨columnIndex_single 0 _, ?_, ?_, ?_, ?_, ?_⟩
  · simp [build_height_map, columnLoop, columnPoints, columnIndex_single]
  · intro cx
    exact hidx cx.val cx.isLt
  · exact columnIndex_first c ms.length
  · have := columnIndex_last c ms.length ht
    simpa using this
  · have hcols : ∀ cx, cx < c + 2 →
        ∃ ps, columnPoints P (m :: ms) core_distance_fn (c + 2) (rows + 1) cx = some ps
          ∧ ps.length = rows + 1 := by
      intro cx hcx
      obtain ⟨idx, h1, h2⟩ := hidx cx hcx
      exact columnPoints_length P (m :: ms) core_distance_fn (c + 2) (rows + 1) cx idx h1 h2
    obtain ⟨pts, hpts, hplen⟩ := columnLoop_length P (m :: ms) core_distance_fn (c + 2)
      (rows + 1) hcols (c + 2) 0 (by omega)
    refine ⟨{ width := c + 2, height := rows + 1, points := pts }, ?_, rfl, rfl, hplen⟩
    simp [build_height_map, hpts]

/-- Witness for C27: one magnitude, one column, one row, in exact `float`
arithmetic. -/
theorem build_height_map_single_column_undefined_witness :
    [(1 / 2 : ℚ)].length ≤ 2 ^ 53 ∧
    build_height_map exactFloatOps [(1 / 2 : ℚ)] (fun _ => 0) 1 (0 + 1) = none :=
  ⟨by decide,
    (build_height_map_single_column_undefined exactFloatOps (1 / 2) [] (fun _ => 0) 0 0
      (by decide)).2.1⟩

/-! ## Orthographic rendering: writes stay inside the buffer -/

theorem toSignedInt_le (w : Nat) : toSignedInt w ≤ (w : Int) := by
  unfold toSignedInt
  split <;> omega

theorem writeTarget_lt {F : Type} (P : FloatOps F) (pointsXYZ : Nat → F) (width height i k : Nat)
    (h : writeTarget P pointsXYZ width height i = some k) : k < width * height := by
  unfold writeTarget at h
  simp only at h
  split_ifs at h with hc
  obtain ⟨hx0, hx1, hy0, hy1⟩ := hc
  have hw := toSignedInt_le width
  have hh := toSignedInt_le height
  have hpx : (P.toInt (P.mul (pointsXYZ ((i * 3 + 0) % U32)) (P.ofU32 (width - 1)))).toNat
      < width := by omega
  have hpy : (P.toInt (P.mul (pointsXYZ ((i * 3 + 1) % U32)) (P.ofU32 (height - 1)))).toNat
      < height := by omega
  simp only [Option.some.injEq] at h
  rw [← h]
  generalize (P.toInt (P.mul (pointsXYZ ((i * 3 + 0) % U32)) (P.ofU32 (width - 1)))).toNat = px
    at hpx
  generalize (P.toInt (P.mul (pointsXYZ ((i * 3 + 1) % U32)) (P.ofU32 (height - 1)))).toNat = py
    at hpy
  have h1 : py * width * 4 % U32 / 4 ≤ py * width := by
    calc py * width * 4 % U32 / 4 ≤ py * width * 4 / 4 := Nat.div_le_div_right (Nat.mod_le _ _)
      _ = py * width := Nat.mul_div_cancel _ (by norm_num)
  have h2 : (py + 1) * width ≤ height * width := Nat.mul_le_mul_right width hpy
  have h3 : (py + 1) * width = py * width + width := by ring
  have h4 : height * width = width * height := Nat.mul_comm _ _
  omega

theorem renderLoop_spec {F : Type} (P : FloatOps F) (pointsXYZ : Nat → F)
    (width height baseColor : Nat) (points : List Nat) :
    ∀ (buf log : List Nat), buf.length = width * height →
      ∃ buf1, renderLoop P pointsXYZ width height baseColor points (buf, log)
          = some (buf1, log ++ points.filterMap (writeTarget P pointsXYZ width height)) ∧
        buf1.length = buf.length ∧
        ∀ k, buf1[k]? = if k ∈ points.filterMap (writeTarget P pointsXYZ width height)
          then some baseColor else buf[k]? := by
  induction points with
  | nil => intro buf log _; exact ⟨buf, by simp [renderLoop], rfl, by simp⟩
  | cons i rest ih =>
      intro buf log hlen
      cases ht : writeTarget P pointsXYZ width height i with
      | none =>
          obtain ⟨buf1, h1, h2, h3⟩ := ih buf log hlen
          refine ⟨buf1, ?_, h2, ?_⟩
          · simp only [renderLoop, ht, List.filterMap_cons]
            exact h1
          · simp only [List.filterMap_cons, ht]
            exact h3
      | some k =>
          have hk : k < buf.length := by
            rw [hlen]; exact writeTarget_lt P pointsXYZ width height i k ht
          obtain ⟨buf1, h1, h2, h3⟩ := ih (buf.set k baseColor) (log ++ [k])
            (by rw [List.length_set]; exact hlen)
          refine ⟨buf1, ?_, ?_, ?_⟩
          · simp only [renderLoop, ht, List.filterMap_cons, if_pos hk]
            rw [h1]
            simp
          · rw [h2, List.length_set]
          · intro j
            rw [h3 j]
            simp only [List.filterMap_cons, ht, List.mem_cons]
            by_cases hj : j ∈ rest.filterMap (writeTarget P pointsXYZ width height)
            · simp [hj]
            · by_cases hjk : j = k
              · subst hjk
                simp [hj, hk]
              · have hkj : k ≠ j := fun h => hjk h.symm
                simp [hj, hjk, List.getElem?_set, hkj]

theorem writeTarget_zero_width {F : Type} (P : FloatOps F) (pointsXYZ : Nat → F)
    (width height i : Nat) (h : width = 0 ∨ height = 0) :
    writeTarget P pointsXYZ width height i = none := by
  cases hw : writeTarget P pointsXYZ width height i with
  | none => rfl
  | some k =>
      have := writeTarget_lt P pointsXYZ width height i k hw
      rcases h with h | h <;> subst h <;> simp at this

/-- C28: on a pixel buffer of `width * height` pixels
`aios_render_heightmap_ortho` has a defined result for every list of points
and every conversion of a `float` to `int`; the pixels it writes are those
that `writeTarget` gives for the points 0 .. pointCount-1 that pass the test
of line 54, each lies inside the buffer and so is a pixel (px, py) with
`px < width` and `py < height`; afterwards every pixel written holds
`baseColor`, every other pixel is unchanged and the buffer has kept its
length.  When `pointsXYZ` or `pixelBuffer` is null, or `width` or `height` is
zero, nothing is written.  On a 2 x 2 buffer of zeros the point (1, 0, 0)
with colour 255 leaves the pixels 0, 255, 0, 0. -/
theorem render_writes_within_buffer {F : Type} (P : FloatOps F) (pts : Nat → F)
    (ptsO : Option (Nat → F)) (bufO : Option (List Nat)) (pointCount width height : Nat)
    (zScale : F) (baseColor : Nat) (buf : List Nat) (hlen : buf.length = width * height) :
    (∃ buf1, aios_render_heightmap_ortho P (some pts) pointCount (some buf) width height zScale
          baseColor
        = some (some buf1, (List.range pointCount).filterMap (writeTarget P pts width height)) ∧
      buf1.length = buf.length ∧
      (∀ k, buf1[k]?
        = if k ∈ (List.range pointCount).filterMap (writeTarget P pts width height)
          then some baseColor else buf[k]?)) ∧
    (∀ j : Fin ((List.range pointCount).filterMap (writeTarget P pts width height)).length,
      ((List.range pointCount).filterMap (writeTarget P pts width height)).get j
          < width * height ∧
      ((List.range pointCount).filterMap (writeTarget P pts width height)).get j % width
          < width ∧
      ((List.range pointCount).filterMap (writeTarget P pts width height)).get j / width
          < height) ∧
    aios_render_heightmap_ortho P none pointCount bufO width height zScale baseColor
      = some (bufO, []) ∧
    aios_render_heightmap_ortho P ptsO pointCount none width height zScale baseColor
      = some (none, []) ∧
    aios_render_heightmap_ortho P ptsO pointCount bufO 0 height zScale baseColor
      = some (bufO, []) ∧
    aios_render_heightmap_ortho P ptsO pointCount bufO width 0 zScale baseColor
      = some (bufO, []) ∧
    aios_render_heightmap_ortho exactFloatOps (some topRightPoints) 1 (some [0, 0, 0, 0]) 2 2 0
        255
      = some (some [0, 255, 0, 0], [1]) := by
  refine ⟨?_, ?_, ?_, ?_, ?_, ?_, by decide!⟩
  · by_cases hz : width = 0 ∨ height = 0
    · have hnone : (List.range pointCount).filterMap (writeTarget P pts width height) = [] := by
        rw [List.filterMap_eq_nil_iff]
        intro i _
        exact writeTarget_zero_width P pts width height i hz
      refine ⟨buf, ?_, rfl, ?_⟩
      · simp [aios_render_heightmap_ortho, hz, hnone]
      · intro k; simp [hnone]
    · obtain ⟨buf1, h1, h2, h3⟩ := renderLoop_spec P pts width height baseColor
        (List.range pointCount) buf [] hlen
      refine ⟨buf1, ?_, h2, h3⟩
      simp only [aios_render_heightmap_ortho, if_neg hz, h1, List.nil_append]
  · intro j
    have hmem := List.get_mem ((List.range pointCount).filterMap (writeTarget P pts width height))
      j.val j.isLt
    obtain ⟨i, _, hi⟩ := List.mem_filterMap.mp hmem
    have hlt := writeTarget_lt P pts width height i _ hi
    have hw : 0 < width := by
      by_contra hcon
      have h0 : width = 0 := by omega
      have hprod : width * height = 0 := by rw [h0, Nat.zero_mul]
      omega
    exact ⟨hlt, Nat.mod_lt _ hw, (Nat.div_lt_iff_lt_mul hw).mpr (by rw [Nat.mul_comm]; exact hlt)⟩
  · cases bufO <;> rfl
  · cases ptsO <;> rfl
  · cases ptsO <;> cases bufO <;> simp [aios_render_heightmap_ortho]
  · cases ptsO <;> cases bufO <;> simp [aios_render_heightmap_ortho]

/-- Witness for C28: a 2 x 2 buffer and one point, in exact arithmetic. -/
theorem render_writes_within_buffer_witness :
    [0, 0, 0, 0].length = 2 * 2 ∧
    ∃ buf1, aios_render_heightmap_ortho exactFloatOps (some topRightPoints) 1
          (some [0, 0, 0, 0]) 2 2 0 255
        = some (some buf1, (List.range 1).filterMap (writeTarget exactFloatOps topRightPoints 2 2))
        ∧ buf1.length = [0, 0, 0, 0].length
        ∧ ∀ k, buf1[k]?
          = if k ∈ (List.range 1).filterMap (writeTarget exactFloatOps topRightPoints 2 2)
            then some 255 else [0, 0, 0, 0][k]? :=
  ⟨rfl,
    (render_writes_within_buffer exactFloatOps topRightPoints none none 1 2 2 0 255 [0, 0, 0, 0]
      rfl).1⟩

end aios
